import Mathlib

/-!
# plural-cli: the `crypto` commands (`cmd/plural/crypto.go`)

A shallow embedding of the encrypt / decrypt entry points and of the filter
policy manager (`CheckGitCrypt`, `cryptoInit`).  Go functions that return an
`error` and act on the process environment become functions
`World → Option Error × World`; the collaborators that live outside
`crypto.go` (the cipher provider, the standard streams, the file helpers, the
`git config` subprocess) are the fields of `Env`, so every theorem holds for
all behaviours of those collaborators.

The key commands (`handleRecover`, `exportKey`, `importKey`, `randString`,
`handleCryptoShare`) take the functions of `pkg/crypto` and `pkg/kubernetes`
as the fields of `KeyEnv` in the same way.  Where a property is decided by
what those functions compute (the key record, the random strings), they are
modelled from the spec (`parseKeyRecord`, `marshalKeyRecord`,
`persistKeyRecord`, `specMaterialize`, `specRandStr`) and the theorem is
stated for a `KeyEnv` whose fields are these models.
-/

namespace Plural

/-! ## Data model -/

/-- Go `[]byte`. -/
abbrev Bytes := List UInt8

/-- Go `[]byte(s)` for a string constant: its UTF-8 encoding. -/
def stringBytes (s : String) : Bytes := s.toUTF8.data.toList

/-- A non-nil Go `error`, kept as its message; `Option Error` is a Go `error`
with `none` for `nil`. -/
abbrev Error := String

/-- `var prefix = []byte("CHARTMART-ENCRYPTED")` (crypto.go:22), the spec's
MAGIC_PREFIX.  The Go name is a reserved word here, hence the longer name. -/
def prefixBytes : Bytes := stringBytes "CHARTMART-ENCRYPTED"

/-- The constant `GitAttributesFile` (crypto.go:25). -/
def GitAttributesFile : String := ".gitattributes"

/-- The constant `GitIgnoreFile` (crypto.go:26). -/
def GitIgnoreFile : String := ".gitignore"

/-- The constant `Gitattributes` (crypto.go:29-41), line by line. -/
def Gitattributes : String :=
  "/**/helm/**/values.yaml filter=plural-crypt diff=plural-crypt\n" ++
  "/**/helm/**/values.yaml* filter=plural-crypt diff=plural-crypt\n" ++
  "/**/terraform/**/main.tf filter=plural-crypt diff=plural-crypt\n" ++
  "/**/terraform/**/main.tf* filter=plural-crypt diff=plural-crypt\n" ++
  "/**/manifest.yaml filter=plural-crypt diff=plural-crypt\n" ++
  "/**/output.yaml filter=plural-crypt diff=plural-crypt\n" ++
  "/diffs/**/* filter=plural-crypt diff=plural-crypt\n" ++
  "context.yaml filter=plural-crypt diff=plural-crypt\n" ++
  "workspace.yaml filter=plural-crypt diff=plural-crypt\n" ++
  "context.yaml* filter=plural-crypt diff=plural-crypt\n" ++
  "workspace.yaml* filter=plural-crypt diff=plural-crypt\n" ++
  ".gitattributes !filter !diff\n"

/-- The constant `Gitignore` (crypto.go:43-53), line by line. -/
def Gitignore : String :=
  "/**/.terraform\n" ++
  "/**/.terraform*\n" ++
  "/**/terraform.tfstate*\n" ++
  "/bin\n" ++
  "*~\n" ++
  ".idea\n" ++
  "*.swp\n" ++
  "*.swo\n" ++
  ".DS_STORE\n" ++
  ".vscode\n"

/-- Modelled from the spec: `crypto.Provider` (package `pkg/crypto`, not part
of these sources).  The spec's cipher provider encrypts and decrypts "using a
materialized key", so a provider is identified by its key material. -/
structure Provider where
  key : Bytes
  deriving DecidableEq, Repr

/-- The part of `*cli.Context` the commands read: the positional arguments
(`c.Args()`). -/
structure Context where
  args : List String
  deriving DecidableEq, Repr

/-- Modelled from the spec: `crypto.AESKey` (package `pkg/crypto`, not part of
these sources), the spec's KeyRecord.  `crypto.go` reads its field `Key`, a Go
string, that is a sequence of bytes. -/
structure AESKey where
  Key : Bytes
  deriving DecidableEq, Repr

/-- Modelled from the spec: the provider returned by
`crypto.BuildAgeProvider()` (package `pkg/crypto`, not part of these sources):
the current symmetric key together with the recipients it is wrapped for. -/
structure AgeProvider where
  key : Bytes
  recipients : List String
  deriving DecidableEq, Repr

/-- One call to a collaborator outside `crypto.go`, as recorded in
`World.log`. -/
inductive Call where
  | readStdin
  | osOpen (path : String)
  | readFile (path : String)
  | stdoutWrite (b : Bytes)
  | build
  | encrypt (p : Provider) (d : Bytes)
  | decrypt (p : Provider) (d : Bytes)
  | highlight (msg : String)
  | fileExists (path : String)
  | gitConfig (name val : String)
  | writeFile (path : String) (content : Bytes)
  | kubernetes
  | secret (ns name : String)
  | cryptoImport (buf : Bytes)
  | cryptoSetup (key : Bytes)
  | success (msg : String)
  | materialize
  | marshal (k : AESKey)
  | keyFlush (k : AESKey)
  | randStr (n : Int)
  | setupAge (emails : List String)
  | buildAgeProvider
  | flush (prov : AgeProvider)
  deriving DecidableEq, Repr

/-- The behaviour of the collaborators that `crypto.go` calls and that are not
part of these sources.  Each is a parameter: nothing is assumed about it
beyond its Go signature. -/
structure Env where
  /-- `crypto.Build()`: from the local key file (absent, or its content) to a
  provider or an error, and the key file it leaves behind. -/
  Build : Option Bytes → Except Error Provider × Option Bytes
  /-- `crypto.Encrypt(prov, data)`. -/
  Encrypt : Provider → Bytes → Except Error Bytes
  /-- `crypto.Decrypt(prov, data)`. -/
  Decrypt : Provider → Bytes → Except Error Bytes
  /-- Failure of `os.Stdout.Write(b)` given what was written before: `none`
  when the whole buffer is accepted, `some (n, e)` when only the first `n`
  bytes are and the error `e` is returned. -/
  stdoutFault : Bytes → Bytes → Option (Nat × Error)
  /-- Failure of reading an opened file to the end: `some (n, e)` when only
  the first `n` bytes come back, with the error `e`. -/
  readFault : String → Option (Nat × Error)
  /-- Failure of `git config name val`. -/
  gitConfigFault : String → String → Option Error
  /-- Failure of writing `content` to the file at a path: the error, and what
  the path holds afterwards. -/
  writeFileFault : String → Bytes → Option (Error × Option Bytes)
  /-- Go leaves the iteration order of a map unspecified; this is the order
  the two-entry map of `CheckGitCrypt` is ranged over in this run. -/
  attributesFirst : Bool

/-- The process environment a command runs in. -/
structure World where
  /-- What `ioutil.ReadAll(os.Stdin)` returns: the bytes read ... -/
  stdin : Bytes
  /-- ... and the error that ended the read, if any. -/
  stdinErr : Option Error
  /-- Everything written to standard output so far. -/
  stdout : Bytes
  /-- The current working directory (an absolute path). -/
  cwd : String
  /-- The root of the enclosing git repository (an absolute path). -/
  repoRoot : String
  /-- Regular files by absolute path: absent, or the content. -/
  files : String → Option Bytes
  /-- The local git configuration: unset, or the value. -/
  gitConfig : String → Option String
  /-- The local key file of the key store: absent, or its content. -/
  keyFile : Option Bytes
  /-- The collaborator calls made so far, oldest first. -/
  log : List Call

/-- Append one call to the log. -/
def World.record (w : World) (c : Call) : World :=
  { w with log := w.log ++ [c] }

/-! ## Collaborators -/

/-- Go `bytes.HasPrefix(s, prefix)`:
`len(s) >= len(prefix) && Equal(s[:len(prefix)], prefix)`. -/
def bytesHasPrefix (s p : Bytes) : Bool :=
  decide (p.length ≤ s.length) && (s.take p.length == p)

/-- Go `filepath.IsAbs` on a Unix path. -/
def filepathIsAbs (p : String) : Bool :=
  match p.data with
  | c :: _ => c == '/'
  | [] => false

/-- Go `filepath.Abs(p)` with the working directory `cwd`: an absolute path is
kept, a relative one is joined to `cwd`.  The lexical cleaning of
`filepath.Clean` is left out, so this is the path Go computes only for a clean
`p` (no `.` or `..` element, no doubled or trailing slash) and a clean `cwd`
other than `/`. -/
def filepathAbs (cwd p : String) : String :=
  if filepathIsAbs p then p else cwd ++ "/" ++ p

/-- The source of `ioutil.ReadAll` in `handleDecrypt` (an `io.Reader`):
standard input, or the file opened at a path. -/
inductive Reader where
  | stdin
  | file (path : String)
  deriving DecidableEq, Repr

/-- Go `os.Open(p)`: fails when no file is there. -/
def osOpen (p : String) (w : World) : Except Error Reader × World :=
  match w.files p with
  | some _ => (.ok (Reader.file p), w.record (Call.osOpen p))
  | none => (.error ("open " ++ p ++ ": no such file or directory"), w.record (Call.osOpen p))

/-- Go `ioutil.ReadAll(r)`: the bytes read and the error that stopped the
read, if any. -/
def ioutilReadAll (env : Env) (r : Reader) (w : World) : (Bytes × Option Error) × World :=
  match r with
  | Reader.stdin => ((w.stdin, w.stdinErr), w.record Call.readStdin)
  | Reader.file p =>
    match w.files p with
    | none => (([], some ("read " ++ p ++ ": file already closed")), w.record (Call.readFile p))
    | some content =>
      match env.readFault p with
      | none => ((content, none), w.record (Call.readFile p))
      | some (n, e) => ((content.take n, some e), w.record (Call.readFile p))

/-- Go `os.Stdout.Write(b)`: appends the buffer, or a part of it together
with an error. -/
def stdoutWrite (env : Env) (b : Bytes) (w : World) : Option Error × World :=
  match env.stdoutFault w.stdout b with
  | none => (none, { w with stdout := w.stdout ++ b, log := w.log ++ [Call.stdoutWrite b] })
  | some (n, e) =>
    (some e, { w with stdout := w.stdout ++ b.take n, log := w.log ++ [Call.stdoutWrite b] })

/-- The call `crypto.Build()`. -/
def cryptoBuild (env : Env) (w : World) : Except Error Provider × World :=
  ((env.Build w.keyFile).1, { w with keyFile := (env.Build w.keyFile).2, log := w.log ++ [Call.build] })

/-- The call `crypto.Encrypt(prov, data)`. -/
def cryptoEncrypt (env : Env) (prov : Provider) (data : Bytes) (w : World) :
    Except Error Bytes × World :=
  (env.Encrypt prov data, w.record (Call.encrypt prov data))

/-- The call `crypto.Decrypt(prov, data)`. -/
def cryptoDecrypt (env : Env) (prov : Provider) (data : Bytes) (w : World) :
    Except Error Bytes × World :=
  (env.Decrypt prov data, w.record (Call.decrypt prov data))

/-! ## `handleEncrypt` and `handleDecrypt` -/

/-- The function `handleEncrypt` (crypto.go:137-169).  The prefix test comes
before the test of the read error, as in the source. -/
def handleEncrypt (env : Env) (_c : Context) (w : World) : Option Error × World :=
  match ioutilReadAll env Reader.stdin w with
  | ((data, err), w1) =>
    if bytesHasPrefix data prefixBytes then
      match stdoutWrite env data w1 with
      | (some e, w2) => (some e, w2)
      | (none, w2) => (none, w2)
    else
      match err with
      | some e => (some e, w1)
      | none =>
        match cryptoBuild env w1 with
        | (.error e, w2) => (some e, w2)
        | (.ok prov, w2) =>
          match cryptoEncrypt env prov data w2 with
          | (.error e, w3) => (some e, w3)
          | (.ok result, w3) =>
            match stdoutWrite env prefixBytes w3 with
            | (some e, w4) => (some e, w4)
            | (none, w4) =>
              match stdoutWrite env result w4 with
              | (some e, w5) => (some e, w5)
              | (none, w5) => (none, w5)

/-- Lines 187-213 of `handleDecrypt`: everything after the reader is chosen. -/
def handleDecryptFrom (env : Env) (file : Reader) (w : World) : Option Error × World :=
  match ioutilReadAll env file w with
  | ((_, some e), w1) => (some e, w1)
  | ((data, none), w1) =>
    if !bytesHasPrefix data prefixBytes then
      match stdoutWrite env data w1 with
      | (some e, w2) => (some e, w2)
      | (none, w2) => (none, w2)
    else
      match cryptoBuild env w1 with
      | (.error e, w2) => (some e, w2)
      | (.ok prov, w2) =>
        match cryptoDecrypt env prov (data.drop prefixBytes.length) w2 with
        | (.error e, w3) => (some e, w3)
        | (.ok result, w3) =>
          match stdoutWrite env result w3 with
          | (some e, w4) => (some e, w4)
          | (none, w4) => (none, w4)

/-- Lines 172-185 of `handleDecrypt`: the reader is the file named by the
first argument when there is one (`c.Args().Present()`), standard input
otherwise; a file that cannot be opened is an error. -/
def decryptInput (c : Context) (w : World) : Except Error Reader × World :=
  match c.args with
  | first :: _ => osOpen (filepathAbs w.cwd first) w
  | [] => (.ok Reader.stdin, w)

/-- The function `handleDecrypt` (crypto.go:171-214). -/
def handleDecrypt (env : Env) (c : Context) (w : World) : Option Error × World :=
  match decryptInput c w with
  | (.error e, w1) => (some e, w1)
  | (.ok file, w1) => handleDecryptFrom env file w1

/-! ## The filter policy manager: `cryptoInit` and `CheckGitCrypt` -/

/-- Modelled from the spec: `utils.Highlight` (package `pkg/utils`, not part
of these sources), one of the "logging/formatting helpers" the spec leaves out
of scope.  Only the call is recorded. -/
def utilsHighlight (msg : String) (w : World) : World :=
  w.record (Call.highlight msg)

/-- Modelled from the spec: `utils.Exists` (package `pkg/utils`, not part of
these sources): whether the policy file is "present".  A relative name is
resolved against the working directory, as the operating system does. -/
def utilsExists (path : String) (w : World) : Bool × World :=
  ((w.files (filepathAbs w.cwd path)).isSome, w.record (Call.fileExists (filepathAbs w.cwd path)))

/-- Modelled from the spec: `utils.ReadFile` (package `pkg/utils`, not part of
these sources): the content of the file, or an error when the file is absent
or the read fails. -/
def utilsReadFile (env : Env) (path : String) (w : World) : Except Error Bytes × World :=
  match ioutilReadAll env (Reader.file (filepathAbs w.cwd path)) w with
  | ((_, some e), w1) => (.error e, w1)
  | ((content, none), w1) => (.ok content, w1)

/-- Modelled from the spec: `utils.CompareFileContent` (package `pkg/utils`,
not part of these sources): "reads both policy files if present and compares
byte-for-byte against the canonical constants". -/
def utilsCompareFileContent (env : Env) (filename content : String) (w : World) :
    Except Error Bool × World :=
  match utilsReadFile env filename w with
  | (.error e, w1) => (.error e, w1)
  | (.ok c, w1) => (.ok (c == stringBytes content), w1)

/-- Modelled from the spec: `utils.WriteFile` (package `pkg/utils`, not part
of these sources): writes the file, "overwriting any existing content"; on
failure the path holds what the environment left there. -/
def utilsWriteFile (env : Env) (path : String) (content : Bytes) (w : World) :
    Option Error × World :=
  match env.writeFileFault (filepathAbs w.cwd path) content with
  | none =>
    (none, { w with
      files := fun q => if q = filepathAbs w.cwd path then some content else w.files q,
      log := w.log ++ [Call.writeFile (filepathAbs w.cwd path) content] })
  | some (e, left) =>
    (some e, { w with
      files := fun q => if q = filepathAbs w.cwd path then left else w.files q,
      log := w.log ++ [Call.writeFile (filepathAbs w.cwd path) content] })

/-- Modelled from the spec: `gitConfig` (package `main`, in a file that is not
part of these sources): writes one entry of the local version-control
configuration, or fails and leaves the configuration as it was. -/
def gitConfig (env : Env) (name val : String) (w : World) : Option Error × World :=
  match env.gitConfigFault name val with
  | some e => (some e, w.record (Call.gitConfig name val))
  | none =>
    (none, { w with
      gitConfig := fun k => if k = name then some val else w.gitConfig k,
      log := w.log ++ [Call.gitConfig name val] })

/-- The local `encryptConfig` of `cryptoInit` (crypto.go:238-243); each row
`{name, value}` of the Go slice is a pair. -/
def encryptConfig : List (String × String) :=
  [ ("filter.plural-crypt.smudge", "plural crypto decrypt"),
    ("filter.plural-crypt.clean", "plural crypto encrypt"),
    ("filter.plural-crypt.required", "true"),
    ("diff.plural-crypt.textconv", "plural crypto decrypt") ]

/-- The loop of `cryptoInit` (crypto.go:246-250): one `gitConfig` per row,
stopping at the first error. -/
def gitConfigAll (env : Env) : List (String × String) → World → Option Error × World
  | [], w => (none, w)
  | conf :: rest, w =>
    match gitConfig env conf.1 conf.2 w with
    | (some e, w1) => (some e, w1)
    | (none, w1) => gitConfigAll env rest w1

/-- The function `cryptoInit` (crypto.go:237-262), the spec's `Install()`. -/
def cryptoInit (env : Env) (_c : Context) (w : World) : Option Error × World :=
  match gitConfigAll env encryptConfig (utilsHighlight "Creating git encryption filters\n\n" w) with
  | (some e, w1) => (some e, w1)
  | (none, w1) =>
    match utilsWriteFile env GitAttributesFile (stringBytes Gitattributes) w1 with
    | (some e, w2) => (some e, w2)
    | (none, w2) =>
      match utilsWriteFile env GitIgnoreFile (stringBytes Gitignore) w2 with
      | (some e, w3) => (some e, w3)
      | (none, w3) =>
        match cryptoBuild env w3 with
        | (.error e, w4) => (some e, w4)
        | (.ok _, w4) => (none, w4)

/-- The map `toCompare` of `CheckGitCrypt` (crypto.go:222), in the order it is
ranged over in this run. -/
def toCompare (env : Env) : List (String × String) :=
  if env.attributesFirst then
    [(GitAttributesFile, Gitattributes), (GitIgnoreFile, Gitignore)]
  else
    [(GitIgnoreFile, Gitignore), (GitAttributesFile, Gitattributes)]

/-- The loop of `CheckGitCrypt` (crypto.go:224-232). -/
def compareLoop (env : Env) (c : Context) : List (String × String) → World → Option Error × World
  | [], w => (none, w)
  | (file, content) :: rest, w =>
    match utilsCompareFileContent env file content w with
    | (.error e, w1) => (some e, w1)
    | (.ok equal, w1) =>
      if !equal then cryptoInit env c w1 else compareLoop env c rest w1

/-- The function `CheckGitCrypt` (crypto.go:218-235), the spec's
`CheckAndReconcile()`.  The `||` of line 219 does not look at the second file
when the first is missing. -/
def CheckGitCrypt (env : Env) (c : Context) (w : World) : Option Error × World :=
  match utilsExists GitAttributesFile w with
  | (false, w1) => cryptoInit env c w1
  | (true, w1) =>
    match utilsExists GitIgnoreFile w1 with
    | (false, w2) => cryptoInit env c w2
    | (true, w2) => compareLoop env c (toCompare env) w2


/-! ## Key store, cluster recovery, random strings and sharing -/

/-- The part of a Kubernetes `v1.Secret` that `handleRecover` reads: the map
`Data`, as a list of its entries. -/
structure V1Secret where
  Data : List (String × Bytes)

/-- Go `m[k]` with the comma-ok form, on a map given by its entries. -/
def mapIndex (m : List (String × Bytes)) (k : String) : Option Bytes :=
  m.lookup k

/-- The method of the interface `kubernetes.Kube` (not part of these sources)
that `handleRecover` calls: `Secret(namespace, name)`. -/
structure Kube where
  Secret : String → String → Except Error V1Secret

/-- Modelled from the spec: `api.PublicKey` (package `pkg/api`, not part of
these sources): a public key "registered server-side keyed by a human-readable
name/account". -/
structure PublicKey where
  email : String
  content : String
  deriving DecidableEq, Repr

/-- The method of the interface `api.Client` (not part of these sources) that
the test of the share command mocks: `ListKeys(emails)`, the "identity lookup
by a list of user identifiers". -/
structure Client where
  ListKeys : List String → Except Error (List PublicKey)

set_option linter.dupNamespace false in
/-- The struct `Plural` (plural.go:24-27): the two embedded interfaces, each
possibly nil. -/
structure Plural where
  Client : Option Client
  Kube : Option Kube

/-- The flags of `*cli.Context` that the commands of `crypto.go` read, next to
the positional arguments: `--len` (when given) and the `--email` values. -/
structure FlagContext extends Context where
  len : Option Int
  email : List String

/-- The behaviour of the functions of the packages `pkg/crypto` and
`pkg/kubernetes` that the key commands call; none of them is part of these
sources, so each is a parameter.  The key-store functions see and leave the
local key file, the sharing functions the files of the repository. -/
structure KeyEnv where
  /-- `kubernetes.Kubernetes()`. -/
  Kubernetes : Except Error Kube
  /-- `crypto.Import(buf)`. -/
  Import : Bytes → Except Error AESKey
  /-- `crypto.Setup(key)`: the error, and the key file it leaves, from the key
  and the key file before. -/
  Setup : Bytes → Option Bytes → Option Error × Option Bytes
  /-- `crypto.Materialize()`. -/
  Materialize : Option Bytes → Except Error AESKey × Option Bytes
  /-- `(*AESKey).Marshal()`. -/
  Marshal : AESKey → Except Error Bytes
  /-- `(*AESKey).Flush()`. -/
  KeyFlush : AESKey → Option Bytes → Option Error × Option Bytes
  /-- `crypto.RandStr(n)`. -/
  RandStr : Int → Except Error Bytes
  /-- `crypto.SetupAge(client, emails)`. -/
  SetupAge : Option Client → List String → (String → Option Bytes) →
    Option Error × (String → Option Bytes)
  /-- `crypto.BuildAgeProvider()`. -/
  BuildAgeProvider : (String → Option Bytes) → Option Bytes → Except Error AgeProvider
  /-- `crypto.Flush(prov)`. -/
  Flush : AgeProvider → (String → Option Bytes) → Option Error × (String → Option Bytes)

/-- Modelled from the spec: `utils.Success` (package `pkg/utils`, not part of
these sources), one of the "logging/formatting helpers" the spec leaves out of
scope.  Only the call is recorded. -/
def utilsSuccess (msg : String) (w : World) : World :=
  w.record (Call.success msg)

/-- Go `fmt.Println(s)`: writes the text and a newline to standard output; the
commands ignore what it returns. -/
def fmtPrintln (env : Env) (s : Bytes) (w : World) : World :=
  (stdoutWrite env (s ++ [10]) w).2

/-- The method `InitKube` (plural.go:29-38). -/
def InitKube (kenv : KeyEnv) (p : Plural) (w : World) : Option Error × Plural × World :=
  match p.Kube with
  | none =>
    match kenv.Kubernetes with
    | .error e => (some e, p, w.record Call.kubernetes)
    | .ok kube => (none, { p with Kube := some kube }, w.record Call.kubernetes)
  | some _ => (none, p, w)

/-- The call `p.Secret(namespace, name)` through the embedded interface; on a
nil interface Go panics, which is reported here as an error. -/
def pluralSecret (p : Plural) (ns name : String) (w : World) :
    Except Error V1Secret × World :=
  match p.Kube with
  | none => (.error "invalid memory address or nil pointer dereference",
      w.record (Call.secret ns name))
  | some kube => (kube.Secret ns name, w.record (Call.secret ns name))

/-- The call `crypto.Import(buf)`. -/
def cryptoImport (kenv : KeyEnv) (buf : Bytes) (w : World) : Except Error AESKey × World :=
  (kenv.Import buf, w.record (Call.cryptoImport buf))

/-- The call `crypto.Setup(key)`. -/
def cryptoSetup (kenv : KeyEnv) (key : Bytes) (w : World) : Option Error × World :=
  ((kenv.Setup key w.keyFile).1,
    { w with keyFile := (kenv.Setup key w.keyFile).2, log := w.log ++ [Call.cryptoSetup key] })

/-- The call `crypto.Materialize()`. -/
def cryptoMaterialize (kenv : KeyEnv) (w : World) : Except Error AESKey × World :=
  ((kenv.Materialize w.keyFile).1,
    { w with keyFile := (kenv.Materialize w.keyFile).2, log := w.log ++ [Call.materialize] })

/-- The call `key.Marshal()`. -/
def keyMarshal (kenv : KeyEnv) (k : AESKey) (w : World) : Except Error Bytes × World :=
  (kenv.Marshal k, w.record (Call.marshal k))

/-- The call `key.Flush()`. -/
def keyFlush (kenv : KeyEnv) (k : AESKey) (w : World) : Option Error × World :=
  ((kenv.KeyFlush k w.keyFile).1,
    { w with keyFile := (kenv.KeyFlush k w.keyFile).2, log := w.log ++ [Call.keyFlush k] })

/-- The call `crypto.RandStr(n)`. -/
def cryptoRandStr (kenv : KeyEnv) (n : Int) (w : World) : Except Error Bytes × World :=
  (kenv.RandStr n, w.record (Call.randStr n))

/-- The call `crypto.SetupAge(p.Client, emails)`. -/
def cryptoSetupAge (kenv : KeyEnv) (client : Option Client) (emails : List String)
    (w : World) : Option Error × World :=
  ((kenv.SetupAge client emails w.files).1,
    { w with files := (kenv.SetupAge client emails w.files).2,
             log := w.log ++ [Call.setupAge emails] })

/-- The call `crypto.BuildAgeProvider()`. -/
def cryptoBuildAgeProvider (kenv : KeyEnv) (w : World) : Except Error AgeProvider × World :=
  (kenv.BuildAgeProvider w.files w.keyFile, w.record Call.buildAgeProvider)

/-- The call `crypto.Flush(prov)`. -/
def cryptoFlush (kenv : KeyEnv) (prov : AgeProvider) (w : World) : Option Error × World :=
  ((kenv.Flush prov w.files).1,
    { w with files := (kenv.Flush prov w.files).2, log := w.log ++ [Call.flush prov] })

/-- The method `handleCryptoShare` (crypto.go:264-276); `c.StringSlice("email")`
is `c.email`. -/
def handleCryptoShare (kenv : KeyEnv) (p : Plural) (c : FlagContext) (w : World) :
    Option Error × World :=
  match cryptoSetupAge kenv p.Client c.email w with
  | (some e, w1) => (some e, w1)
  | (none, w1) =>
    match cryptoBuildAgeProvider kenv w1 with
    | (.error e, w2) => (some e, w2)
    | (.ok prov, w2) => cryptoFlush kenv prov w2

/-- The function `exportKey` (crypto.go:303-317). -/
def exportKey (kenv : KeyEnv) (env : Env) (_c : Context) (w : World) : Option Error × World :=
  match cryptoMaterialize kenv w with
  | (.error e, w1) => (some e, w1)
  | (.ok key, w1) =>
    match keyMarshal kenv key w1 with
    | (.error e, w2) => (some e, w2)
    | (.ok marshal, w2) =>
      match stdoutWrite env marshal w2 with
      | (some e, w3) => (some e, w3)
      | (none, w3) => (none, w3)

/-- The function `importKey` (crypto.go:319-329). -/
def importKey (kenv : KeyEnv) (env : Env) (_c : Context) (w : World) : Option Error × World :=
  match ioutilReadAll env Reader.stdin w with
  | ((_, some e), w1) => (some e, w1)
  | ((data, none), w1) =>
    match cryptoImport kenv data w1 with
    | (.error e, w2) => (some e, w2)
    | (.ok key, w2) => keyFlush kenv key w2

/-- The line that `handleRecover` prints last (crypto.go:411). -/
def recoverHint : Bytes :=
  stringBytes ("you might need to run `plural crypto init` and " ++
    "`plural crypto setup-keys` to decrypt any repos with your new key")

/-- The method `handleRecover` (crypto.go:386-413). -/
def handleRecover (kenv : KeyEnv) (env : Env) (p : Plural) (_c : Context) (w : World) :
    Option Error × Plural × World :=
  match InitKube kenv p w with
  | (some e, p1, w1) => (some e, p1, w1)
  | (none, p1, w1) =>
    match pluralSecret p1 "console" "console-conf" w1 with
    | (.error e, w2) => (some e, p1, w2)
    | (.ok secret, w2) =>
      match mapIndex secret.Data "key" with
      | none => (some "could not find `key` in console-conf secret", p1, w2)
      | some key =>
        match cryptoImport kenv key w2 with
        | (.error e, w3) => (some e, p1, w3)
        | (.ok aesKey, w3) =>
          match cryptoSetup kenv aesKey.Key w3 with
          | (some e, w4) => (some e, p1, w4)
          | (none, w4) =>
            (none, p1,
              fmtPrintln env recoverHint
                (utilsSuccess "Key successfully synced locally!\n" w4))

/-- The default of the flag `--len` of the `random` command (`Value: 32`,
crypto.go:95). -/
def randomLenDefault : Int := 32

/-- The call `c.Int("len")`: the value given on the command line, or the
default of the flag. -/
def cIntLen (c : FlagContext) : Int :=
  c.len.getD randomLenDefault

/-- The call `c.Args().Get(n)`: the n-th positional argument, or the empty
string when there is none. -/
def argsGet (c : Context) (n : Nat) : String :=
  c.args.getD n ""

/-- The value of a non-empty run of decimal digits. -/
def digitsValue (ds : List Char) : Option Nat :=
  if ds.isEmpty then none
  else
    ds.foldl
      (fun acc ch =>
        match acc with
        | none => none
        | some v => if ch.isDigit then some (v * 10 + (ch.toNat - 48)) else none)
      (some 0)

/-- Go `strconv.Atoi(s)` with a 64-bit `int`: an optional sign and a non-empty
run of decimal digits, in the range of `int`.  The strings accepted and the
values are those of Go; the texts of the errors are approximate (Go quotes the
argument with `strconv.Quote`, and reports a value out of range when the
overflow comes before a character that is no digit). -/
def strconvAtoi (s : String) : Except Error Int :=
  let signed : Bool × List Char :=
    match s.data with
    | '+' :: rest => (false, rest)
    | '-' :: rest => (true, rest)
    | rest => (false, rest)
  match digitsValue signed.2 with
  | none => .error ("strconv.Atoi: parsing \"" ++ s ++ "\": invalid syntax")
  | some v =>
    if signed.1 then
      if v ≤ 2 ^ 63 then .ok (-(v : Int))
      else .error ("strconv.Atoi: parsing \"" ++ s ++ "\": value out of range")
    else
      if v < 2 ^ 63 then .ok (v : Int)
      else .error ("strconv.Atoi: parsing \"" ++ s ++ "\": value out of range")

/-- Lines 341-347 of `randString`: generate and print. -/
def randStringPrint (kenv : KeyEnv) (env : Env) (intVar : Int) (w : World) :
    Option Error × World :=
  match cryptoRandStr kenv intVar w with
  | (.error e, w1) => (some e, w1)
  | (.ok str, w1) => (none, fmtPrintln env str w1)

/-- The function `randString` (crypto.go:331-348). -/
def randString (kenv : KeyEnv) (env : Env) (c : FlagContext) (w : World) :
    Option Error × World :=
  if argsGet c.toContext 0 != "" then
    match strconvAtoi (argsGet c.toContext 0) with
    | .error e => (some e, w)
    | .ok intVar => randStringPrint kenv env intVar w
  else randStringPrint kenv env (cIntLen c) w

/-! ## The key record and the random strings of `pkg/crypto`, from the spec -/

/-- The alphabet of Go `base64.StdEncoding`. -/
def base64Alphabet : Bytes :=
  stringBytes "ABCDEFGHIJKLMNOPQRSTUVWXYZabcdefghijklmnopqrstuvwxyz0123456789+/"

/-- The character of a 6-bit value. -/
def base64Char (n : Nat) : UInt8 :=
  base64Alphabet.getD n 61

/-- The 6-bit value of a character of the alphabet. -/
def base64Value (ch : UInt8) : Option Nat :=
  if base64Alphabet.indexOf ch < 64 then some (base64Alphabet.indexOf ch) else none

/-- Go `base64.StdEncoding.EncodeToString`: three bytes become four
characters, the last group is padded with `=`. -/
def base64Encode : Bytes → Bytes
  | a :: b :: c :: rest =>
    base64Char (a.toNat / 4) :: base64Char (a.toNat % 4 * 16 + b.toNat / 16) ::
      base64Char (b.toNat % 16 * 4 + c.toNat / 64) :: base64Char (c.toNat % 64) ::
      base64Encode rest
  | [a, b] =>
    [base64Char (a.toNat / 4), base64Char (a.toNat % 4 * 16 + b.toNat / 16),
      base64Char (b.toNat % 16 * 4), 61]
  | [a] => [base64Char (a.toNat / 4), base64Char (a.toNat % 4 * 16), 61, 61]
  | [] => []

/-- The groups of four characters of a base64 text; padding may only end the
text.  The two bits (four bits) left over in a padded group are not checked,
as in Go's non-strict `StdEncoding`. -/
def base64DecodeGroups : Bytes → Except Error Bytes
  | a :: b :: c :: d :: rest =>
    match base64Value a, base64Value b with
    | some x, some y =>
      if d = 61 then
        if rest ≠ [] then .error "illegal base64 data"
        else if c = 61 then .ok [UInt8.ofNat (x * 4 + y / 16)]
        else
          match base64Value c with
          | some z => .ok [UInt8.ofNat (x * 4 + y / 16), UInt8.ofNat (y % 16 * 16 + z / 4)]
          | none => .error "illegal base64 data"
      else
        match base64Value c, base64Value d with
        | some z, some t =>
          match base64DecodeGroups rest with
          | .ok more =>
            .ok (UInt8.ofNat (x * 4 + y / 16) :: UInt8.ofNat (y % 16 * 16 + z / 4) ::
              UInt8.ofNat (z % 4 * 64 + t) :: more)
          | .error e => .error e
        | _, _ => .error "illegal base64 data"
    | _, _ => .error "illegal base64 data"
  | [] => .ok []
  | _ => .error "illegal base64 data"

/-- Go `base64.StdEncoding.DecodeString`: carriage returns and newlines are
ignored, the rest is decoded group by group. -/
def base64Decode (s : Bytes) : Except Error Bytes :=
  base64DecodeGroups (s.filter (fun ch => ch != 10 && ch != 13))

/-- The first `n` bytes of an entropy source. -/
def randomBytes (entropy : Nat → UInt8) (n : Nat) : Bytes :=
  (List.range n).map entropy

/-- Modelled from the spec: `crypto.RandStr` (package `pkg/crypto`, not part
of these sources), the spec's `RandomBytes(n)`: "generate n cryptographically
random bytes and return a fixed reversible text encoding", the standard base64
of the test.  A negative length is an error. -/
def specRandStr (entropy : Nat → UInt8) (n : Int) : Except Error Bytes :=
  if n < 0 then .error "makeslice: len out of range"
  else .ok (base64Encode (randomBytes entropy n.toNat))

/-- The text a key record starts with. -/
def keyHeader : Bytes := stringBytes "key: "

/-- A character of a base64 text: of the alphabet, or the padding `=`. -/
def isBase64Char (ch : UInt8) : Bool :=
  base64Alphabet.contains ch || ch == 61

/-- A text of base64 characters only. -/
def isBase64Text (v : Bytes) : Bool :=
  v.all isBase64Char

/-- A text without its final newline, when it has one. -/
def stripNewline (v : Bytes) : Bytes :=
  if v.getLast? = some 10 then v.dropLast else v

/-- Modelled from the spec: `(*AESKey).Marshal` (package `pkg/crypto`, not
part of these sources): the portable representation of a KeyRecord, the line
`key: <b64>` of the spec's recovery property. -/
def marshalKeyRecord (k : AESKey) : Bytes :=
  keyHeader ++ k.Key ++ [10]

/-- Modelled from the spec: `crypto.Import` (package `pkg/crypto`, not part of
these sources): parse a KeyRecord representation.  The terminal shape is
`key: <b64>` with or without the final newline; a record "nested inside
itself" (`key: |` and the wrapped record on the following line, as in the
corrupted file of `TestRecover`) is unwrapped "bounded by a small fixed depth"
(`fuel`), beyond which the blob is corrupted; anything else is unreadable. -/
def parseKeyRecord (fuel : Nat) (buf : Bytes) : Except Error AESKey :=
  if bytesHasPrefix (buf.dropWhile (fun ch => ch == 32)) keyHeader then
    if bytesHasPrefix ((buf.dropWhile (fun ch => ch == 32)).drop keyHeader.length) [124, 10] then
      match fuel with
      | 0 => .error "CorruptedKeyBlob: the key record is nested too deeply"
      | fuel + 1 =>
        parseKeyRecord fuel
          (((buf.dropWhile (fun ch => ch == 32)).drop keyHeader.length).drop 2)
    else if isBase64Text
        (stripNewline ((buf.dropWhile (fun ch => ch == 32)).drop keyHeader.length)) then
      .ok ⟨stripNewline ((buf.dropWhile (fun ch => ch == 32)).drop keyHeader.length)⟩
    else .error "KeyUnreadable: the key is not base64 text"
  else .error "KeyUnreadable: not a key record"

/-- Modelled from the spec: the write of a KeyRecord to the local key file
shared by `crypto.Setup` and `(*AESKey).Flush` (package `pkg/crypto`, not part
of these sources): "overwriting the local key unconditionally", and on failure
"never a torn write": the file stays as it was. -/
def persistKeyRecord (fault : Bytes → Option Error) (k : AESKey) (prior : Option Bytes) :
    Option Error × Option Bytes :=
  match fault (marshalKeyRecord k) with
  | none => (none, some (marshalKeyRecord k))
  | some e => (some e, prior)

/-- Modelled from the spec: `crypto.Materialize` (package `pkg/crypto`, not
part of these sources): "read and parse the KeyRecord from the resolved path;
if absent, atomically generate a new cryptographically random key of the
required length, wrap it in a KeyRecord, persist it, and return it", and fail
on a record that does not parse. -/
def specMaterialize (fuel : Nat) (entropy : Nat → UInt8) (keyLength : Nat)
    (fault : Bytes → Option Error) (keyFile : Option Bytes) :
    Except Error AESKey × Option Bytes :=
  match keyFile with
  | some content => (parseKeyRecord fuel content, keyFile)
  | none =>
    match persistKeyRecord fault ⟨base64Encode (randomBytes entropy keyLength)⟩ none with
    | (none, file) => (.ok ⟨base64Encode (randomBytes entropy keyLength)⟩, file)
    | (some e, file) => (.error e, file)

/-- The requested identities for which the lookup returned no public key. -/
def unresolved (keys : List PublicKey) (emails : List String) : List String :=
  emails.filter (fun e => !keys.any (fun k => k.email == e))

/-- The names of a list, separated by a comma and a blank. -/
def joinNames : List String → String
  | [] => ""
  | [a] => a
  | a :: b :: rest => a ++ ", " ++ joinNames (b :: rest)

/-- Modelled from the spec: the `RecipientResolutionError` of the spec, which
"carries the list of failing identities"; errors are texts here, so the text
names each of them. -/
def resolutionError (failed : List String) : Error :=
  "no public key registered for: " ++ joinNames failed

/-- Modelled from the spec: `crypto.SetupAge(client, emails)` (package
`pkg/crypto`, not part of these sources), the resolution step of the spec's
`Share(emails)`: "resolve each given identity string to a previously
registered public key via the external API; for any identity with no
registered public key, record a resolution failure rather than silently
skipping it", and "if any recipient failed resolution, the operation must
report exactly which ones".  A failing lookup "surfaces immediately as an
error and leaves local persisted state untouched".  The spec leaves open
whether the recipients that did resolve are still recorded when others fail:
`partialUpdate` is that policy, and `envelope` is what recording the resolved
keys does to the files of the repository.  A nil client makes Go panic, which
is reported as an error. -/
def specSetupAge (envelope : List PublicKey → (String → Option Bytes) → (String → Option Bytes))
    (partialUpdate : Bool) (client : Option Client) (emails : List String)
    (files : String → Option Bytes) : Option Error × (String → Option Bytes) :=
  match client with
  | none => (some "invalid memory address or nil pointer dereference", files)
  | some api =>
    match api.ListKeys emails with
    | .error e => (some e, files)
    | .ok keys =>
      if (unresolved keys emails).isEmpty then (none, envelope keys files)
      else
        (some (resolutionError (unresolved keys emails)),
          if partialUpdate then envelope keys files else files)

/-! ## A concrete environment for evaluating the commands -/

/-- A toy authenticated cipher: the ciphertext is the key followed by the
plaintext. -/
def tagEncrypt (p : Provider) (d : Bytes) : Except Error Bytes :=
  .ok (p.key ++ d)

/-- Decryption for `tagEncrypt`: a ciphertext that does not start with the key
is rejected. -/
def tagDecrypt (p : Provider) (ct : Bytes) : Except Error Bytes :=
  if bytesHasPrefix ct p.key then .ok (ct.drop p.key.length)
  else .error "cipher: message authentication failed"

/-- An environment without failures: the key file holds the key itself (a
fresh key `[7]` is stored when it is absent), the cipher is the toy cipher and
every write and read goes through. -/
def sampleEnv : Env where
  Build := fun k =>
    match k with
    | some key => (.ok ⟨key⟩, some key)
    | none => (.ok ⟨[7]⟩, some [7])
  Encrypt := tagEncrypt
  Decrypt := tagDecrypt
  stdoutFault := fun _ _ => none
  readFault := fun _ => none
  gitConfigFault := fun _ _ => none
  writeFileFault := fun _ _ => none
  attributesFirst := true

/-- A world with the given standard input (read without error), the given key
file, nothing written yet, and an empty repository at `/repo`. -/
def sampleWorld (input : Bytes) (key : Bytes) : World where
  stdin := input
  stdinErr := none
  stdout := []
  cwd := "/repo"
  repoRoot := "/repo"
  files := fun _ => none
  gitConfig := fun _ => none
  keyFile := some key
  log := []

/-- The world of `sampleWorld` in which the read of standard input stopped
with an error after the bytes `input`. -/
def brokenReadWorld (input : Bytes) : World :=
  { sampleWorld input [7] with stdinErr := some "read /dev/stdin: input/output error" }

/-- A repository at `/repo` whose two policy files hold the canonical content
followed by extra bytes (`abc`, `some extra`), as in `TestCheckGitCrypt`. -/
def driftWorld : World :=
  { sampleWorld [] [7] with
    files := fun q =>
      if q = "/repo/.gitattributes" then some (stringBytes Gitattributes ++ stringBytes "abc")
      else if q = "/repo/.gitignore" then some (stringBytes Gitignore ++ stringBytes "some extra")
      else none }

/-- A checkout of the repository `/repo` with the working directory in the
subdirectory `/repo/helm`; no policy file exists anywhere. -/
def subdirWorld : World :=
  { sampleWorld [] [7] with cwd := "/repo/helm", repoRoot := "/repo" }

/-- The environment of `sampleEnv` in which `git config` fails for the entry
`filter.plural-crypt.required`, the third of `encryptConfig`. -/
def configFaultEnv : Env :=
  { sampleEnv with
    gitConfigFault := fun name _ =>
      if name = "filter.plural-crypt.required" then some "exit status 255" else none }

/-- The environment of `sampleEnv` in which writing `.gitattributes` fails and
leaves an empty file behind. -/
def writeFaultEnv : Env :=
  { sampleEnv with
    writeFileFault := fun path _ =>
      if path = "/repo/.gitattributes" then some ("no space left on device", some [])
      else none }

/-- The cluster handle that `InitKube` leaves in `p.Kube`: the one already
there, or the one `kubernetes.Kubernetes()` returns. -/
def kubeAfterInit (kenv : KeyEnv) (p : Plural) : Except Error Kube :=
  match p.Kube with
  | some kube => .ok kube
  | none => kenv.Kubernetes

/-- The calls that `InitKube` makes. -/
def initKubeCalls (p : Plural) : List Call :=
  match p.Kube with
  | some _ => []
  | none => [Call.kubernetes]

/-- A cluster whose secret `console-conf` in the namespace `console` has the
given data and that has no other secret. -/
def sampleKube (data : List (String × Bytes)) : Kube where
  Secret := fun ns name =>
    if ns = "console" ∧ name = "console-conf" then .ok ⟨data⟩
    else .error ("secrets \"" ++ name ++ "\" not found")

/-- The API client of `TestShare` (crypto_test.go:134-137): `ListKeys` returns
no key and no error, whatever the emails. -/
def testShareClient : Client where
  ListKeys := fun _ => .ok []

/-- A key environment for concrete runs: the key-store functions are the ones
modelled from the spec (unwrap depth 3, 32-byte keys, no failing write), and
so is `crypto.SetupAge` (nothing recorded when an identity fails to resolve);
`crypto.BuildAgeProvider` and `crypto.Flush` return nil. -/
def sampleKeyEnv : KeyEnv where
  Kubernetes := .error "could not load the cluster configuration"
  Import := parseKeyRecord 3
  Setup := fun key => persistKeyRecord (fun _ => none) ⟨key⟩
  Materialize := specMaterialize 3 (fun i => UInt8.ofNat (7 * i + 1)) 32 (fun _ => none)
  Marshal := fun k => .ok (marshalKeyRecord k)
  KeyFlush := persistKeyRecord (fun _ => none)
  RandStr := specRandStr (fun i => UInt8.ofNat (7 * i + 1))
  SetupAge := specSetupAge (fun _ files => files) false
  BuildAgeProvider := fun _ keyFile => .ok ⟨keyFile.getD [], []⟩
  Flush := fun _ files => (none, files)

/-- A cluster client already set up, as in `TestRecover`: the Kube handle is
`sampleKube data`. -/
def samplePlural (data : List (String × Bytes)) : Plural where
  Client := some testShareClient
  Kube := some (sampleKube data)

/-- The command line of `TestShare`: `crypto share --email test@email.com`. -/
def testShareContext : FlagContext where
  args := []
  len := none
  email := ["test@email.com"]

/-- The receiver of `TestShare`: `&plural.Plural{Client: client}` with the
mocked client. -/
def testSharePlural : Plural where
  Client := some testShareClient
  Kube := none

/-- The key environment of `sampleKeyEnv` in which `crypto.SetupAge` reports
the identities it could not resolve. -/
def unresolvedKeyEnv : KeyEnv :=
  { sampleKeyEnv with
    SetupAge := fun _ emails files =>
      (some ("no public key registered for: " ++ ", ".intercalate emails), files) }

/-- The key of `TestRecover` (crypto_test.go:164). -/
def testRecoverKey : Bytes := stringBytes "gKNJBnflqQA6lfUKLWMwl7CMJk4j+qqG9jnGYdTvwTk="

/-- The broken key file of `TestRecover` (crypto_test.go:177). -/
def testRecoverBrokenFile : Bytes :=
  stringBytes "      key: |\n        key: |\n          key: abc"

/-- The command line `crypto random` followed by the given positional
arguments, without the flag `--len`. -/
def randomContext (args : List String) : FlagContext where
  args := args
  len := none
  email := []

/-- A repository at `/repo` whose two policy files hold exactly the canonical
content, with the given key file. -/
def canonicalWorld (keyFile : Option Bytes) : World :=
  { sampleWorld [] [7] with
    keyFile := keyFile,
    files := fun q =>
      if q = "/repo/.gitattributes" then some (stringBytes Gitattributes)
      else if q = "/repo/.gitignore" then some (stringBytes Gitignore)
      else none }

/-- The calls by which `CheckGitCrypt` compares the two policy files, in the
order of this run. -/
def compareCalls (env : Env) (cwd : String) : List Call :=
  if env.attributesFirst then
    [Call.readFile (filepathAbs cwd GitAttributesFile),
     Call.readFile (filepathAbs cwd GitIgnoreFile)]
  else
    [Call.readFile (filepathAbs cwd GitIgnoreFile),
     Call.readFile (filepathAbs cwd GitAttributesFile)]

/-- The world with another state of the key store: the local key file absent,
or holding the given bytes (a key, or anything else). -/
def World.withKeyFile (w : World) (keyFile : Option Bytes) : World :=
  { w with keyFile := keyFile }

/-! ## Reading the attributes file -/

/-- The name of the filter and diff driver that the keys of `encryptConfig`
configure (`filter.<name>.clean`, `diff.<name>.textconv`). -/
def driverName : String := "plural-crypt"

/-- Split a text at every occurrence of a separator. -/
def splitAt (sep : Char) : List Char → List (List Char)
  | [] => [[]]
  | ch :: rest =>
    if ch = sep then [] :: splitAt sep rest
    else
      match splitAt sep rest with
      | [] => [[ch]]
      | first :: more => (ch :: first) :: more

/-- The non-empty lines of the constant `Gitattributes`. -/
def attributeLines : List (List Char) :=
  (splitAt '\n' Gitattributes.data).filter (fun line => !line.isEmpty)

/-- The attributes of a line of an attributes file: the words after the
pattern. -/
def lineAttributes (line : List Char) : List (List Char) :=
  (splitAt ' ' line).tail

/-- The driver an attribute assigns: `filter=<driver>` or `diff=<driver>`. -/
def driverOf (attr : List Char) : Option String :=
  if "filter=".data.isPrefixOf attr then some ⟨attr.drop 7⟩
  else if "diff=".data.isPrefixOf attr then some ⟨attr.drop 5⟩
  else none

/-- A mapping line assigns a driver in at least one of its attributes. -/
def isMappingLine (line : List Char) : Bool :=
  (lineAttributes line).any (fun attr => (driverOf attr).isSome)

/-- The configuration after the successful writes of a list of entries. -/
def configAfter (entries : List (String × String)) (g : String → Option String) :
    String → Option String :=
  entries.foldl (fun acc conf => fun k => if k = conf.1 then some conf.2 else acc k) g

/-! ## Argument counts and the zone of a region -/

/-- The part of `*cli.Context` that `requireArgs` reads: the positional
arguments (`c.NArg()` is their number) and the full name of the command
(`c.Command.FullName()`). -/
structure CommandContext extends Context where
  fullName : String
  deriving DecidableEq, Repr

/-- An action of a command, `func(*cli.Context) error`: it returns its error
and the world it leaves behind. -/
abbrev Action := CommandContext → World → Option Error × World

/-- Go's index expression `args[i]`, which panics when `i` is not below the
length. -/
def indexString (args : List String) (i : Nat) : Except Error String :=
  match args[i]? with
  | some a => .ok a
  | none => .error "runtime error: index out of range"

/-- The action that `requireArgs(fn, args)` returns (validation.go).  The outer
`Except.error` is a run-time panic; `Except.ok` holds what the action
returns. -/
def requireArgs (fn : Action) (args : List String) :
    CommandContext → World → Except Error (Option Error × World) :=
  fun c w =>
    let nargs := c.args.length
    if nargs > args.length then
      .ok (some ("Too many args passed to " ++ c.fullName ++
        ".  Try running --help to see usage"), w)
    else if nargs < args.length then
      match indexString args nargs with
      | .error e => .error e
      | .ok name =>
        .ok (some ("Not enough arguments provided, needs " ++ name ++
          ", try running --help to see usage"), w)
    else .ok (fn c w)

/-- Go's `strings.Split(s, sep)` for a separator of one character. -/
def stringsSplit (s : String) (sep : Char) : List String :=
  (splitAt sep s.data).map String.mk

/-- Go's `strings.Join(elems, sep)`. -/
def stringsJoin : List String → String → String
  | [], _ => ""
  | [a], _ => a
  | a :: b :: rest, sep => a ++ sep ++ stringsJoin (b :: rest) sep

/-- Go's slice expression `xs[:n]` on a slice whose capacity is its length, as
is the slice that `strings.Split` returns: it panics when `n` exceeds the
length. -/
def sliceTo (xs : List String) (n : Nat) : Except Error (List String) :=
  if n ≤ xs.length then .ok (xs.take n)
  else .error "runtime error: slice bounds out of range"

/-- The function `getZone` of pkg/provider/gcp.go; `Except.error` is a run-time
panic. -/
def getZone (region : String) : Except Error String :=
  let split := stringsSplit region '-'
  match sliceTo split 2 with
  | .error e => .error e
  | .ok firstTwo => .ok (stringsJoin firstTwo "-")

/-- A sample action: it records a call and fails with its first argument. -/
def sampleAction : Action :=
  fun c w => (c.args.head?, w.record Call.readStdin)

/-! ## Basic facts about the collaborators -/

theorem bytesHasPrefix_iff (s p : Bytes) :
    bytesHasPrefix s p = true ↔ ∃ t, s = p ++ t := by
  unfold bytesHasPrefix
  constructor
  · intro h
    simp at h
    refine ⟨s.drop p.length, ?_⟩
    conv_lhs => rw [← List.take_append_drop p.length s]
    rw [h.2]
  · rintro ⟨t, rfl⟩
    simp

theorem bytesHasPrefix_append (p t : Bytes) : bytesHasPrefix (p ++ t) p = true :=
  (bytesHasPrefix_iff _ _).2 ⟨t, rfl⟩

theorem stdoutWrite_ok (env : Env) (b : Bytes) (w w' : World)
    (h : stdoutWrite env b w = (none, w')) :
    w' = { w with stdout := w.stdout ++ b, log := w.log ++ [Call.stdoutWrite b] } := by
  unfold stdoutWrite at h
  split at h
  · simp at h; exact h.symm
  · simp at h

theorem stdoutWrite_of_noFault (env : Env) (b : Bytes) (w : World)
    (h : env.stdoutFault w.stdout b = none) :
    stdoutWrite env b w =
      (none, { w with stdout := w.stdout ++ b, log := w.log ++ [Call.stdoutWrite b] }) := by
  unfold stdoutWrite
  rw [h]

/-- On an input that starts with the marker, `handleEncrypt` is the single
write of that input. -/
theorem handleEncrypt_of_marked (env : Env) (c : Context) (w : World)
    (hp : bytesHasPrefix w.stdin prefixBytes = true) :
    handleEncrypt env c w = stdoutWrite env w.stdin (w.record Call.readStdin) := by
  unfold handleEncrypt
  simp only [ioutilReadAll, hp, if_true]
  split <;> simp_all

/-- What a successful run of `handleEncrypt` has done. -/
theorem handleEncrypt_ok_cases (env : Env) (c : Context) (w w' : World)
    (h : handleEncrypt env c w = (none, w')) :
    (bytesHasPrefix w.stdin prefixBytes = true ∧ w'.stdout = w.stdout ++ w.stdin) ∨
    (bytesHasPrefix w.stdin prefixBytes = false ∧ w.stdinErr = none ∧
      ∃ prov ct, (env.Build w.keyFile).1 = .ok prov ∧ env.Encrypt prov w.stdin = .ok ct ∧
        w'.stdout = w.stdout ++ prefixBytes ++ ct) := by
  by_cases hp : bytesHasPrefix w.stdin prefixBytes = true
  · left
    rw [handleEncrypt_of_marked env c w hp] at h
    have := stdoutWrite_ok env _ _ _ h
    exact ⟨hp, by rw [this]; rfl⟩
  · right
    have hp' : bytesHasPrefix w.stdin prefixBytes = false := by simpa using hp
    refine ⟨hp', ?_⟩
    unfold handleEncrypt at h
    simp only [ioutilReadAll, hp', World.record, cryptoBuild, cryptoEncrypt] at h
    cases herr : w.stdinErr with
    | some e => simp [herr] at h
    | none =>
      refine ⟨rfl, ?_⟩
      simp only [herr] at h
      cases hb : (env.Build w.keyFile).1 with
      | error e => simp [hb] at h
      | ok prov =>
        simp only [hb] at h
        cases hc : env.Encrypt prov w.stdin with
        | error e => simp [hc] at h
        | ok ct =>
          simp only [hc] at h
          refine ⟨prov, ct, rfl, hc, ?_⟩
          simp only [Bool.false_eq_true, if_false] at h
          split at h
          · simp at h
          · rename_i w4 h4
            split at h
            · simp at h
            · rename_i w5 h5
              have e4 := stdoutWrite_ok _ _ _ _ h4
              have e5 := stdoutWrite_ok _ _ _ _ h5
              simp only [Prod.mk.injEq, true_and] at h
              subst h
              rw [e5, e4]


/-- The run of `handleEncrypt` on an input that starts with the marker, when
the output accepts the write. -/
theorem handleEncrypt_marked_run (env : Env) (c : Context) (w : World)
    (hp : bytesHasPrefix w.stdin prefixBytes = true)
    (hwr : env.stdoutFault w.stdout w.stdin = none) :
    handleEncrypt env c w =
      (none, { w with
        stdout := w.stdout ++ w.stdin,
        log := w.log ++ [Call.readStdin, Call.stdoutWrite w.stdin] }) := by
  rw [handleEncrypt_of_marked env c w hp,
    stdoutWrite_of_noFault env w.stdin (w.record Call.readStdin) hwr]
  simp [World.record]

/-- What a successful run of `handleEncrypt` wrote starts with the marker. -/
theorem handleEncrypt_ok_marked (env : Env) (c : Context) (w : World) (e : Bytes)
    (h : (handleEncrypt env c w).1 = none)
    (hout : (handleEncrypt env c w).2.stdout = w.stdout ++ e) :
    bytesHasPrefix e prefixBytes = true := by
  have hrun : handleEncrypt env c w = (none, (handleEncrypt env c w).2) := Prod.ext h rfl
  rcases handleEncrypt_ok_cases env c w _ hrun with ⟨hp, hs⟩ | ⟨_, _, prov, ct, _, _, hs⟩
  · rw [hout] at hs
    rw [List.append_cancel_left hs]
    exact hp
  · rw [hout, List.append_assoc] at hs
    rw [List.append_cancel_left hs]
    exact bytesHasPrefix_append _ _

/-- The working of `decryptInput` leaves the output and the key file alone. -/
theorem decryptInput_ok (c : Context) (w w0 : World) (file : Reader)
    (hsrc : decryptInput c w = (.ok file, w0)) :
    w0.stdout = w.stdout ∧ w0.keyFile = w.keyFile := by
  unfold decryptInput at hsrc
  split at hsrc
  · unfold osOpen at hsrc
    split at hsrc <;> simp only [Prod.mk.injEq, reduceCtorEq, false_and] at hsrc
    rw [← hsrc.2]; exact ⟨rfl, rfl⟩
  · simp only [Prod.mk.injEq] at hsrc
    rw [← hsrc.2]; exact ⟨rfl, rfl⟩

theorem ioutilReadAll_world (env : Env) (r : Reader) (w : World) :
    (ioutilReadAll env r w).2 =
      w.record (match r with
        | Reader.stdin => Call.readStdin
        | Reader.file p => Call.readFile p) := by
  unfold ioutilReadAll
  cases r with
  | stdin => rfl
  | file p =>
    simp only
    split
    · rfl
    · split <;> rfl

/-- On an input without the marker, `handleDecrypt` past the read is the
single write of that input. -/
theorem handleDecryptFrom_of_unmarked (env : Env) (file : Reader) (w w1 : World) (y : Bytes)
    (hread : ioutilReadAll env file w = ((y, none), w1))
    (hp : bytesHasPrefix y prefixBytes = false) :
    handleDecryptFrom env file w = stdoutWrite env y w1 := by
  unfold handleDecryptFrom
  rw [hread]
  simp only [hp, Bool.not_false, if_true]
  split <;> simp_all

/-- On an input with the marker, `handleDecrypt` past the read builds the
provider and hands it the bytes after the marker. -/
theorem handleDecryptFrom_of_marked (env : Env) (file : Reader) (w w1 : World) (y : Bytes)
    (hread : ioutilReadAll env file w = ((y, none), w1))
    (hp : bytesHasPrefix y prefixBytes = true) :
    handleDecryptFrom env file w =
      match (env.Build w1.keyFile).1 with
      | .error e =>
        (some e, { w1 with keyFile := (env.Build w1.keyFile).2, log := w1.log ++ [Call.build] })
      | .ok prov =>
        match env.Decrypt prov (y.drop prefixBytes.length) with
        | .error e =>
          (some e, { w1 with
            keyFile := (env.Build w1.keyFile).2,
            log := w1.log ++ [Call.build] ++ [Call.decrypt prov (y.drop prefixBytes.length)] })
        | .ok result =>
          stdoutWrite env result { w1 with
            keyFile := (env.Build w1.keyFile).2,
            log := w1.log ++ [Call.build] ++ [Call.decrypt prov (y.drop prefixBytes.length)] } := by
  unfold handleDecryptFrom
  rw [hread]
  simp only [hp, Bool.not_true, Bool.false_eq_true, if_false, cryptoBuild, cryptoDecrypt,
    World.record]
  cases hb : (env.Build w1.keyFile).1 with
  | error e => rfl
  | ok prov =>
    simp only
    cases hd : env.Decrypt prov (y.drop prefixBytes.length) with
    | error e => rfl
    | ok result =>
      simp only
      split <;> simp_all


/-! ## Round trip through the two entry points -/

/-- The toy cipher decrypts what it encrypted. -/
theorem sampleEnv_law (p : Provider) (d ct : Bytes) (h : sampleEnv.Encrypt p d = .ok ct) :
    sampleEnv.Decrypt p ct = .ok d := by
  simp only [sampleEnv, tagEncrypt, Except.ok.injEq] at h
  subst h
  simp [sampleEnv, tagDecrypt, bytesHasPrefix_append]

/-- C1, counterexample: with the toy cipher (which satisfies
`Decrypt (Encrypt d) = d`) and no failing stream, the input
`CHARTMART-ENCRYPTEDhi` is written back unchanged by `handleEncrypt`, and
`handleDecrypt` on those bytes fails and writes nothing, not the input. -/
theorem handleDecrypt_handleEncrypt_marked_input :
    (∀ p d, ∃ ct, sampleEnv.Encrypt p d = .ok ct ∧ sampleEnv.Decrypt p ct = .ok d) ∧
    (handleEncrypt sampleEnv ⟨[]⟩ (sampleWorld (prefixBytes ++ [104, 105]) [7])).1 = none ∧
    (handleEncrypt sampleEnv ⟨[]⟩ (sampleWorld (prefixBytes ++ [104, 105]) [7])).2.stdout =
      prefixBytes ++ [104, 105] ∧
    (handleDecrypt sampleEnv ⟨[]⟩ (sampleWorld (prefixBytes ++ [104, 105]) [7])).1 =
      some "cipher: message authentication failed" ∧
    (handleDecrypt sampleEnv ⟨[]⟩ (sampleWorld (prefixBytes ++ [104, 105]) [7])).2.stdout = [] ∧
    (handleDecrypt sampleEnv ⟨[]⟩ (sampleWorld (prefixBytes ++ [104, 105]) [7])).2.stdout ≠
      prefixBytes ++ [104, 105] := by
  refine ⟨?_, by decide, by decide, by decide, by decide, by decide⟩
  intro p d
  refine ⟨p.key ++ d, rfl, ?_⟩
  simp [sampleEnv, tagDecrypt, bytesHasPrefix_append]

/-- C1 (amended): for every input `w.stdin` that does not start with the
marker, if `handleEncrypt` succeeds on it and writes `e`, then `handleDecrypt`
reading `e` from standard input under the same key succeeds and writes exactly
the original input, provided the cipher decrypts what it encrypted and the
output accepts the write. -/
theorem handleDecrypt_handleEncrypt_roundtrip (env : Env) (c : Context) (w wd : World)
    (e : Bytes)
    (hlaw : ∀ p d ct, env.Encrypt p d = .ok ct → env.Decrypt p ct = .ok d)
    (hx : bytesHasPrefix w.stdin prefixBytes = false)
    (henc : (handleEncrypt env c w).1 = none)
    (hout : (handleEncrypt env c w).2.stdout = w.stdout ++ e)
    (hin : wd.stdin = e) (hinErr : wd.stdinErr = none)
    (hkey : (env.Build wd.keyFile).1 = (env.Build w.keyFile).1)
    (hwr : env.stdoutFault wd.stdout w.stdin = none) :
    (handleDecrypt env ⟨[]⟩ wd).1 = none ∧
    (handleDecrypt env ⟨[]⟩ wd).2.stdout = wd.stdout ++ w.stdin := by
  have hrun : handleEncrypt env c w = (none, (handleEncrypt env c w).2) :=
    Prod.ext henc rfl
  rcases handleEncrypt_ok_cases env c w _ hrun with ⟨hp, _⟩ | ⟨_, _, prov, ct, hb, hc, hs⟩
  · rw [hx] at hp; exact absurd hp (by decide)
  · have he : e = prefixBytes ++ ct := by
      rw [hout, List.append_assoc] at hs
      exact List.append_cancel_left hs
    have hread : ioutilReadAll env Reader.stdin wd =
        ((prefixBytes ++ ct, none), wd.record Call.readStdin) := by
      simp [ioutilReadAll, hin, hinErr, he]
    have hd : env.Decrypt prov ((prefixBytes ++ ct).drop prefixBytes.length) = .ok w.stdin := by
      rw [List.drop_left]
      exact hlaw _ _ _ hc
    have hb' : (env.Build (wd.record Call.readStdin).keyFile).1 = .ok prov := by
      rw [← hb, ← hkey]; rfl
    have hmain := handleDecryptFrom_of_marked env Reader.stdin wd _ _ hread
      (bytesHasPrefix_append _ _)
    simp only [hb', hd] at hmain
    have hwr' : env.stdoutFault wd.stdout w.stdin = none := hwr
    unfold handleDecrypt decryptInput
    simp only [hmain]
    rw [stdoutWrite_of_noFault]
    · exact ⟨rfl, rfl⟩
    · exact hwr'


/-- C1, witness: the empty buffer and the buffer `hi`, encrypted and then
decrypted under the key `[7]`. -/
theorem handleDecrypt_handleEncrypt_roundtrip_witness :
    (bytesHasPrefix (sampleWorld [] [7]).stdin prefixBytes = false ∧
      (handleEncrypt sampleEnv ⟨[]⟩ (sampleWorld [] [7])).2.stdout = prefixBytes ++ [7] ∧
      (handleDecrypt sampleEnv ⟨[]⟩ (sampleWorld (prefixBytes ++ [7]) [7])).1 = none ∧
      (handleDecrypt sampleEnv ⟨[]⟩ (sampleWorld (prefixBytes ++ [7]) [7])).2.stdout = []) ∧
    (bytesHasPrefix (sampleWorld [104, 105] [7]).stdin prefixBytes = false ∧
      (handleEncrypt sampleEnv ⟨[]⟩ (sampleWorld [104, 105] [7])).2.stdout =
        prefixBytes ++ [7, 104, 105] ∧
      (handleDecrypt sampleEnv ⟨[]⟩ (sampleWorld (prefixBytes ++ [7, 104, 105]) [7])).1 = none ∧
      (handleDecrypt sampleEnv ⟨[]⟩ (sampleWorld (prefixBytes ++ [7, 104, 105]) [7])).2.stdout =
        [104, 105]) :=
  ⟨⟨by decide, by decide,
    handleDecrypt_handleEncrypt_roundtrip sampleEnv ⟨[]⟩ (sampleWorld [] [7])
      (sampleWorld (prefixBytes ++ [7]) [7]) (prefixBytes ++ [7])
      sampleEnv_law (by decide) (by decide) (by decide) rfl rfl rfl rfl⟩,
   ⟨by decide, by decide,
    handleDecrypt_handleEncrypt_roundtrip sampleEnv ⟨[]⟩ (sampleWorld [104, 105] [7])
      (sampleWorld (prefixBytes ++ [7, 104, 105]) [7]) (prefixBytes ++ [7, 104, 105])
      sampleEnv_law (by decide) (by decide) (by decide) rfl rfl rfl rfl⟩⟩

/-! ## The two passthroughs -/

/-- C2: on every input that starts with the marker (read in full), `handleEncrypt` returns
success, appends exactly the input to standard output, and its only
collaborator calls are the read and that one write: the provider is not built
and the cipher is not invoked (the output accepts the write). -/
theorem handleEncrypt_passthrough (env : Env) (c : Context) (w : World)
    (hp : bytesHasPrefix w.stdin prefixBytes = true)
    (_hread : w.stdinErr = none)
    (hwr : env.stdoutFault w.stdout w.stdin = none) :
    (handleEncrypt env c w).1 = none ∧
    (handleEncrypt env c w).2.stdout = w.stdout ++ w.stdin ∧
    (handleEncrypt env c w).2.log = w.log ++ [Call.readStdin, Call.stdoutWrite w.stdin] ∧
    (handleEncrypt env c w).2.keyFile = w.keyFile := by
  rw [handleEncrypt_marked_run env c w hp hwr]
  exact ⟨rfl, rfl, rfl, rfl⟩

/-- C2, witness: the input `CHARTMART-ENCRYPTED` followed by three bytes. -/
theorem handleEncrypt_passthrough_witness :
    bytesHasPrefix (prefixBytes ++ [1, 2, 3]) prefixBytes = true ∧
    (handleEncrypt sampleEnv ⟨[]⟩ (sampleWorld (prefixBytes ++ [1, 2, 3]) [7])).1 = none ∧
    (handleEncrypt sampleEnv ⟨[]⟩ (sampleWorld (prefixBytes ++ [1, 2, 3]) [7])).2.stdout =
      prefixBytes ++ [1, 2, 3] ∧
    (handleEncrypt sampleEnv ⟨[]⟩ (sampleWorld (prefixBytes ++ [1, 2, 3]) [7])).2.log =
      [Call.readStdin, Call.stdoutWrite (prefixBytes ++ [1, 2, 3])] :=
  have h := handleEncrypt_passthrough sampleEnv ⟨[]⟩ (sampleWorld (prefixBytes ++ [1, 2, 3]) [7])
    (by decide) rfl rfl
  ⟨by decide, h.1, h.2.1, h.2.2.1⟩

/-- C3: on every input `y` that was read in full and does not start with the
marker, `handleDecrypt` returns success and appends exactly `y` to standard
output, with that one write as its only call after the read (the output
accepts the write); every buffer shorter than the marker, the empty one
included, is such an input. -/
theorem handleDecrypt_passthrough (env : Env) (c : Context) (w w0 w1 : World)
    (file : Reader) (y : Bytes)
    (hsrc : decryptInput c w = (.ok file, w0))
    (hread : ioutilReadAll env file w0 = ((y, none), w1))
    (hp : bytesHasPrefix y prefixBytes = false)
    (hwr : env.stdoutFault w.stdout y = none) :
    (handleDecrypt env c w).1 = none ∧
    (handleDecrypt env c w).2.stdout = w.stdout ++ y ∧
    (handleDecrypt env c w).2.log = w1.log ++ [Call.stdoutWrite y] ∧
    (handleDecrypt env c w).2.keyFile = w.keyFile ∧
    (∀ z : Bytes, z.length < prefixBytes.length → bytesHasPrefix z prefixBytes = false) := by
  have hshort : ∀ z : Bytes, z.length < prefixBytes.length →
      bytesHasPrefix z prefixBytes = false := by
    intro z hz
    unfold bytesHasPrefix
    simp [Nat.not_le.mpr hz]
  suffices hmain : (handleDecrypt env c w).1 = none ∧
      (handleDecrypt env c w).2.stdout = w.stdout ++ y ∧
      (handleDecrypt env c w).2.log = w1.log ++ [Call.stdoutWrite y] ∧
      (handleDecrypt env c w).2.keyFile = w.keyFile from
    ⟨hmain.1, hmain.2.1, hmain.2.2.1, hmain.2.2.2, hshort⟩
  have h0 := decryptInput_ok c w w0 file hsrc
  have h1 := ioutilReadAll_world env file w0
  rw [hread] at h1
  simp only at h1
  have h1s : w1.stdout = w.stdout := by rw [h1]; exact h0.1
  have h1k : w1.keyFile = w.keyFile := by rw [h1]; exact h0.2
  unfold handleDecrypt
  rw [hsrc]
  simp only
  rw [handleDecryptFrom_of_unmarked env file w0 w1 y hread hp,
    stdoutWrite_of_noFault env _ _ (by rw [h1s]; exact hwr)]
  simp [h1s, h1k]

/-- C3, witness: the empty buffer and an 18-byte buffer (one byte short of the
marker) from standard input, and a plain file named on the command line. -/
theorem handleDecrypt_passthrough_witness :
    ((handleDecrypt sampleEnv ⟨[]⟩ (sampleWorld [] [7])).1 = none ∧
      (handleDecrypt sampleEnv ⟨[]⟩ (sampleWorld [] [7])).2.stdout = []) ∧
    ((handleDecrypt sampleEnv ⟨[]⟩ (sampleWorld (prefixBytes.take 18) [7])).1 = none ∧
      (handleDecrypt sampleEnv ⟨[]⟩ (sampleWorld (prefixBytes.take 18) [7])).2.stdout =
        prefixBytes.take 18) ∧
    ((handleDecrypt sampleEnv ⟨["values.yaml"]⟩
        { sampleWorld [] [7] with
          files := fun q => if q = "/repo/values.yaml" then some [97, 58, 49] else none }).1 = none ∧
      (handleDecrypt sampleEnv ⟨["values.yaml"]⟩
        { sampleWorld [] [7] with
          files := fun q => if q = "/repo/values.yaml" then some [97, 58, 49] else none }).2.stdout =
        [97, 58, 49]) :=
  have h1 := handleDecrypt_passthrough sampleEnv ⟨[]⟩ (sampleWorld [] [7]) _ _ Reader.stdin []
    rfl rfl (by decide) rfl
  have h2 := handleDecrypt_passthrough sampleEnv ⟨[]⟩ (sampleWorld (prefixBytes.take 18) [7])
    _ _ Reader.stdin (prefixBytes.take 18) rfl rfl (by decide) rfl
  have h3 := handleDecrypt_passthrough sampleEnv ⟨["values.yaml"]⟩
    { sampleWorld [] [7] with
      files := fun q => if q = "/repo/values.yaml" then some [97, 58, 49] else none }
    _ _ (Reader.file "/repo/values.yaml") [97, 58, 49] rfl rfl (by decide) rfl
  ⟨⟨h1.1, h1.2.1⟩, ⟨h2.1, h2.2.1⟩, ⟨h3.1, h3.2.1⟩⟩


/-! ## Idempotence and the layout of the payload -/

/-- C4: if a first run of `handleEncrypt` succeeds and writes `e`, a run of
`handleEncrypt` that reads `e` succeeds and writes exactly `e` again: its only
calls are the read and that one write, so nothing is encrypted or prefixed a
second time (the output accepts the write). -/
theorem handleEncrypt_idempotent (env : Env) (c c2 : Context) (w w2 : World) (e : Bytes)
    (h1 : (handleEncrypt env c w).1 = none)
    (hout : (handleEncrypt env c w).2.stdout = w.stdout ++ e)
    (hin : w2.stdin = e) (_hinErr : w2.stdinErr = none)
    (hwr : env.stdoutFault w2.stdout e = none) :
    (handleEncrypt env c2 w2).1 = none ∧
    (handleEncrypt env c2 w2).2.stdout = w2.stdout ++ e ∧
    (handleEncrypt env c2 w2).2.log = w2.log ++ [Call.readStdin, Call.stdoutWrite e] := by
  have hp := handleEncrypt_ok_marked env c w e h1 hout
  subst hin
  rw [handleEncrypt_marked_run env c2 w2 hp hwr]
  exact ⟨rfl, rfl, rfl⟩

/-- C4, witness: the buffer `hi` is encrypted to the marker followed by
`[7, 104, 105]`; encrypting that output again writes the same bytes. -/
theorem handleEncrypt_idempotent_witness :
    (handleEncrypt sampleEnv ⟨[]⟩ (sampleWorld [104, 105] [7])).1 = none ∧
    (handleEncrypt sampleEnv ⟨[]⟩ (sampleWorld [104, 105] [7])).2.stdout =
      prefixBytes ++ [7, 104, 105] ∧
    (handleEncrypt sampleEnv ⟨[]⟩ (sampleWorld (prefixBytes ++ [7, 104, 105]) [7])).1 = none ∧
    (handleEncrypt sampleEnv ⟨[]⟩ (sampleWorld (prefixBytes ++ [7, 104, 105]) [7])).2.stdout =
      prefixBytes ++ [7, 104, 105] :=
  have h := handleEncrypt_idempotent sampleEnv ⟨[]⟩ ⟨[]⟩ (sampleWorld [104, 105] [7])
    (sampleWorld (prefixBytes ++ [7, 104, 105]) [7]) (prefixBytes ++ [7, 104, 105])
    (by decide) (by decide) rfl rfl rfl
  ⟨by decide, by decide, h.1, h.2.1⟩

/-- C5: what a successful run of `handleEncrypt` wrote starts with the marker;
for an input without the marker it is the marker followed by the ciphertext
the provider returned for that input; and `handleDecrypt`, on an input with
the marker, calls the cipher once, on the input without its first
`len(prefix)` = 19 bytes. -/
theorem encryptedPayload_layout (env : Env) (c : Context) (w : World) (e : Bytes)
    (h1 : (handleEncrypt env c w).1 = none)
    (hout : (handleEncrypt env c w).2.stdout = w.stdout ++ e) :
    bytesHasPrefix e prefixBytes = true ∧
    (bytesHasPrefix w.stdin prefixBytes = false →
      ∃ prov ct, (env.Build w.keyFile).1 = .ok prov ∧ env.Encrypt prov w.stdin = .ok ct ∧
        e = prefixBytes ++ ct) ∧
    (∀ (cd : Context) (wd wd0 wd1 : World) (file : Reader) (y : Bytes) (prov : Provider),
      decryptInput cd wd = (.ok file, wd0) →
      ioutilReadAll env file wd0 = ((y, none), wd1) →
      bytesHasPrefix y prefixBytes = true →
      (env.Build wd.keyFile).1 = .ok prov →
      (handleDecrypt env cd wd).2.log =
        wd1.log ++ [Call.build, Call.decrypt prov (y.drop prefixBytes.length)] ++
          (match env.Decrypt prov (y.drop prefixBytes.length) with
            | .ok result => [Call.stdoutWrite result]
            | .error _ => [])) ∧
    prefixBytes.length = 19 := by
  have hrun : handleEncrypt env c w = (none, (handleEncrypt env c w).2) := Prod.ext h1 rfl
  refine ⟨handleEncrypt_ok_marked env c w e h1 hout, ?_, ?_, by decide⟩
  · intro hx
    rcases handleEncrypt_ok_cases env c w _ hrun with ⟨hp, _⟩ | ⟨_, _, prov, ct, hb, hc, hs⟩
    · rw [hx] at hp; exact absurd hp (by decide)
    · refine ⟨prov, ct, hb, hc, ?_⟩
      rw [hout, List.append_assoc] at hs
      exact List.append_cancel_left hs
  · intro cd wd wd0 wd1 file y prov hsrc hread hp hb
    have h0 := decryptInput_ok cd wd wd0 file hsrc
    have hw1 := ioutilReadAll_world env file wd0
    rw [hread] at hw1
    simp only at hw1
    have hk : wd1.keyFile = wd.keyFile := by rw [hw1]; exact h0.2
    unfold handleDecrypt
    rw [hsrc]
    simp only
    rw [handleDecryptFrom_of_marked env file wd0 wd1 y hread hp, hk, hb]
    simp only
    cases hd : env.Decrypt prov (y.drop prefixBytes.length) with
    | error err => simp
    | ok result =>
      simp only
      unfold stdoutWrite
      split <;> simp


/-- C5, witness: the payload written for `hi` under the key `[7]`, and the
calls of `handleDecrypt` on that payload. -/
theorem encryptedPayload_layout_witness :
    (handleEncrypt sampleEnv ⟨[]⟩ (sampleWorld [104, 105] [7])).1 = none ∧
    (handleEncrypt sampleEnv ⟨[]⟩ (sampleWorld [104, 105] [7])).2.stdout =
      prefixBytes ++ [7, 104, 105] ∧
    bytesHasPrefix (prefixBytes ++ [7, 104, 105]) prefixBytes = true ∧
    (handleDecrypt sampleEnv ⟨[]⟩ (sampleWorld (prefixBytes ++ [7, 104, 105]) [7])).2.log =
      [Call.readStdin, Call.build, Call.decrypt ⟨[7]⟩ [7, 104, 105],
        Call.stdoutWrite [104, 105]] :=
  have h := encryptedPayload_layout sampleEnv ⟨[]⟩ (sampleWorld [104, 105] [7])
    (prefixBytes ++ [7, 104, 105]) (by decide) (by decide)
  ⟨by decide, by decide, h.1,
    h.2.2.1 ⟨[]⟩ (sampleWorld (prefixBytes ++ [7, 104, 105]) [7]) _ _ Reader.stdin
      (prefixBytes ++ [7, 104, 105]) ⟨[7]⟩ rfl rfl (by decide) rfl⟩

/-! ## Failures -/

/-- C6: when the input read by `handleDecrypt` starts with the marker and the
cipher rejects the bytes after it (for the provider of the current key),
`handleDecrypt` returns an error (the cipher's own, when the provider was
built) and standard output is left exactly as it was. -/
theorem handleDecrypt_rejected (env : Env) (c : Context) (w w0 w1 : World)
    (file : Reader) (y : Bytes)
    (hsrc : decryptInput c w = (.ok file, w0))
    (hread : ioutilReadAll env file w0 = ((y, none), w1))
    (hp : bytesHasPrefix y prefixBytes = true)
    (hrej : ∀ prov, (env.Build w.keyFile).1 = .ok prov →
      ∃ e, env.Decrypt prov (y.drop prefixBytes.length) = .error e) :
    (handleDecrypt env c w).1 ≠ none ∧
    (∀ prov e, (env.Build w.keyFile).1 = .ok prov →
      env.Decrypt prov (y.drop prefixBytes.length) = .error e →
      (handleDecrypt env c w).1 = some e) ∧
    (handleDecrypt env c w).2.stdout = w.stdout ∧
    (∀ b, Call.stdoutWrite b ∈ (handleDecrypt env c w).2.log → Call.stdoutWrite b ∈ w1.log) := by
  have h0 := decryptInput_ok c w w0 file hsrc
  have hw1 := ioutilReadAll_world env file w0
  rw [hread] at hw1
  simp only at hw1
  have hk : w1.keyFile = w.keyFile := by rw [hw1]; exact h0.2
  have hs : w1.stdout = w.stdout := by rw [hw1]; exact h0.1
  unfold handleDecrypt
  rw [hsrc]
  simp only
  rw [handleDecryptFrom_of_marked env file w0 w1 y hread hp, hk]
  cases hb : (env.Build w.keyFile).1 with
  | error err =>
    simp only
    refine ⟨by simp, ?_, hs, ?_⟩
    · intro prov e hprov; cases hprov
    · intro b hb'; simpa using hb'
  | ok prov =>
    obtain ⟨err, hd⟩ := hrej prov hb
    simp only [hd]
    refine ⟨by simp, ?_, hs, ?_⟩
    · intro prov2 e hprov hd2
      cases hprov
      rw [hd] at hd2
      cases hd2
      rfl
    · intro b hb'; simpa using hb'

/-- C6, witness: a payload produced under the key `[7]`, decrypted when the
key file holds `[8]`, and a payload whose ciphertext was cut short. -/
theorem handleDecrypt_rejected_witness :
    ((handleEncrypt sampleEnv ⟨[]⟩ (sampleWorld [104, 105] [7])).2.stdout =
        prefixBytes ++ [7, 104, 105] ∧
      (handleDecrypt sampleEnv ⟨[]⟩ (sampleWorld (prefixBytes ++ [7, 104, 105]) [8])).1 =
        some "cipher: message authentication failed" ∧
      (handleDecrypt sampleEnv ⟨[]⟩ (sampleWorld (prefixBytes ++ [7, 104, 105]) [8])).2.stdout
        = []) ∧
    ((handleDecrypt sampleEnv ⟨[]⟩ (sampleWorld prefixBytes [7])).1 ≠ none ∧
      (handleDecrypt sampleEnv ⟨[]⟩ (sampleWorld prefixBytes [7])).2.stdout = []) :=
  have h1 := handleDecrypt_rejected sampleEnv ⟨[]⟩
    (sampleWorld (prefixBytes ++ [7, 104, 105]) [8]) _ _ Reader.stdin
    (prefixBytes ++ [7, 104, 105]) rfl rfl (by decide)
    (fun prov hprov => ⟨"cipher: message authentication failed", by
      cases (Except.ok.inj hprov); rfl⟩)
  have h2 := handleDecrypt_rejected sampleEnv ⟨[]⟩ (sampleWorld prefixBytes [7]) _ _
    Reader.stdin prefixBytes rfl rfl (by decide)
    (fun prov hprov => ⟨"cipher: message authentication failed", by
      cases (Except.ok.inj hprov); rfl⟩)
  ⟨⟨by decide, h1.2.1 ⟨[8]⟩ _ rfl rfl, h1.2.2.1⟩, ⟨h2.1, h2.2.2.1⟩⟩

/-- C7, the failing run: the read of standard input stops with an error after
the 19 bytes `CHARTMART-ENCRYPTED`.  `handleEncrypt` tests the marker before
the read error, writes the 19 bytes and returns success; `handleDecrypt`, which
tests the read error first, returns it on the same input, and so does
`handleEncrypt` itself on a cut-off input without the marker. -/
theorem handleEncrypt_read_error_dropped :
    (brokenReadWorld prefixBytes).stdinErr = some "read /dev/stdin: input/output error" ∧
    (handleEncrypt sampleEnv ⟨[]⟩ (brokenReadWorld prefixBytes)).1 = none ∧
    (handleEncrypt sampleEnv ⟨[]⟩ (brokenReadWorld prefixBytes)).2.stdout = prefixBytes ∧
    (handleDecrypt sampleEnv ⟨[]⟩ (brokenReadWorld prefixBytes)).1 =
      some "read /dev/stdin: input/output error" ∧
    (handleEncrypt sampleEnv ⟨[]⟩ (brokenReadWorld [104, 105])).1 =
      some "read /dev/stdin: input/output error" := by
  refine ⟨rfl, ?_, ?_, ?_, ?_⟩ <;> decide


/-! ## The filter policy manager -/

theorem filepathAbs_policy_files (cwd : String) :
    filepathAbs cwd GitAttributesFile = cwd ++ "/" ++ GitAttributesFile ∧
    filepathAbs cwd GitIgnoreFile = cwd ++ "/" ++ GitIgnoreFile ∧
    filepathAbs cwd GitAttributesFile ≠ filepathAbs cwd GitIgnoreFile := by
  have h1 : filepathAbs cwd GitAttributesFile = cwd ++ "/" ++ GitAttributesFile := rfl
  have h2 : filepathAbs cwd GitIgnoreFile = cwd ++ "/" ++ GitIgnoreFile := rfl
  refine ⟨h1, h2, ?_⟩
  rw [h1, h2]
  intro h
  have h' := congrArg String.data h
  simp only [String.data_append] at h'
  have h'' := List.append_cancel_left h'
  exact absurd h'' (by decide)

theorem gitConfigAll_ok (env : Env) (l : List (String × String)) :
    ∀ w : World, (gitConfigAll env l w).1 = none →
      gitConfigAll env l w =
        (none, { w with
          gitConfig := configAfter l w.gitConfig,
          log := w.log ++ l.map (fun conf => Call.gitConfig conf.1 conf.2) }) := by
  induction l with
  | nil =>
    intro w _
    simp [gitConfigAll, configAfter]
  | cons conf rest ih =>
    intro w h
    unfold gitConfigAll at h ⊢
    unfold gitConfig at h ⊢
    cases hf : env.gitConfigFault conf.1 conf.2 with
    | some e => simp [hf] at h
    | none =>
      simp only [hf] at h ⊢
      rw [ih _ h]
      simp [configAfter]


/-- What a successful run of `cryptoInit` has done: the four entries are in
the configuration, both policy files hold the canonical content, every other
file is as before, and the calls are the four `git config` writes, the two
file writes and the build of the provider, in that order. -/
theorem cryptoInit_ok (env : Env) (c : Context) (w : World)
    (h : (cryptoInit env c w).1 = none) :
    (cryptoInit env c w).2.gitConfig = configAfter encryptConfig w.gitConfig ∧
    (cryptoInit env c w).2.files (filepathAbs w.cwd GitAttributesFile) =
      some (stringBytes Gitattributes) ∧
    (cryptoInit env c w).2.files (filepathAbs w.cwd GitIgnoreFile) =
      some (stringBytes Gitignore) ∧
    (cryptoInit env c w).2.log =
      w.log ++ [Call.highlight "Creating git encryption filters\n\n"] ++
        encryptConfig.map (fun conf => Call.gitConfig conf.1 conf.2) ++
        [Call.writeFile (filepathAbs w.cwd GitAttributesFile) (stringBytes Gitattributes),
         Call.writeFile (filepathAbs w.cwd GitIgnoreFile) (stringBytes Gitignore),
         Call.build] := by
  have hne := (filepathAbs_policy_files w.cwd).2.2
  unfold cryptoInit at h ⊢
  cases hg : (gitConfigAll env encryptConfig
      (utilsHighlight "Creating git encryption filters\n\n" w)).1 with
  | some e =>
    have : gitConfigAll env encryptConfig
        (utilsHighlight "Creating git encryption filters\n\n" w) = (some e, _) :=
      Prod.ext hg rfl
    rw [this] at h
    simp at h
  | none =>
    rw [gitConfigAll_ok env _ _ hg] at h ⊢
    simp only [utilsWriteFile, utilsHighlight, World.record, cryptoBuild] at h ⊢
    cases ha : env.writeFileFault (filepathAbs w.cwd GitAttributesFile)
        (stringBytes Gitattributes) with
    | some r => simp [ha] at h
    | none =>
      simp only [ha] at h ⊢
      cases hi : env.writeFileFault (filepathAbs w.cwd GitIgnoreFile)
          (stringBytes Gitignore) with
      | some r => simp [hi] at h
      | none =>
        simp only [hi] at h ⊢
        cases hb : (env.Build w.keyFile).1 with
        | error e => simp [hb] at h
        | ok prov =>
          simp only [hb]
          refine ⟨trivial, ?_, ?_, ?_⟩
          · simp [hne]
          · simp
          · simp


theorem utilsCompareFileContent_ok (env : Env) (name content : String) (w : World) (b : Bytes)
    (hf : w.files (filepathAbs w.cwd name) = some b)
    (hr : env.readFault (filepathAbs w.cwd name) = none) :
    utilsCompareFileContent env name content w =
      (.ok (b == stringBytes content), w.record (Call.readFile (filepathAbs w.cwd name))) := by
  simp [utilsCompareFileContent, utilsReadFile, ioutilReadAll, hf, hr]

/-- When a policy file is missing or differs from its constant and the reads
go through, `CheckGitCrypt` is `cryptoInit`, run in a world that differs from
the initial one only by the recorded checks. -/
theorem CheckGitCrypt_drift (env : Env) (c : Context) (w : World)
    (hdrift : w.files (filepathAbs w.cwd GitAttributesFile) ≠ some (stringBytes Gitattributes) ∨
      w.files (filepathAbs w.cwd GitIgnoreFile) ≠ some (stringBytes Gitignore))
    (hra : env.readFault (filepathAbs w.cwd GitAttributesFile) = none)
    (hri : env.readFault (filepathAbs w.cwd GitIgnoreFile) = none) :
    ∃ w0 : World, CheckGitCrypt env c w = cryptoInit env c w0 ∧
      w0 = { w with log := w0.log } := by
  unfold CheckGitCrypt utilsExists
  cases ha : w.files (filepathAbs w.cwd GitAttributesFile) with
  | none =>
    simp only [Option.isSome_none]
    exact ⟨_, rfl, rfl⟩
  | some a =>
    have hi' : (w.record (Call.fileExists (filepathAbs w.cwd GitAttributesFile))).files
        (filepathAbs (w.record (Call.fileExists (filepathAbs w.cwd GitAttributesFile))).cwd
          GitIgnoreFile) = w.files (filepathAbs w.cwd GitIgnoreFile) := rfl
    cases hi : w.files (filepathAbs w.cwd GitIgnoreFile) with
    | none =>
      simp only [Option.isSome_some, hi', hi, Option.isSome_none]
      exact ⟨_, rfl, rfl⟩
    | some b =>
      simp only [Option.isSome_some, hi', hi]
      rw [ha, hi] at hdrift
      generalize hW : (w.record (Call.fileExists (filepathAbs w.cwd GitAttributesFile))).record
        (Call.fileExists
          (filepathAbs (w.record (Call.fileExists (filepathAbs w.cwd GitAttributesFile))).cwd
            GitIgnoreFile)) = W
      have hWc : W.cwd = w.cwd := by rw [← hW]; rfl
      have hWf : W.files = w.files := by rw [← hW]; rfl
      have haW : W.files (filepathAbs W.cwd GitAttributesFile) = some a := by
        rw [hWc, hWf]; exact ha
      have hiW : W.files (filepathAbs W.cwd GitIgnoreFile) = some b := by
        rw [hWc, hWf]; exact hi
      have hraW : env.readFault (filepathAbs W.cwd GitAttributesFile) = none := by
        rw [hWc]; exact hra
      have hriW : env.readFault (filepathAbs W.cwd GitIgnoreFile) = none := by
        rw [hWc]; exact hri
      unfold toCompare
      cases hord : env.attributesFirst with
      | true =>
        simp only [if_true, compareLoop]
        rw [utilsCompareFileContent_ok env _ _ W a haW hraW]
        by_cases hea : a = stringBytes Gitattributes
        · have heb : b ≠ stringBytes Gitignore := by
            rcases hdrift with h | h
            · exact absurd (congrArg some hea) h
            · exact fun hb => h (congrArg some hb)
          simp only [hea, beq_self_eq_true, Bool.not_true, Bool.false_eq_true, if_false]
          rw [utilsCompareFileContent_ok env _ _ (W.record _) b hiW hriW]
          have hb' : (b == stringBytes Gitignore) = false := by simpa using heb
          simp only [hb', Bool.not_false, if_true]
          exact ⟨_, rfl, by rw [← hW]; rfl⟩
        · have ha' : (a == stringBytes Gitattributes) = false := by simpa using hea
          simp only [ha', Bool.not_false, if_true]
          exact ⟨_, rfl, by rw [← hW]; rfl⟩
      | false =>
        simp only [Bool.false_eq_true, if_false, compareLoop]
        rw [utilsCompareFileContent_ok env _ _ W b hiW hriW]
        by_cases heb : b = stringBytes Gitignore
        · have hea : a ≠ stringBytes Gitattributes := by
            rcases hdrift with h | h
            · exact fun ha' => h (congrArg some ha')
            · exact absurd (congrArg some heb) h
          simp only [heb, beq_self_eq_true, Bool.not_true, Bool.false_eq_true, if_false]
          rw [utilsCompareFileContent_ok env _ _ (W.record _) a haW hraW]
          have ha' : (a == stringBytes Gitattributes) = false := by simpa using hea
          simp only [ha', Bool.not_false, if_true]
          exact ⟨_, rfl, by rw [← hW]; rfl⟩
        · have hb' : (b == stringBytes Gitignore) = false := by simpa using heb
          simp only [hb', Bool.not_false, if_true]
          exact ⟨_, rfl, by rw [← hW]; rfl⟩

/-- The four entries of `encryptConfig`, read back from a configuration they
were written to. -/
theorem configAfter_encryptConfig (g : String → Option String) :
    configAfter encryptConfig g "filter.plural-crypt.smudge" = some "plural crypto decrypt" ∧
    configAfter encryptConfig g "filter.plural-crypt.clean" = some "plural crypto encrypt" ∧
    configAfter encryptConfig g "filter.plural-crypt.required" = some "true" ∧
    configAfter encryptConfig g "diff.plural-crypt.textconv" = some "plural crypto decrypt" := by
  simp [configAfter, encryptConfig]

/-- C8: when neither `.gitattributes` nor `.gitignore` exists and
`CheckGitCrypt` returns success, both files exist with exactly the content of
the constants `Gitattributes` and `Gitignore`, the four filter entries are in
the git configuration, and each was written by a `git config` call. -/
theorem CheckGitCrypt_bootstrap (env : Env) (c : Context) (w : World)
    (ha : w.files (filepathAbs w.cwd GitAttributesFile) = none)
    (_hi : w.files (filepathAbs w.cwd GitIgnoreFile) = none)
    (hok : (CheckGitCrypt env c w).1 = none) :
    (CheckGitCrypt env c w).2.files (filepathAbs w.cwd GitAttributesFile) =
      some (stringBytes Gitattributes) ∧
    (CheckGitCrypt env c w).2.files (filepathAbs w.cwd GitIgnoreFile) =
      some (stringBytes Gitignore) ∧
    (CheckGitCrypt env c w).2.gitConfig "filter.plural-crypt.smudge" =
      some "plural crypto decrypt" ∧
    (CheckGitCrypt env c w).2.gitConfig "filter.plural-crypt.clean" =
      some "plural crypto encrypt" ∧
    (CheckGitCrypt env c w).2.gitConfig "filter.plural-crypt.required" = some "true" ∧
    (CheckGitCrypt env c w).2.gitConfig "diff.plural-crypt.textconv" =
      some "plural crypto decrypt" ∧
    (∀ conf ∈ encryptConfig,
      Call.gitConfig conf.1 conf.2 ∈ (CheckGitCrypt env c w).2.log) := by
  have hrun : CheckGitCrypt env c w =
      cryptoInit env c (w.record (Call.fileExists (filepathAbs w.cwd GitAttributesFile))) := by
    unfold CheckGitCrypt utilsExists
    simp only [ha, Option.isSome_none]
  rw [hrun] at hok ⊢
  obtain ⟨hg, hfa, hfi, hlog⟩ := cryptoInit_ok env c _ hok
  have hcfg := configAfter_encryptConfig w.gitConfig
  refine ⟨hfa, hfi, ?_, ?_, ?_, ?_, ?_⟩
  · rw [hg]; exact hcfg.1
  · rw [hg]; exact hcfg.2.1
  · rw [hg]; exact hcfg.2.2.1
  · rw [hg]; exact hcfg.2.2.2
  · intro conf hconf
    rw [hlog]
    simp only [List.mem_append, List.mem_map]
    exact Or.inl (Or.inr ⟨conf, hconf, rfl⟩)

/-- C8, witness: the empty repository at `/repo`. -/
theorem CheckGitCrypt_bootstrap_witness :
    (sampleWorld [] [7]).files "/repo/.gitattributes" = none ∧
    (sampleWorld [] [7]).files "/repo/.gitignore" = none ∧
    (CheckGitCrypt sampleEnv ⟨[]⟩ (sampleWorld [] [7])).1 = none ∧
    (CheckGitCrypt sampleEnv ⟨[]⟩ (sampleWorld [] [7])).2.files "/repo/.gitattributes" =
      some (stringBytes Gitattributes) ∧
    (CheckGitCrypt sampleEnv ⟨[]⟩ (sampleWorld [] [7])).2.files "/repo/.gitignore" =
      some (stringBytes Gitignore) ∧
    (CheckGitCrypt sampleEnv ⟨[]⟩ (sampleWorld [] [7])).2.gitConfig
      "filter.plural-crypt.required" = some "true" :=
  have h := CheckGitCrypt_bootstrap sampleEnv ⟨[]⟩ (sampleWorld [] [7]) rfl rfl (by decide)
  ⟨rfl, rfl, by decide, h.1, h.2.1, h.2.2.2.2.1⟩

/-- C9: when at least one of the two policy files is missing or differs from
its constant (and the reads of the files go through), `CheckGitCrypt` is a run
of `cryptoInit` from the same repository state, and when it returns success
both files hold exactly the canonical content. -/
theorem CheckGitCrypt_reconcile (env : Env) (c : Context) (w : World)
    (hdrift : w.files (filepathAbs w.cwd GitAttributesFile) ≠ some (stringBytes Gitattributes) ∨
      w.files (filepathAbs w.cwd GitIgnoreFile) ≠ some (stringBytes Gitignore))
    (hra : env.readFault (filepathAbs w.cwd GitAttributesFile) = none)
    (hri : env.readFault (filepathAbs w.cwd GitIgnoreFile) = none) :
    (∃ w0 : World, CheckGitCrypt env c w = cryptoInit env c w0 ∧
      w0 = { w with log := w0.log }) ∧
    ((CheckGitCrypt env c w).1 = none →
      (CheckGitCrypt env c w).2.files (filepathAbs w.cwd GitAttributesFile) =
        some (stringBytes Gitattributes) ∧
      (CheckGitCrypt env c w).2.files (filepathAbs w.cwd GitIgnoreFile) =
        some (stringBytes Gitignore)) := by
  obtain ⟨w0, hrun, hw0⟩ := CheckGitCrypt_drift env c w hdrift hra hri
  refine ⟨⟨w0, hrun, hw0⟩, ?_⟩
  intro hok
  rw [hrun] at hok ⊢
  have hc : w0.cwd = w.cwd := by rw [hw0]
  obtain ⟨_, hfa, hfi, _⟩ := cryptoInit_ok env c w0 hok
  rw [hc] at hfa hfi
  exact ⟨hfa, hfi⟩

set_option maxRecDepth 100000 in
/-- C9, witness: both files hold the canonical content followed by extra
bytes; after `CheckGitCrypt` both hold the canonical content alone. -/
theorem CheckGitCrypt_reconcile_witness :
    filepathAbs driftWorld.cwd GitAttributesFile = "/repo/.gitattributes" ∧
    filepathAbs driftWorld.cwd GitIgnoreFile = "/repo/.gitignore" ∧
    driftWorld.files "/repo/.gitattributes" =
      some (stringBytes Gitattributes ++ stringBytes "abc") ∧
    driftWorld.files "/repo/.gitignore" =
      some (stringBytes Gitignore ++ stringBytes "some extra") ∧
    (CheckGitCrypt sampleEnv ⟨[]⟩ driftWorld).1 = none ∧
    (CheckGitCrypt sampleEnv ⟨[]⟩ driftWorld).2.files
      (filepathAbs driftWorld.cwd GitAttributesFile) = some (stringBytes Gitattributes) ∧
    (CheckGitCrypt sampleEnv ⟨[]⟩ driftWorld).2.files
      (filepathAbs driftWorld.cwd GitIgnoreFile) = some (stringBytes Gitignore) :=
  have hne : driftWorld.files (filepathAbs driftWorld.cwd GitAttributesFile) ≠
      some (stringBytes Gitattributes) :=
    fun h => absurd (List.append_right_eq_self.mp (Option.some.inj h)) (by decide)
  have hok : (CheckGitCrypt sampleEnv ⟨[]⟩ driftWorld).1 = none := by decide
  have h := (CheckGitCrypt_reconcile sampleEnv ⟨[]⟩ driftWorld (Or.inl hne) rfl rfl).2 hok
  ⟨by decide, by decide, rfl, rfl, hok, h.1, h.2⟩

/-- C10: after a successful `cryptoInit` the clean filter is the encrypt
command, the smudge filter and the diff textconv are the decrypt command and
the filter is marked required; the keys configure the driver `plural-crypt`,
and each of the eleven mapping lines of `Gitattributes` assigns exactly that
driver as its filter and as its diff driver. -/
theorem cryptoInit_binding (env : Env) (c : Context) (w : World)
    (hok : (cryptoInit env c w).1 = none) :
    (cryptoInit env c w).2.gitConfig ("filter." ++ driverName ++ ".clean") =
      some "plural crypto encrypt" ∧
    (cryptoInit env c w).2.gitConfig ("filter." ++ driverName ++ ".smudge") =
      some "plural crypto decrypt" ∧
    (cryptoInit env c w).2.gitConfig ("diff." ++ driverName ++ ".textconv") =
      some "plural crypto decrypt" ∧
    (cryptoInit env c w).2.gitConfig ("filter." ++ driverName ++ ".required") = some "true" ∧
    driverName = "plural-crypt" ∧
    (attributeLines.filter isMappingLine).length = 11 ∧
    (∀ line ∈ attributeLines, isMappingLine line = true →
      lineAttributes line = [("filter=" ++ driverName).data, ("diff=" ++ driverName).data]) := by
  obtain ⟨hg, _, _, _⟩ := cryptoInit_ok env c w hok
  have hcfg := configAfter_encryptConfig w.gitConfig
  refine ⟨?_, ?_, ?_, ?_, rfl, by decide, by decide⟩
  · rw [hg]; exact hcfg.2.1
  · rw [hg]; exact hcfg.1
  · rw [hg]; exact hcfg.2.2.2
  · rw [hg]; exact hcfg.2.2.1

/-- C10, witness: `cryptoInit` in the empty repository at `/repo`. -/
theorem cryptoInit_binding_witness :
    (cryptoInit sampleEnv ⟨[]⟩ (sampleWorld [] [7])).1 = none ∧
    (cryptoInit sampleEnv ⟨[]⟩ (sampleWorld [] [7])).2.gitConfig "filter.plural-crypt.clean" =
      some "plural crypto encrypt" ∧
    (cryptoInit sampleEnv ⟨[]⟩ (sampleWorld [] [7])).2.gitConfig "filter.plural-crypt.smudge" =
      some "plural crypto decrypt" ∧
    (cryptoInit sampleEnv ⟨[]⟩ (sampleWorld [] [7])).2.gitConfig "diff.plural-crypt.textconv" =
      some "plural crypto decrypt" ∧
    (cryptoInit sampleEnv ⟨[]⟩ (sampleWorld [] [7])).2.gitConfig "filter.plural-crypt.required" =
      some "true" :=
  have h := cryptoInit_binding sampleEnv ⟨[]⟩ (sampleWorld [] [7]) (by decide)
  ⟨by decide, h.1, h.2.1, h.2.2.1, h.2.2.2.1⟩


/-! ## Where and in which order `cryptoInit` writes -/

theorem gitConfigAll_frame (env : Env) (l : List (String × String)) :
    ∀ w : World, (gitConfigAll env l w).2.files = w.files ∧
      (gitConfigAll env l w).2.cwd = w.cwd ∧
      (gitConfigAll env l w).2.keyFile = w.keyFile ∧
      (gitConfigAll env l w).2.stdout = w.stdout := by
  induction l with
  | nil => intro w; exact ⟨rfl, rfl, rfl, rfl⟩
  | cons conf rest ih =>
    intro w
    unfold gitConfigAll gitConfig
    cases hf : env.gitConfigFault conf.1 conf.2 with
    | some e => exact ⟨rfl, rfl, rfl, rfl⟩
    | none =>
      simp only
      exact ih _

/-- The run of the configuration loop when the entry after `done` is the first
to fail: the entries of `done` are written, the failing call is the last call,
and nothing after it is attempted. -/
theorem gitConfigAll_fail (env : Env) (done : List (String × String)) (conf : String × String)
    (rest : List (String × String)) (e : Error)
    (hdone : ∀ d ∈ done, env.gitConfigFault d.1 d.2 = none)
    (hconf : env.gitConfigFault conf.1 conf.2 = some e) :
    ∀ w : World, gitConfigAll env (done ++ conf :: rest) w =
      (some e, { w with
        gitConfig := configAfter done w.gitConfig,
        log := w.log ++ (done ++ [conf]).map (fun d => Call.gitConfig d.1 d.2) }) := by
  induction done with
  | nil =>
    intro w
    simp [gitConfigAll, gitConfig, hconf, configAfter, World.record]
  | cons d ds ih =>
    intro w
    have hd : env.gitConfigFault d.1 d.2 = none := hdone d (List.mem_cons_self _ _)
    have hds : ∀ x ∈ ds, env.gitConfigFault x.1 x.2 = none :=
      fun x hx => hdone x (List.mem_cons_of_mem _ hx)
    rw [List.cons_append, gitConfigAll]
    simp only [gitConfig, hd]
    rw [ih hds]
    simp [configAfter]


/-- Whatever the outcome, `cryptoInit` touches no file other than the two
policy files of the working directory. -/
theorem cryptoInit_files_frame (env : Env) (c : Context) (w : World) (q : String)
    (hqa : q ≠ filepathAbs w.cwd GitAttributesFile)
    (hqi : q ≠ filepathAbs w.cwd GitIgnoreFile) :
    (cryptoInit env c w).2.files q = w.files q := by
  obtain ⟨hf, hc, _, _⟩ := gitConfigAll_frame env encryptConfig
    (utilsHighlight "Creating git encryption filters\n\n" w)
  unfold cryptoInit
  generalize gitConfigAll env encryptConfig
    (utilsHighlight "Creating git encryption filters\n\n" w) = g at hf hc
  obtain ⟨r, w1⟩ := g
  have hf' : w1.files = w.files := hf
  have hc' : w1.cwd = w.cwd := hc
  cases r with
  | some e => simp only; rw [hf']
  | none =>
    simp only [utilsWriteFile, hc', cryptoBuild]
    cases env.writeFileFault (filepathAbs w.cwd GitAttributesFile) (stringBytes Gitattributes) with
    | some r => simp [hqa, hf']
    | none =>
      simp only
      cases env.writeFileFault (filepathAbs w.cwd GitIgnoreFile) (stringBytes Gitignore) with
      | some r => simp [hqa, hqi, hf']
      | none =>
        simp only
        cases (env.Build w1.keyFile).1 <;> simp [hqa, hqi, hf']


theorem gitConfigAll_of_noFault (env : Env) (l : List (String × String))
    (h : ∀ d ∈ l, env.gitConfigFault d.1 d.2 = none) :
    ∀ w : World, (gitConfigAll env l w).1 = none := by
  induction l with
  | nil => intro w; rfl
  | cons d ds ih =>
    intro w
    have hd : env.gitConfigFault d.1 d.2 = none := h d (List.mem_cons_self _ _)
    rw [gitConfigAll]
    simp only [gitConfig, hd]
    exact ih (fun x hx => h x (List.mem_cons_of_mem _ hx)) _

/-- C11, counterexample: `cryptoInit` run from the subdirectory `/repo/helm`
of the repository `/repo` succeeds, leaves `/repo/.gitattributes` and
`/repo/.gitignore` absent, and creates the two files in `/repo/helm`. -/
theorem cryptoInit_in_subdirectory :
    subdirWorld.cwd = "/repo/helm" ∧ subdirWorld.repoRoot = "/repo" ∧
    filepathAbs subdirWorld.repoRoot GitAttributesFile = "/repo/.gitattributes" ∧
    filepathAbs subdirWorld.repoRoot GitIgnoreFile = "/repo/.gitignore" ∧
    (cryptoInit sampleEnv ⟨[]⟩ subdirWorld).1 = none ∧
    (cryptoInit sampleEnv ⟨[]⟩ subdirWorld).2.files "/repo/.gitattributes" = none ∧
    (cryptoInit sampleEnv ⟨[]⟩ subdirWorld).2.files "/repo/.gitignore" = none ∧
    (cryptoInit sampleEnv ⟨[]⟩ subdirWorld).2.files "/repo/helm/.gitattributes" =
      some (stringBytes Gitattributes) ∧
    (cryptoInit sampleEnv ⟨[]⟩ subdirWorld).2.files "/repo/helm/.gitignore" =
      some (stringBytes Gitignore) := by
  refine ⟨rfl, rfl, by decide, by decide, by decide, by decide, by decide, ?_, ?_⟩
  · exact (cryptoInit_ok sampleEnv ⟨[]⟩ subdirWorld (by decide)).2.1
  · exact (cryptoInit_ok sampleEnv ⟨[]⟩ subdirWorld (by decide)).2.2.1

/-- C11 (amended): for every working directory, after a successful
`cryptoInit` the files `.gitattributes` and `.gitignore` resolved against the
current working directory hold the canonical content; they are the files of
the repository root when the working directory is the root. -/
theorem cryptoInit_writes_in_cwd (env : Env) (c : Context) (w : World)
    (hok : (cryptoInit env c w).1 = none) :
    (cryptoInit env c w).2.files (filepathAbs w.cwd GitAttributesFile) =
      some (stringBytes Gitattributes) ∧
    (cryptoInit env c w).2.files (filepathAbs w.cwd GitIgnoreFile) =
      some (stringBytes Gitignore) ∧
    (w.cwd = w.repoRoot →
      (cryptoInit env c w).2.files (filepathAbs w.repoRoot GitAttributesFile) =
        some (stringBytes Gitattributes) ∧
      (cryptoInit env c w).2.files (filepathAbs w.repoRoot GitIgnoreFile) =
        some (stringBytes Gitignore)) := by
  obtain ⟨_, hfa, hfi, _⟩ := cryptoInit_ok env c w hok
  refine ⟨hfa, hfi, ?_⟩
  intro hroot
  rw [← hroot]
  exact ⟨hfa, hfi⟩

/-- C11, witness: run from the root `/repo`, the two files of the root are
written; run from `/repo/helm`, the two files of `/repo/helm` are. -/
theorem cryptoInit_writes_in_cwd_witness :
    ((sampleWorld [] [7]).cwd = (sampleWorld [] [7]).repoRoot ∧
      (cryptoInit sampleEnv ⟨[]⟩ (sampleWorld [] [7])).1 = none ∧
      (cryptoInit sampleEnv ⟨[]⟩ (sampleWorld [] [7])).2.files
        (filepathAbs (sampleWorld [] [7]).repoRoot GitAttributesFile) =
          some (stringBytes Gitattributes) ∧
      (cryptoInit sampleEnv ⟨[]⟩ (sampleWorld [] [7])).2.files
        (filepathAbs (sampleWorld [] [7]).repoRoot GitIgnoreFile) =
          some (stringBytes Gitignore)) ∧
    ((cryptoInit sampleEnv ⟨[]⟩ subdirWorld).1 = none ∧
      (cryptoInit sampleEnv ⟨[]⟩ subdirWorld).2.files
        (filepathAbs subdirWorld.cwd GitAttributesFile) = some (stringBytes Gitattributes) ∧
      (cryptoInit sampleEnv ⟨[]⟩ subdirWorld).2.files
        (filepathAbs subdirWorld.cwd GitIgnoreFile) = some (stringBytes Gitignore)) :=
  have h1 := cryptoInit_writes_in_cwd sampleEnv ⟨[]⟩ (sampleWorld [] [7]) (by decide)
  have h2 := cryptoInit_writes_in_cwd sampleEnv ⟨[]⟩ subdirWorld (by decide)
  ⟨⟨rfl, by decide, (h1.2.2 rfl).1, (h1.2.2 rfl).2⟩, ⟨by decide, h2.1, h2.2.1⟩⟩


/-- C20: `cryptoInit` writes the configuration before the policy files and
stops at the first failure.  If the entry after `done` is the first whose
`git config` fails, the error is returned, the failing call is the last call
made (no later entry is attempted) and no file is changed; if the four entries
succeed and writing `.gitattributes` fails, the error is returned, that write
is the last call and `.gitignore` is as before; in a successful run the four
configuration writes come first, then the two files, then the provider. -/
theorem cryptoInit_first_failure (env : Env) (c : Context) (w : World) :
    (∀ (done : List (String × String)) (conf : String × String)
        (rest : List (String × String)) (e : Error),
      encryptConfig = done ++ conf :: rest →
      (∀ d ∈ done, env.gitConfigFault d.1 d.2 = none) →
      env.gitConfigFault conf.1 conf.2 = some e →
      (cryptoInit env c w).1 = some e ∧
      (cryptoInit env c w).2.log =
        w.log ++ [Call.highlight "Creating git encryption filters\n\n"] ++
          (done ++ [conf]).map (fun d => Call.gitConfig d.1 d.2) ∧
      (cryptoInit env c w).2.files = w.files ∧
      (cryptoInit env c w).2.gitConfig = configAfter done w.gitConfig) ∧
    (∀ (e : Error) (left : Option Bytes),
      (∀ d ∈ encryptConfig, env.gitConfigFault d.1 d.2 = none) →
      env.writeFileFault (filepathAbs w.cwd GitAttributesFile) (stringBytes Gitattributes) =
        some (e, left) →
      (cryptoInit env c w).1 = some e ∧
      (cryptoInit env c w).2.log =
        w.log ++ [Call.highlight "Creating git encryption filters\n\n"] ++
          encryptConfig.map (fun d => Call.gitConfig d.1 d.2) ++
          [Call.writeFile (filepathAbs w.cwd GitAttributesFile) (stringBytes Gitattributes)] ∧
      (cryptoInit env c w).2.files (filepathAbs w.cwd GitIgnoreFile) =
        w.files (filepathAbs w.cwd GitIgnoreFile)) ∧
    ((cryptoInit env c w).1 = none →
      (cryptoInit env c w).2.log =
        w.log ++ [Call.highlight "Creating git encryption filters\n\n"] ++
          encryptConfig.map (fun d => Call.gitConfig d.1 d.2) ++
          [Call.writeFile (filepathAbs w.cwd GitAttributesFile) (stringBytes Gitattributes),
           Call.writeFile (filepathAbs w.cwd GitIgnoreFile) (stringBytes Gitignore),
           Call.build]) := by
  refine ⟨?_, ?_, fun hok => (cryptoInit_ok env c w hok).2.2.2⟩
  · intro done conf rest e hsplit hdone hconf
    unfold cryptoInit
    rw [hsplit, gitConfigAll_fail env done conf rest e hdone hconf]
    exact ⟨rfl, rfl, rfl, rfl⟩
  · intro e left hcfg hwrite
    have hne := (filepathAbs_policy_files w.cwd).2.2
    have hg := gitConfigAll_of_noFault env encryptConfig hcfg
      (utilsHighlight "Creating git encryption filters\n\n" w)
    unfold cryptoInit
    rw [gitConfigAll_ok env _ _ hg]
    simp only [utilsWriteFile, utilsHighlight, World.record, hwrite]
    refine ⟨trivial, by simp, ?_⟩
    simp [Ne.symm hne]

/-- C20, witness: `git config` fails on the third entry, and writing
`.gitattributes` fails, both in the repository of `driftWorld`. -/
theorem cryptoInit_first_failure_witness :
    ((cryptoInit configFaultEnv ⟨[]⟩ driftWorld).1 = some "exit status 255" ∧
      (cryptoInit configFaultEnv ⟨[]⟩ driftWorld).2.log =
        [Call.highlight "Creating git encryption filters\n\n",
         Call.gitConfig "filter.plural-crypt.smudge" "plural crypto decrypt",
         Call.gitConfig "filter.plural-crypt.clean" "plural crypto encrypt",
         Call.gitConfig "filter.plural-crypt.required" "true"] ∧
      (cryptoInit configFaultEnv ⟨[]⟩ driftWorld).2.files = driftWorld.files ∧
      (cryptoInit configFaultEnv ⟨[]⟩ driftWorld).2.gitConfig "diff.plural-crypt.textconv" =
        none) ∧
    ((cryptoInit writeFaultEnv ⟨[]⟩ driftWorld).1 = some "no space left on device" ∧
      (cryptoInit writeFaultEnv ⟨[]⟩ driftWorld).2.files
        (filepathAbs driftWorld.cwd GitIgnoreFile) =
          driftWorld.files (filepathAbs driftWorld.cwd GitIgnoreFile)) :=
  have h1 := (cryptoInit_first_failure configFaultEnv ⟨[]⟩ driftWorld).1
    [("filter.plural-crypt.smudge", "plural crypto decrypt"),
     ("filter.plural-crypt.clean", "plural crypto encrypt")]
    ("filter.plural-crypt.required", "true")
    [("diff.plural-crypt.textconv", "plural crypto decrypt")] "exit status 255"
    rfl (by decide) rfl
  have h2 := (cryptoInit_first_failure writeFaultEnv ⟨[]⟩ driftWorld).2.1
    "no space left on device" (some []) (by decide) rfl
  ⟨⟨h1.1, h1.2.1, h1.2.2.1, by rw [h1.2.2.2]; rfl⟩, ⟨h2.1, h2.2.2⟩⟩


/-! ## Cluster key recovery -/

/-- The run of `handleRecover`, step by step. -/
theorem handleRecover_eq (kenv : KeyEnv) (env : Env) (p : Plural) (c : Context) (w : World) :
    handleRecover kenv env p c w =
      match kubeAfterInit kenv p with
      | .error e => (some e, p, w.record Call.kubernetes)
      | .ok kube =>
        match kube.Secret "console" "console-conf" with
        | .error e =>
          (some e, { p with Kube := some kube },
            { w with log := w.log ++ initKubeCalls p ++ [Call.secret "console" "console-conf"] })
        | .ok secret =>
          match mapIndex secret.Data "key" with
          | none =>
            (some "could not find `key` in console-conf secret", { p with Kube := some kube },
              { w with
                log := w.log ++ initKubeCalls p ++ [Call.secret "console" "console-conf"] })
          | some key =>
            match kenv.Import key with
            | .error e =>
              (some e, { p with Kube := some kube },
                { w with
                  log := w.log ++ initKubeCalls p ++
                    [Call.secret "console" "console-conf", Call.cryptoImport key] })
            | .ok aesKey =>
              match (kenv.Setup aesKey.Key w.keyFile).1 with
              | some e =>
                (some e, { p with Kube := some kube },
                  { w with
                    keyFile := (kenv.Setup aesKey.Key w.keyFile).2,
                    log := w.log ++ initKubeCalls p ++
                      [Call.secret "console" "console-conf", Call.cryptoImport key,
                        Call.cryptoSetup aesKey.Key] })
              | none =>
                (none, { p with Kube := some kube },
                  fmtPrintln env recoverHint
                    { w with
                      keyFile := (kenv.Setup aesKey.Key w.keyFile).2,
                      log := w.log ++ initKubeCalls p ++
                        [Call.secret "console" "console-conf", Call.cryptoImport key,
                          Call.cryptoSetup aesKey.Key,
                          Call.success "Key successfully synced locally!\n"] }) := by
  unfold handleRecover InitKube kubeAfterInit initKubeCalls
  cases hk : p.Kube with
  | none =>
    simp only
    cases hK : kenv.Kubernetes with
    | error e => rfl
    | ok kube =>
      simp only [pluralSecret, World.record]
      cases hs : kube.Secret "console" "console-conf" with
      | error e => simp
      | ok secret =>
        simp only
        cases hm : mapIndex secret.Data "key" with
        | none => simp
        | some key =>
          simp only [cryptoImport, World.record]
          cases hi : kenv.Import key with
          | error e => simp
          | ok aesKey =>
            simp only [cryptoSetup, utilsSuccess, World.record]
            cases hsu : (kenv.Setup aesKey.Key w.keyFile).1 with
            | some e => simp
            | none => simp
  | some kube =>
    have hp : p = { Client := p.Client, Kube := some kube } := by
      cases p
      simp only at hk
      rw [hk]
    simp only [pluralSecret, World.record, hk]
    cases hs : kube.Secret "console" "console-conf" with
    | error e => simp; exact hp
    | ok secret =>
      simp only
      cases hm : mapIndex secret.Data "key" with
      | none => simp; exact hp
      | some key =>
        simp only [cryptoImport, World.record]
        cases hi : kenv.Import key with
        | error e => simp; exact hp
        | ok aesKey =>
          simp only [cryptoSetup, utilsSuccess, World.record]
          cases hsu : (kenv.Setup aesKey.Key w.keyFile).1 with
          | some e => simp; exact hp
          | none => simp; exact hp


theorem fmtPrintln_log (env : Env) (s : Bytes) (w : World) :
    (fmtPrintln env s w).log = w.log ++ [Call.stdoutWrite (s ++ [10])] := by
  unfold fmtPrintln stdoutWrite
  split <;> rfl

theorem fmtPrintln_keyFile (env : Env) (s : Bytes) (w : World) :
    (fmtPrintln env s w).keyFile = w.keyFile := by
  unfold fmtPrintln stdoutWrite
  split <;> rfl

theorem initKubeCalls_mem (p : Plural) (call : Call) (h : call ∈ initKubeCalls p) :
    call = Call.kubernetes := by
  unfold initKubeCalls at h
  split at h
  · simp at h
  · simpa using h

/-- C12: when the secret that was fetched has no field `key`, `handleRecover`
returns the error "could not find `key` in console-conf secret", its only
calls are the set-up of the cluster client and the fetch of the secret (the
parser `crypto.Import` and the write `crypto.Setup` are not called), and the
local key file is as before; and in every run, the secret fetched is
`console-conf` in the namespace `console`. -/
theorem handleRecover_missing_key (kenv : KeyEnv) (env : Env) (p : Plural) (c : Context)
    (w : World) (kube : Kube) (secret : V1Secret)
    (hkube : kubeAfterInit kenv p = .ok kube)
    (hsecret : kube.Secret "console" "console-conf" = .ok secret)
    (hkey : mapIndex secret.Data "key" = none) :
    (handleRecover kenv env p c w).1 = some "could not find `key` in console-conf secret" ∧
    (handleRecover kenv env p c w).2.2.keyFile = w.keyFile ∧
    (handleRecover kenv env p c w).2.2.log =
      w.log ++ initKubeCalls p ++ [Call.secret "console" "console-conf"] ∧
    (∀ buf, Call.cryptoImport buf ∈ (handleRecover kenv env p c w).2.2.log →
      Call.cryptoImport buf ∈ w.log) ∧
    (∀ key, Call.cryptoSetup key ∈ (handleRecover kenv env p c w).2.2.log →
      Call.cryptoSetup key ∈ w.log) ∧
    (∀ (kenv2 : KeyEnv) (env2 : Env) (p2 : Plural) (c2 : Context) (w2 : World)
        (ns name : String),
      Call.secret ns name ∈ (handleRecover kenv2 env2 p2 c2 w2).2.2.log →
      Call.secret ns name ∈ w2.log ∨ (ns = "console" ∧ name = "console-conf")) := by
  have hrun := handleRecover_eq kenv env p c w
  simp only [hkube, hsecret, hkey] at hrun
  refine ⟨by rw [hrun], by rw [hrun], by rw [hrun], ?_, ?_, ?_⟩
  · intro buf hmem
    rw [hrun] at hmem
    simp only [List.mem_append, List.mem_singleton, reduceCtorEq, or_false] at hmem
    rcases hmem with h | h
    · exact h
    · exact absurd (initKubeCalls_mem p _ h) (by simp)
  · intro key hmem
    rw [hrun] at hmem
    simp only [List.mem_append, List.mem_singleton, reduceCtorEq, or_false] at hmem
    rcases hmem with h | h
    · exact h
    · exact absurd (initKubeCalls_mem p _ h) (by simp)
  · intro kenv2 env2 p2 c2 w2 ns name hmem
    rw [handleRecover_eq kenv2 env2 p2 c2 w2] at hmem
    have hinit : Call.secret ns name ∉ initKubeCalls p2 :=
      fun h => absurd (initKubeCalls_mem p2 _ h) (by simp)
    cases hk : kubeAfterInit kenv2 p2 with
    | error e =>
      simp only [hk, World.record, List.mem_append, List.mem_singleton, reduceCtorEq,
        or_false] at hmem
      exact Or.inl hmem
    | ok kube2 =>
      simp only [hk] at hmem
      cases hs : kube2.Secret "console" "console-conf" with
      | error e =>
        simp only [hs, List.mem_append, List.mem_singleton, Call.secret.injEq, hinit,
          or_false] at hmem
        exact hmem
      | ok secret2 =>
        simp only [hs] at hmem
        cases hm : mapIndex secret2.Data "key" with
        | none =>
          simp only [hm, List.mem_append, List.mem_singleton, Call.secret.injEq, hinit,
            or_false] at hmem
          exact hmem
        | some key =>
          simp only [hm] at hmem
          cases hi : kenv2.Import key with
          | error e =>
            simp only [hi, List.mem_append, List.mem_cons, List.mem_singleton,
              Call.secret.injEq, reduceCtorEq, hinit, or_false, List.not_mem_nil] at hmem
            exact hmem
          | ok aesKey =>
            simp only [hi] at hmem
            cases hsu : (kenv2.Setup aesKey.Key w2.keyFile).1 with
            | some e =>
              simp only [hsu, List.mem_append, List.mem_cons, List.mem_singleton,
                Call.secret.injEq, reduceCtorEq, hinit, or_false, List.not_mem_nil] at hmem
              exact hmem
            | none =>
              simp only [hsu, fmtPrintln_log, List.mem_append, List.mem_cons,
                List.mem_singleton, Call.secret.injEq, reduceCtorEq, hinit, or_false,
                List.not_mem_nil] at hmem
              exact hmem


/-- C12, witness: the secret of the cluster has the field `token` only; the
local key file holds `[7]` before and after. -/
theorem handleRecover_missing_key_witness :
    mapIndex [("token", [1, 2])] "key" = none ∧
    (handleRecover sampleKeyEnv sampleEnv (samplePlural [("token", [1, 2])]) ⟨[]⟩
      (sampleWorld [] [7])).1 = some "could not find `key` in console-conf secret" ∧
    (handleRecover sampleKeyEnv sampleEnv (samplePlural [("token", [1, 2])]) ⟨[]⟩
      (sampleWorld [] [7])).2.2.keyFile = some [7] ∧
    (handleRecover sampleKeyEnv sampleEnv (samplePlural [("token", [1, 2])]) ⟨[]⟩
      (sampleWorld [] [7])).2.2.log = [Call.secret "console" "console-conf"] :=
  have h := handleRecover_missing_key sampleKeyEnv sampleEnv (samplePlural [("token", [1, 2])])
    ⟨[]⟩ (sampleWorld [] [7]) (sampleKube [("token", [1, 2])]) ⟨[("token", [1, 2])]⟩
    rfl rfl rfl
  ⟨rfl, h.1, h.2.1, h.2.2.1⟩

/-- C13: whichever of the four steps before the write fails (the set-up of
the cluster client, the fetch of the secret, the lookup of the field `key`,
the parse by `crypto.Import`), `handleRecover` returns an error, `crypto.Setup`
is not called and the local key file is as before; and a call of
`crypto.Setup` in a run, like a change of the key file, only happens after the
four steps succeeded, with the key that was parsed. -/
theorem handleRecover_atomic (kenv : KeyEnv) (env : Env) (p : Plural) (c : Context)
    (w : World) :
    ((∃ e, kubeAfterInit kenv p = .error e) ∨
      (∃ kube e, kubeAfterInit kenv p = .ok kube ∧
        kube.Secret "console" "console-conf" = .error e) ∨
      (∃ kube secret, kubeAfterInit kenv p = .ok kube ∧
        kube.Secret "console" "console-conf" = .ok secret ∧
        mapIndex secret.Data "key" = none) ∨
      (∃ kube secret key e, kubeAfterInit kenv p = .ok kube ∧
        kube.Secret "console" "console-conf" = .ok secret ∧
        mapIndex secret.Data "key" = some key ∧ kenv.Import key = .error e) →
      (handleRecover kenv env p c w).1 ≠ none ∧
      (handleRecover kenv env p c w).2.2.keyFile = w.keyFile ∧
      (∀ k, Call.cryptoSetup k ∈ (handleRecover kenv env p c w).2.2.log →
        Call.cryptoSetup k ∈ w.log)) ∧
    (∀ e, kubeAfterInit kenv p = .error e → (handleRecover kenv env p c w).1 = some e) ∧
    (∀ kube e, kubeAfterInit kenv p = .ok kube →
      kube.Secret "console" "console-conf" = .error e →
      (handleRecover kenv env p c w).1 = some e) ∧
    (∀ kube secret key e, kubeAfterInit kenv p = .ok kube →
      kube.Secret "console" "console-conf" = .ok secret →
      mapIndex secret.Data "key" = some key → kenv.Import key = .error e →
      (handleRecover kenv env p c w).1 = some e) ∧
    (((∃ k, Call.cryptoSetup k ∈ (handleRecover kenv env p c w).2.2.log ∧
          Call.cryptoSetup k ∉ w.log) ∨
        (handleRecover kenv env p c w).2.2.keyFile ≠ w.keyFile) →
      ∃ kube secret key aesKey, kubeAfterInit kenv p = .ok kube ∧
        kube.Secret "console" "console-conf" = .ok secret ∧
        mapIndex secret.Data "key" = some key ∧ kenv.Import key = .ok aesKey ∧
        (handleRecover kenv env p c w).2.2.keyFile = (kenv.Setup aesKey.Key w.keyFile).2 ∧
        Call.cryptoSetup aesKey.Key ∈ (handleRecover kenv env p c w).2.2.log) := by
  have hrun := handleRecover_eq kenv env p c w
  have hinit : ∀ k, Call.cryptoSetup k ∉ initKubeCalls p :=
    fun k h => absurd (initKubeCalls_mem p _ h) (by simp)
  cases hk : kubeAfterInit kenv p with
  | error e0 =>
    simp only [hk] at hrun
    rw [hrun]
    simp [World.record]
  | ok kube =>
    simp only [hk] at hrun
    cases hs : kube.Secret "console" "console-conf" with
    | error e0 =>
      simp only [hs] at hrun
      rw [hrun]
      simp [hs, hinit]
      all_goals (try (constructor <;> intros <;> subst_vars <;> simp_all))
    | ok secret =>
      simp only [hs] at hrun
      cases hm : mapIndex secret.Data "key" with
      | none =>
        simp only [hm] at hrun
        rw [hrun]
        simp [hs, hm, hinit]
        all_goals (try (constructor <;> intros <;> subst_vars <;> simp_all))
      | some key =>
        simp only [hm] at hrun
        cases hi : kenv.Import key with
        | error e0 =>
          simp only [hi] at hrun
          rw [hrun]
          simp [hs, hm, hi, hinit]
          all_goals (try (constructor <;> intros <;> subst_vars <;> simp_all))
        | ok aesKey =>
          simp only [hi] at hrun
          cases hsu : (kenv.Setup aesKey.Key w.keyFile).1 with
          | some e0 =>
            simp only [hsu] at hrun
            rw [hrun]
            simp [hs, hm, hi, hinit]
            all_goals (try (constructor <;> intros <;> subst_vars <;> simp_all))
          | none =>
            simp only [hsu] at hrun
            rw [hrun]
            simp [hs, hm, hi, hinit, fmtPrintln_log, fmtPrintln_keyFile]
            all_goals (try (constructor <;> intros <;> subst_vars <;> simp_all))

/-- C13, witness: the field `key` of the secret holds text that is no key
record; the parse fails and the key file `[7]` is untouched. -/
theorem handleRecover_atomic_witness :
    (∃ e, parseKeyRecord 3 (stringBytes "not a record") = .error e) ∧
    (handleRecover sampleKeyEnv sampleEnv (samplePlural [("key", stringBytes "not a record")])
      ⟨[]⟩ (sampleWorld [] [7])).1 ≠ none ∧
    (handleRecover sampleKeyEnv sampleEnv (samplePlural [("key", stringBytes "not a record")])
      ⟨[]⟩ (sampleWorld [] [7])).2.2.keyFile = some [7] :=
  have h := (handleRecover_atomic sampleKeyEnv sampleEnv
    (samplePlural [("key", stringBytes "not a record")]) ⟨[]⟩ (sampleWorld [] [7])).1
    (Or.inr (Or.inr (Or.inr ⟨sampleKube [("key", stringBytes "not a record")],
      ⟨[("key", stringBytes "not a record")]⟩, stringBytes "not a record",
      "KeyUnreadable: not a key record", rfl, rfl, rfl, rfl⟩)))
  ⟨⟨_, rfl⟩, h.1, h.2.1⟩

/-! ## Import and export of the key -/

/-- The run of `importKey`, step by step. -/
theorem importKey_eq (kenv : KeyEnv) (env : Env) (c : Context) (w : World) :
    importKey kenv env c w =
      match w.stdinErr with
      | some e => (some e, w.record Call.readStdin)
      | none =>
        match kenv.Import w.stdin with
        | .error e =>
          (some e, { w with log := w.log ++ [Call.readStdin, Call.cryptoImport w.stdin] })
        | .ok key =>
          ((kenv.KeyFlush key w.keyFile).1,
            { w with
              keyFile := (kenv.KeyFlush key w.keyFile).2,
              log := w.log ++ [Call.readStdin, Call.cryptoImport w.stdin, Call.keyFlush key] }) := by
  unfold importKey
  simp only [ioutilReadAll, World.record]
  cases w.stdinErr with
  | some e => rfl
  | none =>
    simp only [cryptoImport, World.record]
    cases kenv.Import w.stdin with
    | error e => simp
    | ok key => simp [keyFlush]

/-- C16: `importKey` calls the persist step `Flush` exactly when the read of
the input and its parse both succeed, and then returns what `Flush` returns
and leaves the key file `Flush` leaves; when the read or the parse fails it
returns that error, `Flush` is not among its calls and the key file is as
before.  With the `Flush` of the spec, a successful import leaves exactly the
parsed record in the key file, whatever was there. -/
theorem importKey_persists_iff_parsed (kenv : KeyEnv) (env : Env) (c : Context) (w : World) :
    (∀ e, w.stdinErr = some e →
      (importKey kenv env c w).1 = some e ∧
      (importKey kenv env c w).2.keyFile = w.keyFile ∧
      (importKey kenv env c w).2.log = w.log ++ [Call.readStdin]) ∧
    (∀ e, w.stdinErr = none → kenv.Import w.stdin = .error e →
      (importKey kenv env c w).1 = some e ∧
      (importKey kenv env c w).2.keyFile = w.keyFile ∧
      (importKey kenv env c w).2.log =
        w.log ++ [Call.readStdin, Call.cryptoImport w.stdin]) ∧
    (∀ key, w.stdinErr = none → kenv.Import w.stdin = .ok key →
      (importKey kenv env c w).1 = (kenv.KeyFlush key w.keyFile).1 ∧
      (importKey kenv env c w).2.keyFile = (kenv.KeyFlush key w.keyFile).2 ∧
      (importKey kenv env c w).2.log =
        w.log ++ [Call.readStdin, Call.cryptoImport w.stdin, Call.keyFlush key]) ∧
    (∀ (fault : Bytes → Option Error) (key : AESKey),
      kenv.KeyFlush = persistKeyRecord fault →
      w.stdinErr = none → kenv.Import w.stdin = .ok key →
      (importKey kenv env c w).1 = none →
      (importKey kenv env c w).2.keyFile = some (marshalKeyRecord key)) := by
  have hrun := importKey_eq kenv env c w
  refine ⟨?_, ?_, ?_, ?_⟩
  · intro e he
    simp only [he] at hrun
    rw [hrun]
    exact ⟨rfl, rfl, rfl⟩
  · intro e he hi
    simp only [he, hi] at hrun
    rw [hrun]
    exact ⟨rfl, rfl, rfl⟩
  · intro key he hi
    simp only [he, hi] at hrun
    rw [hrun]
    exact ⟨rfl, rfl, rfl⟩
  · intro fault key hflush he hi
    simp only [he, hi] at hrun
    rw [hrun, hflush]
    unfold persistKeyRecord
    cases fault (marshalKeyRecord key) with
    | none => intro _; rfl
    | some e => intro h; simp at h

/-- C16, witness: a key record on standard input replaces the key file `[7]`;
text that is no key record leaves it alone, as does a failed read. -/
theorem importKey_persists_iff_parsed_witness :
    ((importKey sampleKeyEnv sampleEnv ⟨[]⟩ (sampleWorld (stringBytes "key: YWJj\n") [7])).1 =
        none ∧
      (importKey sampleKeyEnv sampleEnv ⟨[]⟩
        (sampleWorld (stringBytes "key: YWJj\n") [7])).2.keyFile =
        some (stringBytes "key: YWJj\n")) ∧
    ((importKey sampleKeyEnv sampleEnv ⟨[]⟩ (sampleWorld (stringBytes "YWJj") [7])).1 =
        some "KeyUnreadable: not a key record" ∧
      (importKey sampleKeyEnv sampleEnv ⟨[]⟩ (sampleWorld (stringBytes "YWJj") [7])).2.keyFile =
        some [7]) ∧
    ((importKey sampleKeyEnv sampleEnv ⟨[]⟩ (brokenReadWorld (stringBytes "key: YW"))).1 =
        some "read /dev/stdin: input/output error" ∧
      (importKey sampleKeyEnv sampleEnv ⟨[]⟩ (brokenReadWorld (stringBytes "key: YW"))).2.keyFile =
        some [7]) :=
  have h1 := (importKey_persists_iff_parsed sampleKeyEnv sampleEnv ⟨[]⟩
    (sampleWorld (stringBytes "key: YWJj\n") [7])).2.2.1 ⟨stringBytes "YWJj"⟩ rfl rfl
  have h2 := (importKey_persists_iff_parsed sampleKeyEnv sampleEnv ⟨[]⟩
    (sampleWorld (stringBytes "YWJj") [7])).2.1 "KeyUnreadable: not a key record" rfl rfl
  have h3 := (importKey_persists_iff_parsed sampleKeyEnv sampleEnv ⟨[]⟩
    (brokenReadWorld (stringBytes "key: YW"))).1 "read /dev/stdin: input/output error" rfl
  ⟨⟨h1.1, h1.2.1⟩, ⟨h2.1, h2.2.1⟩, ⟨h3.1, h3.2.1⟩⟩


/-! ## Sharing -/

/-- The run of `handleCryptoShare`, step by step. -/
theorem handleCryptoShare_eq (kenv : KeyEnv) (p : Plural) (c : FlagContext) (w : World) :
    handleCryptoShare kenv p c w =
      match (kenv.SetupAge p.Client c.email w.files).1 with
      | some e =>
        (some e, { w with
          files := (kenv.SetupAge p.Client c.email w.files).2,
          log := w.log ++ [Call.setupAge c.email] })
      | none =>
        match kenv.BuildAgeProvider (kenv.SetupAge p.Client c.email w.files).2 w.keyFile with
        | .error e =>
          (some e, { w with
            files := (kenv.SetupAge p.Client c.email w.files).2,
            log := w.log ++ [Call.setupAge c.email, Call.buildAgeProvider] })
        | .ok prov =>
          ((kenv.Flush prov (kenv.SetupAge p.Client c.email w.files).2).1,
            { w with
              files := (kenv.Flush prov (kenv.SetupAge p.Client c.email w.files).2).2,
              log := w.log ++
                [Call.setupAge c.email, Call.buildAgeProvider, Call.flush prov] }) := by
  unfold handleCryptoShare cryptoSetupAge
  cases (kenv.SetupAge p.Client c.email w.files).1 with
  | some e => rfl
  | none =>
    simp only [cryptoBuildAgeProvider, World.record]
    cases kenv.BuildAgeProvider (kenv.SetupAge p.Client c.email w.files).2 w.keyFile with
    | error e => simp
    | ok prov => simp [cryptoFlush]

/-- C19: when `crypto.SetupAge` returns an error, or `crypto.BuildAgeProvider`
does after it, `handleCryptoShare` returns that error, `crypto.Flush` is not
among its calls and the files are as `crypto.SetupAge` left them; a call of
`crypto.Flush` only happens after both succeeded, with the provider that was
built. -/
theorem handleCryptoShare_flush_last (kenv : KeyEnv) (p : Plural) (c : FlagContext)
    (w : World) :
    (∀ e, (kenv.SetupAge p.Client c.email w.files).1 = some e →
      (handleCryptoShare kenv p c w).1 = some e ∧
      (handleCryptoShare kenv p c w).2.log = w.log ++ [Call.setupAge c.email] ∧
      (handleCryptoShare kenv p c w).2.files = (kenv.SetupAge p.Client c.email w.files).2) ∧
    (∀ e, (kenv.SetupAge p.Client c.email w.files).1 = none →
      kenv.BuildAgeProvider (kenv.SetupAge p.Client c.email w.files).2 w.keyFile = .error e →
      (handleCryptoShare kenv p c w).1 = some e ∧
      (handleCryptoShare kenv p c w).2.log =
        w.log ++ [Call.setupAge c.email, Call.buildAgeProvider] ∧
      (handleCryptoShare kenv p c w).2.files = (kenv.SetupAge p.Client c.email w.files).2) ∧
    (∀ prov, Call.flush prov ∈ (handleCryptoShare kenv p c w).2.log →
      Call.flush prov ∈ w.log ∨
        ((kenv.SetupAge p.Client c.email w.files).1 = none ∧
          kenv.BuildAgeProvider (kenv.SetupAge p.Client c.email w.files).2 w.keyFile =
            .ok prov)) := by
  have hrun := handleCryptoShare_eq kenv p c w
  cases hs : (kenv.SetupAge p.Client c.email w.files).1 with
  | some e0 =>
    simp only [hs] at hrun
    rw [hrun]
    simp
  | none =>
    simp only [hs] at hrun
    cases hb : kenv.BuildAgeProvider (kenv.SetupAge p.Client c.email w.files).2 w.keyFile with
    | error e0 =>
      simp only [hb] at hrun
      rw [hrun]
      simp
    | ok prov =>
      simp only [hb] at hrun
      rw [hrun]
      simp only [reduceCtorEq, false_implies, implies_true, true_and, List.mem_append,
        List.mem_cons, List.mem_singleton, Call.flush.injEq, List.not_mem_nil, or_false,
        false_or, Except.ok.injEq]
      intro prov2 h
      rcases h with h | h
      · exact Or.inl h
      · exact Or.inr h.symm


/-- C19, witness: `crypto.SetupAge` fails; the command returns its error and
its only call is that one. -/
theorem handleCryptoShare_flush_last_witness :
    (handleCryptoShare unresolvedKeyEnv testSharePlural testShareContext
      (sampleWorld [] [7])).1 = some "no public key registered for: test@email.com" ∧
    (handleCryptoShare unresolvedKeyEnv testSharePlural testShareContext
      (sampleWorld [] [7])).2.log = [Call.setupAge ["test@email.com"]] :=
  have h := (handleCryptoShare_flush_last unresolvedKeyEnv testSharePlural testShareContext
    (sampleWorld [] [7])).1 "no public key registered for: test@email.com" rfl
  ⟨h.1, h.2.1⟩

/-! ## The key record of the spec -/

theorem keyHeader_eq : keyHeader = [107, 101, 121, 58, 32] := by decide

theorem isBase64Char_ne (ch : UInt8) (h : isBase64Char ch = true) :
    ch ≠ 10 ∧ ch ≠ 124 := by
  constructor
  · intro hc; subst hc; exact absurd h (by decide)
  · intro hc; subst hc; exact absurd h (by decide)

theorem stripNewline_concat (v : Bytes) : stripNewline (v ++ [10]) = v := by
  unfold stripNewline
  simp

theorem stripNewline_base64 (v : Bytes) (h : isBase64Text v = true) : stripNewline v = v := by
  unfold stripNewline
  split
  · rename_i hlast
    have hmem : (10 : UInt8) ∈ v := List.mem_of_getLast?_eq_some hlast
    unfold isBase64Text at h
    have := (isBase64Char_ne 10 (List.all_eq_true.mp h 10 hmem)).1
    exact absurd rfl this
  · rfl

/-- A base64 text, with or without a final newline, does not open a nested
record. -/
theorem not_nested_base64 (v tail : Bytes) (h : isBase64Text v = true)
    (ht : tail = [] ∨ tail = [10]) : bytesHasPrefix (v ++ tail) [124, 10] = false := by
  cases v with
  | nil =>
    rcases ht with rfl | rfl <;> decide
  | cons ch rest =>
    unfold isBase64Text at h
    have hch := (isBase64Char_ne ch (List.all_eq_true.mp h ch (List.mem_cons_self _ _))).2
    unfold bytesHasPrefix
    cases hr : rest ++ tail with
    | nil => simp [hr]
    | cons x xs => simp [hr, hch]

/-- The parser of the spec reads back a record with a base64 key from its
representation, with or without the final newline. -/
theorem parseKeyRecord_marshal (fuel : Nat) (v tail : Bytes) (h : isBase64Text v = true)
    (ht : tail = [] ∨ tail = [10]) :
    parseKeyRecord fuel (keyHeader ++ v ++ tail) = .ok ⟨v⟩ := by
  have hdrop : (keyHeader ++ v ++ tail).dropWhile (fun ch => ch == 32) = keyHeader ++ (v ++ tail) := by
    rw [keyHeader_eq]
    simp [List.dropWhile]
  have hstrip : stripNewline (v ++ tail) = v := by
    rcases ht with rfl | rfl
    · rw [List.append_nil]; exact stripNewline_base64 v h
    · exact stripNewline_concat v
  unfold parseKeyRecord
  rw [hdrop]
  simp only [bytesHasPrefix_append, List.drop_left, if_true, not_nested_base64 v tail h ht,
    Bool.false_eq_true, if_false, hstrip, h]

/-- A record that the parser of the spec returns has a base64 key. -/
theorem parseKeyRecord_ok (fuel : Nat) : ∀ (buf : Bytes) (k : AESKey),
    parseKeyRecord fuel buf = .ok k → isBase64Text k.Key = true := by
  induction fuel with
  | zero =>
    intro buf k h
    unfold parseKeyRecord at h
    split at h
    · split at h
      · simp at h
      · split at h
        · rename_i hb
          simp only [Except.ok.injEq] at h
          rw [← h]; exact hb
        · simp at h
    · simp at h
  | succ n ih =>
    intro buf k h
    unfold parseKeyRecord at h
    split at h
    · split at h
      · exact ih _ k h
      · split at h
        · rename_i hb
          simp only [Except.ok.injEq] at h
          rw [← h]; exact hb
        · simp at h
    · simp at h


/-- C14: with the parser and the key-store write of the spec, when the field
`key` of the secret holds `key: b` for a base64 text `b` (with or without a
final newline), `handleRecover` returns what the write of the key file
returns, and after a successful run the key file is exactly `key: b` and a
newline, whatever it held before. -/
theorem handleRecover_key_file (kenv : KeyEnv) (env : Env) (p : Plural) (c : Context)
    (w : World) (fuel : Nat) (fault : Bytes → Option Error) (kube : Kube) (secret : V1Secret)
    (b tail : Bytes)
    (hI : kenv.Import = parseKeyRecord fuel)
    (hS : kenv.Setup = fun key => persistKeyRecord fault ⟨key⟩)
    (hb : isBase64Text b = true)
    (ht : tail = [] ∨ tail = [10])
    (hkube : kubeAfterInit kenv p = .ok kube)
    (hsecret : kube.Secret "console" "console-conf" = .ok secret)
    (hfield : mapIndex secret.Data "key" = some (stringBytes "key: " ++ b ++ tail)) :
    (handleRecover kenv env p c w).1 = fault (stringBytes "key: " ++ b ++ [10]) ∧
    ((handleRecover kenv env p c w).1 = none →
      (handleRecover kenv env p c w).2.2.keyFile = some (stringBytes "key: " ++ b ++ [10])) := by
  have hparse : kenv.Import (stringBytes "key: " ++ b ++ tail) = .ok ⟨b⟩ := by
    rw [hI]; exact parseKeyRecord_marshal fuel b tail hb ht
  have hrun := handleRecover_eq kenv env p c w
  simp only [hkube, hsecret, hfield, hparse, hS] at hrun
  have hm : marshalKeyRecord ⟨b⟩ = stringBytes "key: " ++ b ++ [10] := rfl
  unfold persistKeyRecord at hrun
  rw [hm] at hrun
  cases hf : fault (stringBytes "key: " ++ b ++ [10]) with
  | none =>
    simp only [hf] at hrun
    rw [hrun]
    exact ⟨rfl, fun _ => by rw [fmtPrintln_keyFile]⟩
  | some e =>
    simp only [hf] at hrun
    rw [hrun]
    exact ⟨rfl, fun h => by simp at h⟩

/-- C14, witness: the two cases of `TestRecover`: no key file, and the broken
nested key file; in both the key file ends up as `key: ` followed by the key
of the secret and a newline. -/
theorem handleRecover_key_file_witness :
    ((handleRecover sampleKeyEnv sampleEnv
        (samplePlural [("key", stringBytes "key: " ++ testRecoverKey)]) ⟨[]⟩
        { sampleWorld [] [] with keyFile := none }).1 = none ∧
      (handleRecover sampleKeyEnv sampleEnv
        (samplePlural [("key", stringBytes "key: " ++ testRecoverKey)]) ⟨[]⟩
        { sampleWorld [] [] with keyFile := none }).2.2.keyFile =
        some (stringBytes "key: " ++ testRecoverKey ++ [10])) ∧
    ((handleRecover sampleKeyEnv sampleEnv
        (samplePlural [("key", stringBytes "key: " ++ testRecoverKey)]) ⟨[]⟩
        (sampleWorld [] testRecoverBrokenFile)).1 = none ∧
      (handleRecover sampleKeyEnv sampleEnv
        (samplePlural [("key", stringBytes "key: " ++ testRecoverKey)]) ⟨[]⟩
        (sampleWorld [] testRecoverBrokenFile)).2.2.keyFile =
        some (stringBytes "key: " ++ testRecoverKey ++ [10])) ∧
    stringBytes "key: " ++ testRecoverKey ++ [10] =
      stringBytes "key: gKNJBnflqQA6lfUKLWMwl7CMJk4j+qqG9jnGYdTvwTk=\n" :=
  have h1 := handleRecover_key_file sampleKeyEnv sampleEnv
    (samplePlural [("key", stringBytes "key: " ++ testRecoverKey)]) ⟨[]⟩
    { sampleWorld [] [] with keyFile := none } 3 (fun _ => none)
    (sampleKube [("key", stringBytes "key: " ++ testRecoverKey)])
    ⟨[("key", stringBytes "key: " ++ testRecoverKey)]⟩ testRecoverKey []
    rfl rfl (by decide) (Or.inl rfl) rfl rfl rfl
  have h2 := handleRecover_key_file sampleKeyEnv sampleEnv
    (samplePlural [("key", stringBytes "key: " ++ testRecoverKey)]) ⟨[]⟩
    (sampleWorld [] testRecoverBrokenFile) 3 (fun _ => none)
    (sampleKube [("key", stringBytes "key: " ++ testRecoverKey)])
    ⟨[("key", stringBytes "key: " ++ testRecoverKey)]⟩ testRecoverKey []
    rfl rfl (by decide) (Or.inl rfl) rfl rfl rfl
  ⟨⟨h1.1, h1.2 h1.1⟩, ⟨h2.1, h2.2 h2.1⟩, by decide⟩


/-- The run of `exportKey`, step by step. -/
theorem exportKey_eq (kenv : KeyEnv) (env : Env) (c : Context) (w : World) :
    exportKey kenv env c w =
      match (kenv.Materialize w.keyFile).1 with
      | .error e =>
        (some e, { w with
          keyFile := (kenv.Materialize w.keyFile).2, log := w.log ++ [Call.materialize] })
      | .ok key =>
        match kenv.Marshal key with
        | .error e =>
          (some e, { w with
            keyFile := (kenv.Materialize w.keyFile).2,
            log := w.log ++ [Call.materialize, Call.marshal key] })
        | .ok marshal =>
          stdoutWrite env marshal { w with
            keyFile := (kenv.Materialize w.keyFile).2,
            log := w.log ++ [Call.materialize, Call.marshal key] } := by
  unfold exportKey cryptoMaterialize
  cases (kenv.Materialize w.keyFile).1 with
  | error e => rfl
  | ok key =>
    simp only [keyMarshal, World.record]
    cases kenv.Marshal key with
    | error e => simp
    | ok marshal =>
      simp only [List.append_assoc, List.singleton_append]
      split <;> simp_all

/-- C15: with the key-store functions of the spec, for every key record `k`
that the key file parses to, `exportKey` succeeds and writes the
representation of `k`, and `importKey` reading those bytes succeeds and leaves
a key file that parses to a record with exactly the key of `k` (the output and
the key file accept the writes). -/
theorem importKey_exportKey_roundtrip (kenv : KeyEnv) (env : Env) (c c2 : Context)
    (w w2 : World) (fuel keyLength : Nat) (entropy : Nat → UInt8)
    (fault fault2 : Bytes → Option Error) (content : Bytes) (k : AESKey)
    (hI : kenv.Import = parseKeyRecord fuel)
    (hMat : kenv.Materialize = specMaterialize fuel entropy keyLength fault)
    (hMar : kenv.Marshal = fun key => .ok (marshalKeyRecord key))
    (hF : kenv.KeyFlush = persistKeyRecord fault2)
    (hstore : w.keyFile = some content)
    (hk : parseKeyRecord fuel content = .ok k)
    (hwr : env.stdoutFault w.stdout (marshalKeyRecord k) = none)
    (hin : w2.stdin = marshalKeyRecord k) (hinErr : w2.stdinErr = none)
    (hflush : fault2 (marshalKeyRecord k) = none) :
    (exportKey kenv env c w).1 = none ∧
    (exportKey kenv env c w).2.stdout = w.stdout ++ marshalKeyRecord k ∧
    (exportKey kenv env c w).2.keyFile = w.keyFile ∧
    (importKey kenv env c2 w2).1 = none ∧
    (∃ content2 k2, (importKey kenv env c2 w2).2.keyFile = some content2 ∧
      parseKeyRecord fuel content2 = .ok k2 ∧ k2.Key = k.Key) := by
  have hvalid := parseKeyRecord_ok fuel content k hk
  have hback : parseKeyRecord fuel (marshalKeyRecord k) = .ok k := by
    have := parseKeyRecord_marshal fuel k.Key [10] hvalid (Or.inr rfl)
    exact this
  have hexp := exportKey_eq kenv env c w
  have hmat : kenv.Materialize w.keyFile = (.ok k, w.keyFile) := by
    rw [hMat, hstore]
    simp [specMaterialize, hk]
  simp only [hmat, hMar] at hexp
  rw [stdoutWrite_of_noFault env (marshalKeyRecord k)
    { w with keyFile := w.keyFile, log := w.log ++ [Call.materialize, Call.marshal k] }
    hwr] at hexp
  have himp := importKey_eq kenv env c2 w2
  simp only [hinErr, hI, hin, hback, hF] at himp
  unfold persistKeyRecord at himp
  simp only [hflush] at himp
  rw [hexp, himp]
  exact ⟨rfl, rfl, rfl, rfl, marshalKeyRecord k, k, rfl, hback, rfl⟩

/-- C15, witness: the key file holds the record of `TestRecover`; the bytes
`exportKey` writes, imported over a broken key file, restore the key. -/
theorem importKey_exportKey_roundtrip_witness :
    parseKeyRecord 3 (stringBytes "key: " ++ testRecoverKey ++ [10]) = .ok ⟨testRecoverKey⟩ ∧
    (exportKey sampleKeyEnv sampleEnv ⟨[]⟩
      (sampleWorld [] (stringBytes "key: " ++ testRecoverKey ++ [10]))).2.stdout =
      [] ++ marshalKeyRecord ⟨testRecoverKey⟩ ∧
    (importKey sampleKeyEnv sampleEnv ⟨[]⟩
      (sampleWorld (marshalKeyRecord ⟨testRecoverKey⟩) testRecoverBrokenFile)).1 = none ∧
    (∃ content2 k2,
      (importKey sampleKeyEnv sampleEnv ⟨[]⟩
        (sampleWorld (marshalKeyRecord ⟨testRecoverKey⟩) testRecoverBrokenFile)).2.keyFile =
        some content2 ∧
      parseKeyRecord 3 content2 = .ok k2 ∧ k2.Key = testRecoverKey) :=
  have hk : parseKeyRecord 3 (stringBytes "key: " ++ testRecoverKey ++ [10]) =
      .ok ⟨testRecoverKey⟩ := rfl
  have h := importKey_exportKey_roundtrip sampleKeyEnv sampleEnv ⟨[]⟩ ⟨[]⟩
    (sampleWorld [] (stringBytes "key: " ++ testRecoverKey ++ [10]))
    (sampleWorld (marshalKeyRecord ⟨testRecoverKey⟩) testRecoverBrokenFile)
    3 32 (fun i => UInt8.ofNat (7 * i + 1)) (fun _ => none) (fun _ => none)
    (stringBytes "key: " ++ testRecoverKey ++ [10]) ⟨testRecoverKey⟩
    rfl rfl rfl rfl rfl hk rfl rfl rfl rfl
  ⟨hk, h.2.1, h.2.2.2.1, h.2.2.2.2⟩


/-! ## Base64 and the random strings of the spec -/

theorem base64Value_char (n : Nat) (h : n < 64) : base64Value (base64Char n) = some n := by
  have key : ∀ m : Fin 64, base64Value (base64Char m.val) = some m.val := by decide
  exact key ⟨n, h⟩

theorem base64Char_plain (n : Nat) (h : n < 64) :
    base64Char n ≠ 61 ∧ base64Char n ≠ 10 ∧ base64Char n ≠ 13 := by
  have key : ∀ m : Fin 64,
      base64Char m.val ≠ 61 ∧ base64Char m.val ≠ 10 ∧ base64Char m.val ≠ 13 := by decide
  exact key ⟨n, h⟩

theorem ofNat_toNat (a : UInt8) : UInt8.ofNat a.toNat = a :=
  UInt8.ext (UInt8.toNat_ofNat_of_lt (UInt8.toNat_lt a))

theorem ofNat_eq (a : UInt8) (n : Nat) (h : n = a.toNat) : UInt8.ofNat n = a := by
  rw [h]; exact ofNat_toNat a

/-- Decoding undoes encoding. -/
theorem base64DecodeGroups_encode : ∀ bs : Bytes,
    base64DecodeGroups (base64Encode bs) = .ok bs
  | [] => rfl
  | [a] => by
    have ha := UInt8.toNat_lt a
    have hx : a.toNat / 4 < 64 := by omega
    have hy : a.toNat % 4 * 16 < 64 := by omega
    have f1 : UInt8.ofNat (a.toNat / 4 * 4 + a.toNat % 4 * 16 / 16) = a :=
      ofNat_eq a _ (by omega)
    simp only [base64Encode, base64DecodeGroups, base64Value_char _ hx, base64Value_char _ hy,
      f1, if_true, ne_eq, not_true_eq_false, if_false]
  | [a, b] => by
    have ha := UInt8.toNat_lt a
    have hb := UInt8.toNat_lt b
    have hx : a.toNat / 4 < 64 := by omega
    have hy : a.toNat % 4 * 16 + b.toNat / 16 < 64 := by omega
    have hz : b.toNat % 16 * 4 < 64 := by omega
    have f1 : UInt8.ofNat (a.toNat / 4 * 4 + (a.toNat % 4 * 16 + b.toNat / 16) / 16) = a :=
      ofNat_eq a _ (by omega)
    have f2 : UInt8.ofNat ((a.toNat % 4 * 16 + b.toNat / 16) % 16 * 16 +
        b.toNat % 16 * 4 / 4) = b := ofNat_eq b _ (by omega)
    simp only [base64Encode, base64DecodeGroups, base64Value_char _ hx, base64Value_char _ hy,
      base64Value_char _ hz, (base64Char_plain _ hz).1, f1, f2, if_true, ne_eq,
      not_true_eq_false, if_false]
  | a :: b :: c :: rest => by
    have ha := UInt8.toNat_lt a
    have hb := UInt8.toNat_lt b
    have hc := UInt8.toNat_lt c
    have hx : a.toNat / 4 < 64 := by omega
    have hy : a.toNat % 4 * 16 + b.toNat / 16 < 64 := by omega
    have hz : b.toNat % 16 * 4 + c.toNat / 64 < 64 := by omega
    have ht : c.toNat % 64 < 64 := by omega
    have f1 : UInt8.ofNat (a.toNat / 4 * 4 + (a.toNat % 4 * 16 + b.toNat / 16) / 16) = a :=
      ofNat_eq a _ (by omega)
    have f2 : UInt8.ofNat ((a.toNat % 4 * 16 + b.toNat / 16) % 16 * 16 +
        (b.toNat % 16 * 4 + c.toNat / 64) / 4) = b := ofNat_eq b _ (by omega)
    have f3 : UInt8.ofNat ((b.toNat % 16 * 4 + c.toNat / 64) % 4 * 64 + c.toNat % 64) = c :=
      ofNat_eq c _ (by omega)
    have ih := base64DecodeGroups_encode rest
    simp only [base64Encode, base64DecodeGroups, base64Value_char _ hx, base64Value_char _ hy,
      base64Value_char _ hz, base64Value_char _ ht, (base64Char_plain _ ht).1, f1, f2, f3,
      ih, if_false]

/-- The encoding contains no newline and no carriage return. -/
theorem base64Encode_plain : ∀ bs : Bytes, ∀ ch ∈ base64Encode bs, ch ≠ 10 ∧ ch ≠ 13
  | [] => by simp [base64Encode]
  | [a] => by
    have ha := UInt8.toNat_lt a
    have hx : a.toNat / 4 < 64 := by omega
    have hy : a.toNat % 4 * 16 < 64 := by omega
    intro ch hmem
    simp only [base64Encode, List.mem_cons, List.mem_singleton, List.not_mem_nil,
      or_false] at hmem
    rcases hmem with rfl | rfl | rfl | rfl
    · exact (base64Char_plain _ hx).2
    · exact (base64Char_plain _ hy).2
    · decide
    · decide
  | [a, b] => by
    have ha := UInt8.toNat_lt a
    have hb := UInt8.toNat_lt b
    have hx : a.toNat / 4 < 64 := by omega
    have hy : a.toNat % 4 * 16 + b.toNat / 16 < 64 := by omega
    have hz : b.toNat % 16 * 4 < 64 := by omega
    intro ch hmem
    simp only [base64Encode, List.mem_cons, List.mem_singleton, List.not_mem_nil,
      or_false] at hmem
    rcases hmem with rfl | rfl | rfl | rfl
    · exact (base64Char_plain _ hx).2
    · exact (base64Char_plain _ hy).2
    · exact (base64Char_plain _ hz).2
    · decide
  | a :: b :: c :: rest => by
    have ha := UInt8.toNat_lt a
    have hb := UInt8.toNat_lt b
    have hc := UInt8.toNat_lt c
    have hx : a.toNat / 4 < 64 := by omega
    have hy : a.toNat % 4 * 16 + b.toNat / 16 < 64 := by omega
    have hz : b.toNat % 16 * 4 + c.toNat / 64 < 64 := by omega
    have ht : c.toNat % 64 < 64 := by omega
    intro ch hmem
    simp only [base64Encode, List.mem_cons] at hmem
    rcases hmem with rfl | rfl | rfl | rfl | hmem
    · exact (base64Char_plain _ hx).2
    · exact (base64Char_plain _ hy).2
    · exact (base64Char_plain _ hz).2
    · exact (base64Char_plain _ ht).2
    · exact base64Encode_plain rest ch hmem

/-- A printed line of base64 decodes to the bytes that were encoded: the
newline that `fmt.Println` adds is ignored by the decoder. -/
theorem base64Decode_line (bs : Bytes) : base64Decode (base64Encode bs ++ [10]) = .ok bs := by
  unfold base64Decode
  have hfilter : (base64Encode bs ++ [10]).filter (fun ch => ch != 10 && ch != 13) =
      base64Encode bs := by
    rw [List.filter_append]
    have h1 : (base64Encode bs).filter (fun ch => ch != 10 && ch != 13) = base64Encode bs := by
      rw [List.filter_eq_self]
      intro ch hmem
      have := base64Encode_plain bs ch hmem
      simp [this.1, this.2]
    rw [h1]
    simp
  rw [hfilter]
  exact base64DecodeGroups_encode bs

theorem randomBytes_length (entropy : Nat → UInt8) (n : Nat) :
    (randomBytes entropy n).length = n := by
  simp [randomBytes]


/-- What `randStringPrint` does with the `RandStr` of the spec, for a length
that is not negative. -/
theorem randStringPrint_spec (kenv : KeyEnv) (env : Env) (entropy : Nat → UInt8) (n : Int)
    (w : World) (hR : kenv.RandStr = specRandStr entropy) (hn : 0 ≤ n)
    (hwr : env.stdoutFault w.stdout (base64Encode (randomBytes entropy n.toNat) ++ [10]) = none) :
    randStringPrint kenv env n w =
      (none, { w with
        stdout := w.stdout ++ (base64Encode (randomBytes entropy n.toNat) ++ [10]),
        log := w.log ++ [Call.randStr n,
          Call.stdoutWrite (base64Encode (randomBytes entropy n.toNat) ++ [10])] }) := by
  unfold randStringPrint cryptoRandStr
  rw [hR]
  have hneg : ¬ n < 0 := by omega
  simp only [specRandStr, hneg, if_false, fmtPrintln, World.record]
  rw [stdoutWrite_of_noFault env (base64Encode (randomBytes entropy n.toNat) ++ [10])
    { w with log := w.log ++ [Call.randStr n] } hwr]
  simp

/-- C17, counterexample: `crypto random ""`.  The positional argument is the
empty string, which `strconv.Atoi` rejects, yet the command succeeds and
prints the base64 of 32 bytes, the default of `--len`. -/
theorem randString_empty_argument :
    (randomContext [""]).args = [""] ∧
    (∃ e, strconvAtoi "" = .error e) ∧
    (randString sampleKeyEnv sampleEnv (randomContext [""]) (sampleWorld [] [7])).1 = none ∧
    (∃ bs, base64Decode
        (randString sampleKeyEnv sampleEnv (randomContext [""]) (sampleWorld [] [7])).2.stdout =
          .ok bs ∧ bs.length = 32) := by
  refine ⟨rfl, ⟨_, rfl⟩, rfl, randomBytes (fun i => UInt8.ofNat (7 * i + 1)) 32, ?_,
    randomBytes_length _ _⟩
  have hrun : randString sampleKeyEnv sampleEnv (randomContext [""]) (sampleWorld [] [7]) =
      randStringPrint sampleKeyEnv sampleEnv 32 (sampleWorld [] [7]) := rfl
  rw [hrun, randStringPrint_spec sampleKeyEnv sampleEnv (fun i => UInt8.ofNat (7 * i + 1)) 32
    (sampleWorld [] [7]) rfl (by decide) rfl]
  exact base64Decode_line _

/-- C17 (amended): with the `RandStr` of the spec, the length `n` requested is
the first positional argument when that is a non-empty string, read by
`strconv.Atoi`, and the flag `--len` (32 unless given) when it is empty or
missing.  For `n ≥ 0` the command succeeds and prints a line that decodes
under standard base64 to exactly `n` bytes; a non-empty positional argument
that `strconv.Atoi` rejects makes it return that error with nothing printed
and nothing generated. -/
theorem randString_decodes (kenv : KeyEnv) (env : Env) (c : FlagContext) (w : World)
    (entropy : Nat → UInt8) (hR : kenv.RandStr = specRandStr entropy) :
    (∀ n : Int, 0 ≤ n →
      ((argsGet c.toContext 0 ≠ "" ∧ strconvAtoi (argsGet c.toContext 0) = .ok n) ∨
        (argsGet c.toContext 0 = "" ∧ cIntLen c = n)) →
      env.stdoutFault w.stdout (base64Encode (randomBytes entropy n.toNat) ++ [10]) = none →
      (randString kenv env c w).1 = none ∧
      ∃ text bs, (randString kenv env c w).2.stdout = w.stdout ++ text ∧
        base64Decode text = .ok bs ∧ (bs.length : Int) = n) ∧
    (∀ e, argsGet c.toContext 0 ≠ "" → strconvAtoi (argsGet c.toContext 0) = .error e →
      randString kenv env c w = (some e, w)) ∧
    (c.len = none → cIntLen c = 32) ∧
    (c.args = [] → argsGet c.toContext 0 = "") := by
  refine ⟨?_, ?_, ?_, ?_⟩
  · intro n hn hreq hwr
    have hrun : randString kenv env c w = randStringPrint kenv env n w := by
      unfold randString
      rcases hreq with ⟨hne, hatoi⟩ | ⟨hempty, hflag⟩
      · simp [hne, hatoi]
      · simp [hempty, hflag]
    rw [hrun, randStringPrint_spec kenv env entropy n w hR hn hwr]
    refine ⟨rfl, _, randomBytes entropy n.toNat, rfl, base64Decode_line _, ?_⟩
    rw [randomBytes_length]
    exact Int.toNat_of_nonneg hn
  · intro e hne hatoi
    unfold randString
    simp [hne, hatoi]
  · intro hlen
    unfold cIntLen
    rw [hlen]
    rfl
  · intro hargs
    unfold argsGet
    rw [hargs]
    rfl

/-- C17, witness: the two runs of `TestRandom` (no argument: 32 bytes; the
argument `10`: 10 bytes) and the argument `ten`, which fails. -/
theorem randString_decodes_witness :
    ((randString sampleKeyEnv sampleEnv (randomContext []) (sampleWorld [] [7])).1 = none ∧
      ∃ text bs,
        (randString sampleKeyEnv sampleEnv (randomContext []) (sampleWorld [] [7])).2.stdout =
          (sampleWorld [] [7]).stdout ++ text ∧
        base64Decode text = .ok bs ∧ (bs.length : Int) = 32) ∧
    ((randString sampleKeyEnv sampleEnv (randomContext ["10"]) (sampleWorld [] [7])).1 = none ∧
      ∃ text bs,
        (randString sampleKeyEnv sampleEnv (randomContext ["10"]) (sampleWorld [] [7])).2.stdout =
          (sampleWorld [] [7]).stdout ++ text ∧
        base64Decode text = .ok bs ∧ (bs.length : Int) = 10) ∧
    (randString sampleKeyEnv sampleEnv (randomContext ["ten"]) (sampleWorld [] [7])).1 =
      some "strconv.Atoi: parsing \"ten\": invalid syntax" ∧
    (randString sampleKeyEnv sampleEnv (randomContext ["ten"]) (sampleWorld [] [7])).2.stdout = [] :=
  have h1 := (randString_decodes sampleKeyEnv sampleEnv (randomContext []) (sampleWorld [] [7])
    (fun i => UInt8.ofNat (7 * i + 1)) rfl).1 32 (by decide) (Or.inr ⟨rfl, rfl⟩) rfl
  have h2 := (randString_decodes sampleKeyEnv sampleEnv (randomContext ["10"])
    (sampleWorld [] [7]) (fun i => UInt8.ofNat (7 * i + 1)) rfl).1 10 (by decide)
    (Or.inl ⟨by decide, rfl⟩) rfl
  have h3 := (randString_decodes sampleKeyEnv sampleEnv (randomContext ["ten"])
    (sampleWorld [] [7]) (fun i => UInt8.ofNat (7 * i + 1)) rfl).2.1
    "strconv.Atoi: parsing \"ten\": invalid syntax" (by decide) rfl
  ⟨h1, h2, by rw [h3], by rw [h3]; rfl⟩


/-! ## `CheckGitCrypt` on a repository that is up to date -/

theorem cryptoInit_cwd (env : Env) (c : Context) (w : World) :
    (cryptoInit env c w).2.cwd = w.cwd := by
  obtain ⟨_, hc, _, _⟩ := gitConfigAll_frame env encryptConfig
    (utilsHighlight "Creating git encryption filters\n\n" w)
  unfold cryptoInit
  generalize gitConfigAll env encryptConfig
    (utilsHighlight "Creating git encryption filters\n\n" w) = g at hc
  obtain ⟨r, w1⟩ := g
  have hc' : w1.cwd = w.cwd := hc
  cases r with
  | some e => exact hc'
  | none =>
    simp only [utilsWriteFile, hc', cryptoBuild]
    cases env.writeFileFault (filepathAbs w.cwd GitAttributesFile) (stringBytes Gitattributes) with
    | some r => simp
    | none =>
      simp only
      cases env.writeFileFault (filepathAbs w.cwd GitIgnoreFile) (stringBytes Gitignore) with
      | some r => simp
      | none =>
        simp only
        cases (env.Build w1.keyFile).1 <;> simp

/-- The run of `CheckGitCrypt` when both policy files hold the canonical
content and can be read: success, after the two tests for existence and the
two comparisons, and nothing but the log of calls has changed. -/
theorem CheckGitCrypt_canonical (env : Env) (c : Context) (w : World)
    (ha : w.files (filepathAbs w.cwd GitAttributesFile) = some (stringBytes Gitattributes))
    (hi : w.files (filepathAbs w.cwd GitIgnoreFile) = some (stringBytes Gitignore))
    (hra : env.readFault (filepathAbs w.cwd GitAttributesFile) = none)
    (hri : env.readFault (filepathAbs w.cwd GitIgnoreFile) = none) :
    CheckGitCrypt env c w =
      (none, { w with
        log := w.log ++
          [Call.fileExists (filepathAbs w.cwd GitAttributesFile),
           Call.fileExists (filepathAbs w.cwd GitIgnoreFile)] ++ compareCalls env w.cwd }) := by
  unfold CheckGitCrypt utilsExists
  have hi' : (w.record (Call.fileExists (filepathAbs w.cwd GitAttributesFile))).files
      (filepathAbs (w.record (Call.fileExists (filepathAbs w.cwd GitAttributesFile))).cwd
        GitIgnoreFile) = w.files (filepathAbs w.cwd GitIgnoreFile) := rfl
  simp only [ha, hi', hi, Option.isSome_some]
  generalize hW : (w.record (Call.fileExists (filepathAbs w.cwd GitAttributesFile))).record
    (Call.fileExists
      (filepathAbs (w.record (Call.fileExists (filepathAbs w.cwd GitAttributesFile))).cwd
        GitIgnoreFile)) = W
  have hWc : W.cwd = w.cwd := by rw [← hW]; rfl
  have hWf : W.files = w.files := by rw [← hW]; rfl
  have haW : W.files (filepathAbs W.cwd GitAttributesFile) = some (stringBytes Gitattributes) := by
    rw [hWc, hWf]; exact ha
  have hiW : W.files (filepathAbs W.cwd GitIgnoreFile) = some (stringBytes Gitignore) := by
    rw [hWc, hWf]; exact hi
  have hraW : env.readFault (filepathAbs W.cwd GitAttributesFile) = none := by
    rw [hWc]; exact hra
  have hriW : env.readFault (filepathAbs W.cwd GitIgnoreFile) = none := by
    rw [hWc]; exact hri
  unfold toCompare compareCalls
  cases hord : env.attributesFirst with
  | true =>
    simp only [if_true, compareLoop]
    rw [utilsCompareFileContent_ok env _ _ W _ haW hraW]
    simp only [beq_self_eq_true, Bool.not_true, Bool.false_eq_true, if_false]
    rw [utilsCompareFileContent_ok env _ _ (W.record _) _ hiW hriW]
    simp only [beq_self_eq_true, Bool.not_true, Bool.false_eq_true, if_false]
    rw [← hW]
    simp [World.record]
  | false =>
    simp only [Bool.false_eq_true, if_false, compareLoop]
    rw [utilsCompareFileContent_ok env _ _ W _ hiW hriW]
    simp only [beq_self_eq_true, Bool.not_true, Bool.false_eq_true, if_false]
    rw [utilsCompareFileContent_ok env _ _ (W.record _) _ haW hraW]
    simp only [beq_self_eq_true, Bool.not_true, Bool.false_eq_true, if_false]
    rw [← hW]
    simp [World.record]


/-- C21: when both policy files hold exactly the canonical content (and can be
read), `CheckGitCrypt` returns success and its only calls are the two tests for
existence and the two comparisons: no `git config`, no file write, no build of
the provider; files, git configuration, key file and output are unchanged.
Hence a second run after a successful run succeeds and changes nothing but the
log of calls. -/
theorem CheckGitCrypt_noop (env : Env) (c : Context) (w : World)
    (hra : env.readFault (filepathAbs w.cwd GitAttributesFile) = none)
    (hri : env.readFault (filepathAbs w.cwd GitIgnoreFile) = none) :
    (w.files (filepathAbs w.cwd GitAttributesFile) = some (stringBytes Gitattributes) →
      w.files (filepathAbs w.cwd GitIgnoreFile) = some (stringBytes Gitignore) →
      (CheckGitCrypt env c w).1 = none ∧
      (CheckGitCrypt env c w).2 = { w with log := (CheckGitCrypt env c w).2.log } ∧
      (CheckGitCrypt env c w).2.log =
        w.log ++
          [Call.fileExists (filepathAbs w.cwd GitAttributesFile),
           Call.fileExists (filepathAbs w.cwd GitIgnoreFile)] ++ compareCalls env w.cwd ∧
      (∀ call ∈ compareCalls env w.cwd, ∃ path, call = Call.readFile path)) ∧
    ((CheckGitCrypt env c w).1 = none →
      (CheckGitCrypt env c (CheckGitCrypt env c w).2).1 = none ∧
      (CheckGitCrypt env c (CheckGitCrypt env c w).2).2 =
        { (CheckGitCrypt env c w).2 with
          log := (CheckGitCrypt env c (CheckGitCrypt env c w).2).2.log }) := by
  have hreads : ∀ call ∈ compareCalls env w.cwd, ∃ path, call = Call.readFile path := by
    intro call hmem
    unfold compareCalls at hmem
    split at hmem <;> simp at hmem <;> rcases hmem with rfl | rfl <;> exact ⟨_, rfl⟩
  have hfirst : ∀ w1 : World, w1.cwd = w.cwd →
      w1.files (filepathAbs w.cwd GitAttributesFile) = some (stringBytes Gitattributes) →
      w1.files (filepathAbs w.cwd GitIgnoreFile) = some (stringBytes Gitignore) →
      (CheckGitCrypt env c w1).1 = none ∧
      (CheckGitCrypt env c w1).2 = { w1 with log := (CheckGitCrypt env c w1).2.log } ∧
      (CheckGitCrypt env c w1).2.log =
        w1.log ++
          [Call.fileExists (filepathAbs w.cwd GitAttributesFile),
           Call.fileExists (filepathAbs w.cwd GitIgnoreFile)] ++ compareCalls env w.cwd := by
    intro w1 hc ha hi
    have hrun := CheckGitCrypt_canonical env c w1 (by rw [hc]; exact ha) (by rw [hc]; exact hi)
      (by rw [hc]; exact hra) (by rw [hc]; exact hri)
    rw [hrun, hc]
    exact ⟨rfl, rfl, rfl⟩
  refine ⟨fun ha hi => ?_, fun hok => ?_⟩
  · obtain ⟨h1, h2, h3⟩ := hfirst w rfl ha hi
    exact ⟨h1, h2, h3, hreads⟩
  · by_cases hdrift :
        w.files (filepathAbs w.cwd GitAttributesFile) ≠ some (stringBytes Gitattributes) ∨
        w.files (filepathAbs w.cwd GitIgnoreFile) ≠ some (stringBytes Gitignore)
    · obtain ⟨w0, hrun, hw0⟩ := CheckGitCrypt_drift env c w hdrift hra hri
      have hc0 : w0.cwd = w.cwd := by rw [hw0]
      rw [hrun] at hok
      obtain ⟨_, hfa, hfi, _⟩ := cryptoInit_ok env c w0 hok
      rw [hc0] at hfa hfi
      have hc1 : (cryptoInit env c w0).2.cwd = w.cwd := by rw [cryptoInit_cwd, hc0]
      rw [hrun]
      obtain ⟨h1, h2, _⟩ := hfirst (cryptoInit env c w0).2 hc1 hfa hfi
      exact ⟨h1, h2⟩
    · have hcan : w.files (filepathAbs w.cwd GitAttributesFile) = some (stringBytes Gitattributes) ∧
          w.files (filepathAbs w.cwd GitIgnoreFile) = some (stringBytes Gitignore) := by
        constructor
        · by_contra h; exact hdrift (Or.inl h)
        · by_contra h; exact hdrift (Or.inr h)
      have hrun := CheckGitCrypt_canonical env c w hcan.1 hcan.2 hra hri
      rw [hrun]
      obtain ⟨h1, h2, _⟩ := hfirst
        { w with
          log := w.log ++
            [Call.fileExists (filepathAbs w.cwd GitAttributesFile),
             Call.fileExists (filepathAbs w.cwd GitIgnoreFile)] ++ compareCalls env w.cwd }
        rfl hcan.1 hcan.2
      exact ⟨h1, h2⟩

set_option maxRecDepth 100000 in
/-- C21, witness: the repository whose two files are canonical, and the
repository of `driftWorld` after a first run. -/
theorem CheckGitCrypt_noop_witness :
    ((CheckGitCrypt sampleEnv ⟨[]⟩ (canonicalWorld none)).1 = none ∧
      (CheckGitCrypt sampleEnv ⟨[]⟩ (canonicalWorld none)).2.keyFile = none ∧
      (CheckGitCrypt sampleEnv ⟨[]⟩ (canonicalWorld none)).2.log =
        [Call.fileExists "/repo/.gitattributes", Call.fileExists "/repo/.gitignore",
         Call.readFile "/repo/.gitattributes", Call.readFile "/repo/.gitignore"]) ∧
    ((CheckGitCrypt sampleEnv ⟨[]⟩ driftWorld).1 = none ∧
      (CheckGitCrypt sampleEnv ⟨[]⟩ (CheckGitCrypt sampleEnv ⟨[]⟩ driftWorld).2).1 = none ∧
      (CheckGitCrypt sampleEnv ⟨[]⟩ (CheckGitCrypt sampleEnv ⟨[]⟩ driftWorld).2).2 =
        { (CheckGitCrypt sampleEnv ⟨[]⟩ driftWorld).2 with
          log := (CheckGitCrypt sampleEnv ⟨[]⟩
            (CheckGitCrypt sampleEnv ⟨[]⟩ driftWorld).2).2.log }) :=
  have h1 := (CheckGitCrypt_noop sampleEnv ⟨[]⟩ (canonicalWorld none) rfl rfl).1 rfl rfl
  have hok : (CheckGitCrypt sampleEnv ⟨[]⟩ driftWorld).1 = none := by decide
  have h2 := (CheckGitCrypt_noop sampleEnv ⟨[]⟩ driftWorld rfl rfl).2 hok
  ⟨⟨h1.1, (congrArg World.keyFile h1.2.1).trans rfl, by rw [h1.2.2.1]; decide⟩,
    ⟨hok, h2.1, h2.2⟩⟩


/-! ## The passthroughs and the key store -/

theorem stdoutWrite_withKeyFile (env : Env) (b : Bytes) (w : World) (k : Option Bytes) :
    stdoutWrite env b (w.withKeyFile k) =
      ((stdoutWrite env b w).1, (stdoutWrite env b w).2.withKeyFile k) := by
  unfold stdoutWrite World.withKeyFile
  simp only
  split <;> rfl

theorem stdoutWrite_log (env : Env) (b : Bytes) (w : World) :
    (stdoutWrite env b w).2.log = w.log ++ [Call.stdoutWrite b] := by
  unfold stdoutWrite
  split <;> rfl

theorem ioutilReadAll_withKeyFile (env : Env) (r : Reader) (w : World) (k : Option Bytes) :
    ioutilReadAll env r (w.withKeyFile k) =
      ((ioutilReadAll env r w).1, (ioutilReadAll env r w).2.withKeyFile k) := by
  unfold ioutilReadAll World.withKeyFile
  cases r with
  | stdin => rfl
  | file p =>
    simp only
    split
    · rfl
    · split <;> rfl

theorem decryptInput_withKeyFile (c : Context) (w : World) (k : Option Bytes) :
    decryptInput c (w.withKeyFile k) =
      ((decryptInput c w).1, (decryptInput c w).2.withKeyFile k) := by
  unfold decryptInput
  split
  · unfold osOpen World.withKeyFile
    simp only
    split <;> rfl
  · rfl

/-- The calls of a successful `decryptInput` are at most the opening of the
file. -/
theorem decryptInput_log (c : Context) (w w0 : World) (file : Reader)
    (hsrc : decryptInput c w = (.ok file, w0)) (call : Call) (hmem : call ∈ w0.log) :
    call ∈ w.log ∨ ∃ path, call = Call.osOpen path := by
  unfold decryptInput at hsrc
  split at hsrc
  · unfold osOpen at hsrc
    split at hsrc <;> simp only [Prod.mk.injEq, reduceCtorEq, false_and] at hsrc
    rw [← hsrc.2] at hmem
    simp only [World.record, List.mem_append, List.mem_singleton] at hmem
    rcases hmem with h | h
    · exact Or.inl h
    · exact Or.inr ⟨_, h⟩
  · simp only [Prod.mk.injEq] at hsrc
    rw [← hsrc.2] at hmem
    exact Or.inl hmem

/-- On an input with the marker, `handleEncrypt` in another state of the key
store is the same run with the key file carried along. -/
theorem handleEncrypt_marked_withKeyFile (env : Env) (c : Context) (w : World)
    (k : Option Bytes) (hp : bytesHasPrefix w.stdin prefixBytes = true) :
    handleEncrypt env c (w.withKeyFile k) =
      ((handleEncrypt env c w).1, (handleEncrypt env c w).2.withKeyFile k) := by
  have hp' : bytesHasPrefix (w.withKeyFile k).stdin prefixBytes = true := hp
  rw [handleEncrypt_of_marked env c (w.withKeyFile k) hp', handleEncrypt_of_marked env c w hp]
  exact stdoutWrite_withKeyFile env w.stdin (w.record Call.readStdin) k

/-- On an input without the marker, `handleDecrypt` in another state of the
key store is the same run with the key file carried along. -/
theorem handleDecrypt_unmarked_withKeyFile (env : Env) (c : Context) (w w0 w1 : World)
    (file : Reader) (y : Bytes) (k : Option Bytes)
    (hsrc : decryptInput c w = (.ok file, w0))
    (hread : ioutilReadAll env file w0 = ((y, none), w1))
    (hp : bytesHasPrefix y prefixBytes = false) :
    handleDecrypt env c w = stdoutWrite env y w1 ∧
    handleDecrypt env c (w.withKeyFile k) =
      ((handleDecrypt env c w).1, (handleDecrypt env c w).2.withKeyFile k) := by
  have hbase : handleDecrypt env c w = stdoutWrite env y w1 := by
    unfold handleDecrypt
    rw [hsrc]
    exact handleDecryptFrom_of_unmarked env file w0 w1 y hread hp
  refine ⟨hbase, ?_⟩
  have hsrc' : decryptInput c (w.withKeyFile k) = (.ok file, w0.withKeyFile k) := by
    rw [decryptInput_withKeyFile, hsrc]
  have hread' : ioutilReadAll env file (w0.withKeyFile k) = ((y, none), w1.withKeyFile k) := by
    rw [ioutilReadAll_withKeyFile, hread]
  rw [hbase]
  unfold handleDecrypt
  rw [hsrc']
  simp only
  rw [handleDecryptFrom_of_unmarked env file _ _ y hread' hp]
  exact stdoutWrite_withKeyFile env y w1 k


/-- C22: on an input with the marker, `handleEncrypt` gives the same result,
the same output and the same calls in any two states of the key store, leaves
the key file as it found it, and its calls are the read and one write: the
provider is not built.  The same holds for `handleDecrypt` on an input without
the marker (read in full).  Neither run depends on what `crypto.Build`,
`crypto.Encrypt` or `crypto.Decrypt` would do. -/
theorem passthrough_key_independent (env : Env) (c cd : Context) (w wd wd0 wd1 : World)
    (file : Reader) (y : Bytes)
    (hp : bytesHasPrefix w.stdin prefixBytes = true)
    (hsrc : decryptInput cd wd = (.ok file, wd0))
    (hread : ioutilReadAll env file wd0 = ((y, none), wd1))
    (hy : bytesHasPrefix y prefixBytes = false) :
    (∀ k1 k2 : Option Bytes,
      (handleEncrypt env c (w.withKeyFile k1)).1 = (handleEncrypt env c (w.withKeyFile k2)).1 ∧
      (handleEncrypt env c (w.withKeyFile k1)).2.stdout =
        (handleEncrypt env c (w.withKeyFile k2)).2.stdout ∧
      (handleEncrypt env c (w.withKeyFile k1)).2.log =
        (handleEncrypt env c (w.withKeyFile k2)).2.log ∧
      (handleEncrypt env c (w.withKeyFile k1)).2.keyFile = k1 ∧
      (handleEncrypt env c (w.withKeyFile k1)).2.log =
        w.log ++ [Call.readStdin, Call.stdoutWrite w.stdin]) ∧
    (∀ k1 k2 : Option Bytes,
      (handleDecrypt env cd (wd.withKeyFile k1)).1 =
        (handleDecrypt env cd (wd.withKeyFile k2)).1 ∧
      (handleDecrypt env cd (wd.withKeyFile k1)).2.stdout =
        (handleDecrypt env cd (wd.withKeyFile k2)).2.stdout ∧
      (handleDecrypt env cd (wd.withKeyFile k1)).2.log =
        (handleDecrypt env cd (wd.withKeyFile k2)).2.log ∧
      (handleDecrypt env cd (wd.withKeyFile k1)).2.keyFile = k1 ∧
      (handleDecrypt env cd (wd.withKeyFile k1)).2.log = wd1.log ++ [Call.stdoutWrite y] ∧
      (Call.build ∈ (handleDecrypt env cd (wd.withKeyFile k1)).2.log → Call.build ∈ wd.log)) ∧
    (∀ (build : Option Bytes → Except Error Provider × Option Bytes)
        (encrypt decrypt : Provider → Bytes → Except Error Bytes),
      handleEncrypt { env with Build := build, Encrypt := encrypt, Decrypt := decrypt } c w =
        handleEncrypt env c w ∧
      handleDecrypt { env with Build := build, Encrypt := encrypt, Decrypt := decrypt } cd wd =
        handleDecrypt env cd wd) := by
  refine ⟨fun k1 k2 => ?_, fun k1 k2 => ?_, fun build encrypt decrypt => ?_⟩
  · rw [handleEncrypt_marked_withKeyFile env c w k1 hp,
      handleEncrypt_marked_withKeyFile env c w k2 hp]
    refine ⟨rfl, rfl, rfl, rfl, ?_⟩
    rw [handleEncrypt_of_marked env c w hp]
    show (stdoutWrite env w.stdin (w.record Call.readStdin)).2.log = _
    rw [stdoutWrite_log]
    simp [World.record]
  · obtain ⟨hbase, h1⟩ := handleDecrypt_unmarked_withKeyFile env cd wd wd0 wd1 file y k1
      hsrc hread hy
    obtain ⟨_, h2⟩ := handleDecrypt_unmarked_withKeyFile env cd wd wd0 wd1 file y k2
      hsrc hread hy
    have hlog : (handleDecrypt env cd wd).2.log = wd1.log ++ [Call.stdoutWrite y] := by
      rw [hbase, stdoutWrite_log]
    rw [h1, h2]
    refine ⟨rfl, rfl, rfl, rfl, hlog, ?_⟩
    intro hmem
    have hmem' : Call.build ∈ (handleDecrypt env cd wd).2.log := hmem
    rw [hlog] at hmem'
    simp only [List.mem_append, List.mem_singleton, reduceCtorEq, or_false] at hmem'
    have hw1 := ioutilReadAll_world env file wd0
    rw [hread] at hw1
    simp only at hw1
    rw [hw1] at hmem'
    simp only [World.record, List.mem_append, List.mem_singleton] at hmem'
    rcases hmem' with h | h
    · rcases decryptInput_log cd wd wd0 file hsrc _ h with h' | ⟨path, h'⟩
      · exact h'
      · exact absurd h' (by simp)
    · cases file <;> simp at h
  · constructor
    · rw [handleEncrypt_of_marked _ c w hp, handleEncrypt_of_marked env c w hp]
      rfl
    · have hread' : ioutilReadAll
          { env with Build := build, Encrypt := encrypt, Decrypt := decrypt } file wd0 =
          ((y, none), wd1) := hread
      unfold handleDecrypt
      rw [hsrc]
      simp only
      rw [handleDecryptFrom_of_unmarked _ file wd0 wd1 y hread' hy,
        handleDecryptFrom_of_unmarked env file wd0 wd1 y hread hy]
      rfl

/-- C22, witness: the key file absent, and holding bytes that are no key. -/
theorem passthrough_key_independent_witness :
    ((handleEncrypt sampleEnv ⟨[]⟩
        ((sampleWorld (prefixBytes ++ [1, 2, 3]) [7]).withKeyFile none)).1 =
      (handleEncrypt sampleEnv ⟨[]⟩
        ((sampleWorld (prefixBytes ++ [1, 2, 3]) [7]).withKeyFile (some [0, 0]))).1 ∧
      (handleEncrypt sampleEnv ⟨[]⟩
        ((sampleWorld (prefixBytes ++ [1, 2, 3]) [7]).withKeyFile none)).2.stdout =
      (handleEncrypt sampleEnv ⟨[]⟩
        ((sampleWorld (prefixBytes ++ [1, 2, 3]) [7]).withKeyFile (some [0, 0]))).2.stdout ∧
      (handleEncrypt sampleEnv ⟨[]⟩
        ((sampleWorld (prefixBytes ++ [1, 2, 3]) [7]).withKeyFile none)).2.keyFile = none) ∧
    ((handleDecrypt sampleEnv ⟨[]⟩ ((sampleWorld [104, 105] [7]).withKeyFile none)).1 =
      (handleDecrypt sampleEnv ⟨[]⟩
        ((sampleWorld [104, 105] [7]).withKeyFile (some [0, 0]))).1 ∧
      (handleDecrypt sampleEnv ⟨[]⟩ ((sampleWorld [104, 105] [7]).withKeyFile none)).2.stdout =
      (handleDecrypt sampleEnv ⟨[]⟩
        ((sampleWorld [104, 105] [7]).withKeyFile (some [0, 0]))).2.stdout ∧
      (handleDecrypt sampleEnv ⟨[]⟩ ((sampleWorld [104, 105] [7]).withKeyFile none)).2.keyFile =
        none) :=
  have h := passthrough_key_independent sampleEnv ⟨[]⟩ ⟨[]⟩
    (sampleWorld (prefixBytes ++ [1, 2, 3]) [7]) (sampleWorld [104, 105] [7]) _ _
    Reader.stdin [104, 105] (by decide) rfl rfl (by decide)
  have he := h.1 none (some [0, 0])
  have hd := h.2.1 none (some [0, 0])
  ⟨⟨he.1, he.2.1, he.2.2.2.1⟩, ⟨hd.1, hd.2.1, hd.2.2.2.1⟩⟩


/-! ## Argument counts -/

theorem indexString_of_lt (args : List String) (i : Nat) (h : i < args.length) :
    indexString args i = .ok (args.get ⟨i, h⟩) := by
  unfold indexString
  rw [List.getElem?_eq_getElem h]
  rfl

/-- C23: the action `requireArgs fn args` never panics.  With as many
arguments as names it returns what `fn` returns from the same world, and with
any other count what it returns is the same for every `fn` and leaves the
world as it was: with more arguments the error is the one about too many
arguments, with fewer the name `args[n]` exists and the error names it.  So
the result is that of `fn` for every `fn` exactly when the counts agree. -/
theorem requireArgs_arity (args : List String) (c : CommandContext) (w : World) :
    (∀ fn : Action, ∃ r, requireArgs fn args c w = .ok r) ∧
    (c.args.length = args.length → ∀ fn : Action, requireArgs fn args c w = .ok (fn c w)) ∧
    (c.args.length > args.length → ∀ fn : Action,
      requireArgs fn args c w =
        .ok (some ("Too many args passed to " ++ c.fullName ++
          ".  Try running --help to see usage"), w)) ∧
    (c.args.length < args.length →
      ∃ name, args[c.args.length]? = some name ∧ ∀ fn : Action,
        requireArgs fn args c w =
          .ok (some ("Not enough arguments provided, needs " ++ name ++
            ", try running --help to see usage"), w)) ∧
    ((∀ fn : Action, requireArgs fn args c w = .ok (fn c w)) ↔
      c.args.length = args.length) := by
  have hmore : c.args.length > args.length → ∀ fn : Action,
      requireArgs fn args c w =
        .ok (some ("Too many args passed to " ++ c.fullName ++
          ".  Try running --help to see usage"), w) := by
    intro h fn
    unfold requireArgs
    simp only [h, if_true]
  have hless : c.args.length < args.length → ∀ fn : Action,
      requireArgs fn args c w =
        .ok (some ("Not enough arguments provided, needs " ++
          args.getD c.args.length "" ++ ", try running --help to see usage"), w) := by
    intro h fn
    have h' : ¬ c.args.length > args.length := by omega
    unfold requireArgs
    simp only [h', h, if_true, if_false, indexString_of_lt args _ h]
    rw [List.getD_eq_getElem _ _ h]
    rfl
  have heq : c.args.length = args.length → ∀ fn : Action,
      requireArgs fn args c w = .ok (fn c w) := by
    intro h fn
    have h1 : ¬ c.args.length > args.length := by omega
    have h2 : ¬ c.args.length < args.length := by omega
    unfold requireArgs
    simp only [h1, h2, if_false]
  refine ⟨fun fn => ?_, heq, hmore, fun h => ?_, ?_, heq⟩
  · rcases Nat.lt_trichotomy c.args.length args.length with h | h | h
    · exact ⟨_, hless h fn⟩
    · exact ⟨_, heq h fn⟩
    · exact ⟨_, hmore h fn⟩
  · refine ⟨args.getD c.args.length "", ?_, hless h⟩
    rw [List.getD_eq_getElem _ _ h, List.getElem?_eq_getElem h]
  · intro hall
    rcases Nat.lt_trichotomy c.args.length args.length with h | h | h
    · have h1 := hall (fun _ w0 => (none, w0))
      rw [hless h] at h1
      simp at h1
    · exact h
    · have h1 := hall (fun _ w0 => (none, w0))
      rw [hmore h] at h1
      simp at h1

/-- C23, witness: two names; two arguments run the action, three are too
many, and one argument is answered with the second name. -/
theorem requireArgs_arity_witness :
    requireArgs sampleAction ["REPO", "NAME"] ⟨⟨["a", "b"]⟩, "plural logs tail"⟩
        (sampleWorld [] [7]) =
      .ok (some "a", (sampleWorld [] [7]).record Call.readStdin) ∧
    requireArgs sampleAction ["REPO", "NAME"] ⟨⟨["a", "b", "c"]⟩, "plural logs tail"⟩
        (sampleWorld [] [7]) =
      .ok (some "Too many args passed to plural logs tail.  Try running --help to see usage",
        sampleWorld [] [7]) ∧
    requireArgs sampleAction ["REPO", "NAME"] ⟨⟨["a"]⟩, "plural logs tail"⟩
        (sampleWorld [] [7]) =
      .ok (some "Not enough arguments provided, needs NAME, try running --help to see usage",
        sampleWorld [] [7]) :=
  ⟨(requireArgs_arity ["REPO", "NAME"] ⟨⟨["a", "b"]⟩, "plural logs tail"⟩
      (sampleWorld [] [7])).2.1 rfl sampleAction,
    (requireArgs_arity ["REPO", "NAME"] ⟨⟨["a", "b", "c"]⟩, "plural logs tail"⟩
      (sampleWorld [] [7])).2.2.1 (by decide) sampleAction,
    by
      obtain ⟨name, hn, h⟩ := (requireArgs_arity ["REPO", "NAME"]
        ⟨⟨["a"]⟩, "plural logs tail"⟩ (sampleWorld [] [7])).2.2.2.1 (by decide)
      have hname : name = "NAME" := by
        simp at hn
        exact hn.symm
      subst hname
      exact h sampleAction⟩

/-! ## The zone of a region -/

theorem splitAt_ne_nil (sep : Char) (l : List Char) : splitAt sep l ≠ [] := by
  cases l with
  | nil => simp [splitAt]
  | cons ch rest =>
    unfold splitAt
    split
    · simp
    · split <;> simp

theorem splitAt_of_not_mem (sep : Char) (l : List Char) (h : sep ∉ l) :
    splitAt sep l = [l] := by
  induction l with
  | nil => rfl
  | cons ch rest ih =>
    simp only [List.mem_cons, not_or] at h
    have hne : ¬ ch = sep := fun e => h.1 e.symm
    unfold splitAt
    rw [if_neg hne, ih h.2]

theorem splitAt_append_sep (sep : Char) (a b : List Char) (h : sep ∉ a) :
    splitAt sep (a ++ sep :: b) = a :: splitAt sep b := by
  induction a with
  | nil =>
    show splitAt sep (sep :: b) = _
    rw [splitAt, if_pos rfl]
  | cons ch rest ih =>
    simp only [List.mem_cons, not_or] at h
    have hne : ¬ ch = sep := fun e => h.1 e.symm
    show splitAt sep (ch :: (rest ++ sep :: b)) = _
    rw [splitAt, if_neg hne, ih h.2]

theorem exists_first_sep (sep : Char) (l : List Char) (h : sep ∈ l) :
    ∃ a b, sep ∉ a ∧ l = a ++ sep :: b := by
  induction l with
  | nil => simp at h
  | cons ch rest ih =>
    by_cases hc : ch = sep
    · exact ⟨[], rest, by simp, by simp [hc]⟩
    · have hr : sep ∈ rest := by
        rcases List.mem_cons.1 h with e | e
        · exact absurd e.symm hc
        · exact e
      obtain ⟨a, b, ha, hb⟩ := ih hr
      refine ⟨ch :: a, b, ?_, by simp [hb]⟩
      simp only [List.mem_cons, not_or]
      exact ⟨fun e => hc e.symm, ha⟩

theorem getZone_of_split (region : String) (a b : List Char) (rest : List (List Char))
    (h : splitAt '-' region.data = a :: b :: rest) :
    getZone region = .ok ⟨a ++ '-' :: b⟩ := by
  unfold getZone stringsSplit sliceTo
  rw [h]
  simp only [List.map_cons, List.length_cons]
  rw [if_pos (by omega)]
  simp only [List.take_succ_cons, List.take_zero, stringsJoin]
  congr 1
  apply String.ext
  simp [String.data_append]

theorem getZone_two (a b : List Char) (ha : '-' ∉ a) (hb : '-' ∉ b) :
    getZone ⟨a ++ '-' :: b⟩ = .ok ⟨a ++ '-' :: b⟩ :=
  getZone_of_split ⟨a ++ '-' :: b⟩ a b []
    (by rw [splitAt_append_sep _ a b ha, splitAt_of_not_mem _ b hb])

/-- C24: for a region with a `-`, `getZone` returns the first two of its
segments, joined by `-`: the region is `a-b` or `a-b-t` with no `-` in `a` and
`b`, and the result is `a-b`, on which `getZone` returns `a-b` again.  The
region `us-east1-b` gives `us-east1`.  For a region without a `-`, the empty
one included, `strings.Split` returns one segment and the slice of two panics. -/
theorem getZone_spec :
    (∀ region : String, '-' ∈ region.data →
      ∃ a b : List Char, '-' ∉ a ∧ '-' ∉ b ∧
        (region.data = a ++ '-' :: b ∨ ∃ t, region.data = a ++ '-' :: (b ++ '-' :: t)) ∧
        (∃ rest, stringsSplit region '-' = String.mk a :: String.mk b :: rest) ∧
        getZone region = .ok ⟨a ++ '-' :: b⟩ ∧
        getZone ⟨a ++ '-' :: b⟩ = .ok ⟨a ++ '-' :: b⟩) ∧
    (∀ region zone : String, getZone region = .ok zone → getZone zone = .ok zone) ∧
    getZone "us-east1-b" = .ok "us-east1" ∧
    (∀ region : String, '-' ∉ region.data →
      stringsSplit region '-' = [region] ∧
      getZone region = .error "runtime error: slice bounds out of range") ∧
    getZone "" = .error "runtime error: slice bounds out of range" := by
  have hyes : ∀ region : String, '-' ∈ region.data →
      ∃ a b : List Char, '-' ∉ a ∧ '-' ∉ b ∧
        (region.data = a ++ '-' :: b ∨ ∃ t, region.data = a ++ '-' :: (b ++ '-' :: t)) ∧
        (∃ rest, stringsSplit region '-' = String.mk a :: String.mk b :: rest) ∧
        getZone region = .ok ⟨a ++ '-' :: b⟩ ∧
        getZone ⟨a ++ '-' :: b⟩ = .ok ⟨a ++ '-' :: b⟩ := by
    intro region hmem
    obtain ⟨a, r, ha, hr⟩ := exists_first_sep '-' region.data hmem
    by_cases hrm : '-' ∈ r
    · obtain ⟨b, t, hb, ht⟩ := exists_first_sep '-' r hrm
      have hs : splitAt '-' region.data = a :: b :: splitAt '-' t := by
        rw [hr, splitAt_append_sep _ a r ha, ht, splitAt_append_sep _ b t hb]
      refine ⟨a, b, ha, hb, Or.inr ⟨t, by rw [hr, ht]⟩, ⟨(splitAt '-' t).map String.mk, ?_⟩,
        getZone_of_split region a b _ hs, getZone_two a b ha hb⟩
      unfold stringsSplit
      rw [hs]
      rfl
    · have hs : splitAt '-' region.data = [a, r] := by
        rw [hr, splitAt_append_sep _ a r ha, splitAt_of_not_mem _ r hrm]
      refine ⟨a, r, ha, hrm, Or.inl hr, ⟨[], ?_⟩,
        getZone_of_split region a r _ hs, getZone_two a r ha hrm⟩
      unfold stringsSplit
      rw [hs]
      rfl
  have hno : ∀ region : String, '-' ∉ region.data →
      stringsSplit region '-' = [region] ∧
      getZone region = .error "runtime error: slice bounds out of range" := by
    intro region hmem
    have hs : stringsSplit region '-' = [region] := by
      unfold stringsSplit
      rw [splitAt_of_not_mem _ _ hmem]
      rfl
    refine ⟨hs, ?_⟩
    unfold getZone
    simp only [hs]
    rfl
  refine ⟨hyes, ?_,
    (getZone_of_split "us-east1-b" "us".data "east1".data ["b".data] (by decide)).trans rfl,
    hno, (hno "" (by decide)).2⟩
  intro region zone hz
  by_cases hmem : '-' ∈ region.data
  · obtain ⟨a, b, _, _, _, _, h1, h2⟩ := hyes region hmem
    rw [h1] at hz
    cases hz
    exact h2
  · rw [(hno region hmem).2] at hz
    cases hz

/-- C24, witness: the zone of `us-east1-b` is its own zone, and a region
without a `-` makes `getZone` panic. -/
theorem getZone_spec_witness :
    getZone "us-east1" = .ok "us-east1" ∧
    getZone "europe" = .error "runtime error: slice bounds out of range" :=
  ⟨getZone_spec.2.1 "us-east1-b" "us-east1" getZone_spec.2.2.1,
    (getZone_spec.2.2.2.1 "europe" (by decide)).2⟩

end Plural
